import Mathlib

/-!
# Share Your Files — verification of spec claims against the source

Shallow embedding of the parts of the ShareYourFiles (SYF) code base that the
frozen claims talk about, together with theorems settling each claim.

Conventions used throughout:
* Machine integers are modelled as `Nat`; where C++ unsigned wraparound is
  observable the reduction `% 2^w` is written explicitly.
* Character strings (`QString`) are modelled as lists of unicode scalar
  values (`List Nat`); `QByteArray` as a list of byte values (`List Nat`).
* External effects (file system outcomes, socket write outcomes, user
  decisions) are passed in as explicit boolean/function parameters, so every
  definition is executable.
-/

namespace SYF

/-- Unicode scalar values of a string literal (QString contents). -/
def sv (s : String) : List Nat := s.toList.map Char.toNat

/-! ## FileInTransfer (src/ShareYourFiles/FileTransfer/fileintransfer.{hpp,cpp})

`FileInTransfer` is the transactional per-file reader/writer.  The model keeps
the member fields of the C++ class that the control flow reads or writes:
`m_error`, `m_exists`, `m_remainingBytes`, the `m_transferStarted`,
`m_committed` and `m_rollbacked` flags, and whether the underlying `QFile`/
`QSaveFile` is open.  `size` mirrors `m_fileInfo.size()` (constant after
construction).  `written` is a ghost counter of the bytes successfully written
to (read from) the file; the C++ code tracks the same quantity implicitly as
`size - m_remainingBytes`.
-/

/-- `FileInTransfer::MAX_CHUNK_SIZE` (fileintransfer.hpp line 45). -/
def MAX_CHUNK_SIZE : Nat := 8192

structure FileInTransfer where
  error : Bool
  fileExists : Bool
  remainingBytes : Nat
  size : Nat
  transferStarted : Bool
  committed : Bool
  rollbacked : Bool
  fileOpen : Bool
  written : Nat
  deriving DecidableEq, Repr

namespace FileInTransfer

/-- Common part of the `FileInTransfer` constructor: `m_error` starts as
`!fileInfo.valid()`, `m_exists` caches `basePath.exists(filePath)`,
`m_remainingBytes` starts at the declared file size. -/
def mkBase (fiValid : Bool) (size : Nat) (fsExists : Bool) : FileInTransfer :=
  { error := !fiValid, fileExists := fsExists, remainingBytes := size,
    size := size, transferStarted := false, committed := false,
    rollbacked := false, fileOpen := false, written := 0 }

/-- `FileInTransferWriter` constructor: on a valid descriptor it creates the
target directory (`mkpathOk`) and opens the temporary save file (`openOk`);
each failure sets the error flag, the open is attempted regardless of the
mkpath outcome (the C++ code does not return after the mkpath failure). -/
def mkWriter (fiValid : Bool) (size : Nat) (fsExists mkpathOk openOk : Bool) :
    FileInTransfer :=
  let base := mkBase fiValid size fsExists
  if base.error then base
  else { base with error := !mkpathOk || !openOk, fileOpen := openOk }

/-- `FileInTransferReader::updated()`: true iff the cached information is no
longer valid; `infoOk` abstracts `info.exists() && info.isFile() &&
info.isReadable() && size/lastModified unchanged`. -/
def readerUpdated (s : FileInTransfer) (infoOk : Bool) : Bool :=
  !(s.fileExists && infoOk)

/-- `FileInTransferReader` constructor: an invalid descriptor or an
already-changed file sets the error flag without opening; otherwise the file
is opened (`openOk`). -/
def mkReader (fiValid : Bool) (size : Nat) (fsExists infoOk openOk : Bool) :
    FileInTransfer :=
  let base := mkBase fiValid size fsExists
  if base.error || base.readerUpdated infoOk then { base with error := true }
  else { base with error := !openOk, fileOpen := openOk }

/-- `FileInTransferWriter::processNextDataChunk` on a chunk of `len` bytes;
`ioOk` abstracts the outcome of `m_file.write` (false = short write).
Returns the C++ return value and the updated object. -/
def writerProcessChunk (s : FileInTransfer) (len : Nat) (ioOk : Bool) :
    Bool × FileInTransfer :=
  let s := { s with transferStarted := true }
  if s.error || !s.fileOpen || s.remainingBytes < len then
    (false, { s with error := true })
  else if !ioOk then (false, { s with error := true })
  else (true, { s with remainingBytes := s.remainingBytes - len,
                       written := s.written + len })

/-- `FileInTransferWriter::rollback`: refused after a successful commit;
otherwise `cancelWriting` discards the temporary file and the rollbacked and
error flags are set. -/
def writerRollback (s : FileInTransfer) : Bool × FileInTransfer :=
  if s.committed then (false, s)
  else (true, { s with rollbacked := true, error := true, fileOpen := false })

/-- `FileInTransferWriter::commit`; `ioOk` abstracts `m_file.commit()`
(the atomic rename of the temporary file into place). -/
def writerCommit (s : FileInTransfer) (ioOk : Bool) : Bool × FileInTransfer :=
  let s := { s with transferStarted := true }
  if s.committed then (true, s)
  else if !s.fileOpen || s.error || s.remainingBytes != 0 then
    (false, (s.writerRollback).2)
  else if ioOk then (true, { s with committed := true, fileOpen := false })
  else (false, (s.writerRollback).2)

/-- `FileInTransferReader::processNextDataChunk`: the reader itself chooses
`toRead = min remaining MAX_CHUNK_SIZE`; `ioOk` abstracts a complete
`m_file.read` of that many bytes. -/
def readerProcessChunk (s : FileInTransfer) (ioOk : Bool) :
    Bool × FileInTransfer :=
  let s := { s with transferStarted := true }
  if s.error || s.remainingBytes == 0 || !s.fileOpen then
    (false, { s with error := true })
  else
    let toRead := if s.remainingBytes > MAX_CHUNK_SIZE then MAX_CHUNK_SIZE
                  else s.remainingBytes
    if !ioOk then (false, { s with error := true })
    else (true, { s with remainingBytes := s.remainingBytes - toRead,
                         written := s.written + toRead })

/-- `FileInTransferReader::rollback`. -/
def readerRollback (s : FileInTransfer) : Bool × FileInTransfer :=
  if s.committed then (false, s)
  else (true, { s with rollbacked := true, error := true, fileOpen := false })

/-- `FileInTransferReader::commit`; `atEnd` abstracts `m_file.atEnd()` and
`infoOk` the file-unchanged check performed by `updated()`. -/
def readerCommit (s : FileInTransfer) (atEnd infoOk : Bool) :
    Bool × FileInTransfer :=
  let s := { s with transferStarted := true }
  if s.committed then (true, s)
  else if s.error || s.remainingBytes != 0 || !atEnd ||
          s.readerUpdated infoOk then
    (false, (s.readerRollback).2)
  else (true, { s with committed := true, fileOpen := false })

end FileInTransfer

/-- Operations a client can perform on a `FileInTransferWriter`, with the
external I/O outcomes recorded in the operation. -/
inductive WriterOp
  | chunk (len : Nat) (ioOk : Bool)
  | commit (ioOk : Bool)
  | rollback
  deriving DecidableEq, Repr

/-- Operations a client can perform on a `FileInTransferReader`. -/
inductive ReaderOp
  | chunk (ioOk : Bool)
  | commit (atEnd infoOk : Bool)
  | rollback
  deriving DecidableEq, Repr

def writerStep (s : FileInTransfer) : WriterOp → FileInTransfer
  | .chunk len ioOk => (s.writerProcessChunk len ioOk).2
  | .commit ioOk => (s.writerCommit ioOk).2
  | .rollback => (s.writerRollback).2

def readerStep (s : FileInTransfer) : ReaderOp → FileInTransfer
  | .chunk ioOk => (s.readerProcessChunk ioOk).2
  | .commit atEnd infoOk => (s.readerCommit atEnd infoOk).2
  | .rollback => (s.readerRollback).2

def runWriter (s : FileInTransfer) (ops : List WriterOp) : FileInTransfer :=
  ops.foldl writerStep s

def runReader (s : FileInTransfer) (ops : List ReaderOp) : FileInTransfer :=
  ops.foldl readerStep s

/-- Data invariant maintained by every `FileInTransfer` instance. -/
structure FitInv (s : FileInTransfer) : Prop where
  notBoth : ¬(s.committed = true ∧ s.rollbacked = true)
  commStarted : s.committed = true → s.transferStarted = true
  rollErr : s.rollbacked = true → s.error = true
  bytes : s.written + s.remainingBytes = s.size
  commDone : s.committed = true → s.remainingBytes = 0

theorem fitInv_mkWriter (fiValid : Bool) (size : Nat)
    (fsExists mkpathOk openOk : Bool) :
    FitInv (FileInTransfer.mkWriter fiValid size fsExists mkpathOk openOk) := by
  unfold FileInTransfer.mkWriter FileInTransfer.mkBase
  cases fiValid <;> cases mkpathOk <;> cases openOk <;>
    exact ⟨by simp, by simp, by simp, by simp, by simp⟩

theorem fitInv_mkReader (fiValid : Bool) (size : Nat)
    (fsExists infoOk openOk : Bool) :
    FitInv (FileInTransfer.mkReader fiValid size fsExists infoOk openOk) := by
  unfold FileInTransfer.mkReader FileInTransfer.readerUpdated
    FileInTransfer.mkBase
  cases fiValid <;> cases fsExists <;> cases infoOk <;> cases openOk <;>
    exact ⟨by simp, by simp, by simp, by simp, by simp⟩

theorem fitInv_writerStep (s : FileInTransfer) (op : WriterOp)
    (h : FitInv s) : FitInv (writerStep s op) := by
  obtain ⟨h1, h2, h3, h4, h5⟩ := h
  cases op with
  | chunk len ioOk =>
      simp only [writerStep, FileInTransfer.writerProcessChunk]
      split
      · refine ⟨?_, ?_, ?_, ?_, ?_⟩ <;> simp_all
      · rename_i hguard
        simp only [Bool.or_eq_true, not_or, Bool.not_eq_true',
          decide_eq_true_eq, Bool.not_eq_true] at hguard
        split
        · refine ⟨?_, ?_, ?_, ?_, ?_⟩ <;> simp_all
        · refine ⟨?_, ?_, ?_, ?_, ?_⟩ <;> simp_all <;> omega
  | commit ioOk =>
      simp only [writerStep, FileInTransfer.writerCommit,
        FileInTransfer.writerRollback]
      split
      · refine ⟨?_, ?_, ?_, ?_, ?_⟩ <;> simp_all
      · rename_i hnc
        split
        · rename_i hguard
          refine ⟨?_, ?_, ?_, ?_, ?_⟩ <;> simp_all
        · rename_i hguard
          simp only [Bool.or_eq_true, not_or, Bool.not_eq_true',
            bne_iff_ne, ne_eq, Decidable.not_not] at hguard
          split
          · refine ⟨?_, ?_, ?_, ?_, ?_⟩ <;> simp_all
          · refine ⟨?_, ?_, ?_, ?_, ?_⟩ <;> simp_all
  | rollback =>
      simp only [writerStep, FileInTransfer.writerRollback]
      split
      · exact ⟨h1, h2, h3, h4, h5⟩
      · refine ⟨?_, ?_, ?_, ?_, ?_⟩ <;> simp_all

theorem fitInv_readerStep (s : FileInTransfer) (op : ReaderOp)
    (h : FitInv s) : FitInv (readerStep s op) := by
  obtain ⟨h1, h2, h3, h4, h5⟩ := h
  cases op with
  | chunk ioOk =>
      simp only [readerStep, FileInTransfer.readerProcessChunk]
      split
      · refine ⟨?_, ?_, ?_, ?_, ?_⟩ <;> simp_all
      · rename_i hguard
        simp only [Bool.or_eq_true, not_or, Bool.not_eq_true',
          beq_iff_eq, Bool.not_eq_true] at hguard
        split
        · refine ⟨?_, ?_, ?_, ?_, ?_⟩ <;> simp_all
        · refine ⟨?_, ?_, ?_, ?_, ?_⟩ <;>
            simp_all [MAX_CHUNK_SIZE] <;> split <;> omega
  | commit atEnd infoOk =>
      simp only [readerStep, FileInTransfer.readerCommit,
        FileInTransfer.readerRollback]
      split
      · refine ⟨?_, ?_, ?_, ?_, ?_⟩ <;> simp_all
      · rename_i hnc
        split
        · rename_i hguard
          refine ⟨?_, ?_, ?_, ?_, ?_⟩ <;> simp_all
        · rename_i hguard
          simp only [Bool.or_eq_true, not_or, Bool.not_eq_true',
            bne_iff_ne, ne_eq, Decidable.not_not] at hguard
          refine ⟨?_, ?_, ?_, ?_, ?_⟩ <;> simp_all
  | rollback =>
      simp only [readerStep, FileInTransfer.readerRollback]
      split
      · exact ⟨h1, h2, h3, h4, h5⟩
      · refine ⟨?_, ?_, ?_, ?_, ?_⟩ <;> simp_all

theorem fitInv_runWriter (s : FileInTransfer) (ops : List WriterOp)
    (h : FitInv s) : FitInv (runWriter s ops) := by
  induction ops generalizing s with
  | nil => exact h
  | cons op rest ih => exact ih _ (fitInv_writerStep s op h)

theorem fitInv_runReader (s : FileInTransfer) (ops : List ReaderOp)
    (h : FitInv s) : FitInv (runReader s ops) := by
  induction ops generalizing s with
  | nil => exact h
  | cons op rest ih => exact ih _ (fitInv_readerStep s op h)

theorem setTransferStarted_eq (s : FileInTransfer)
    (h : s.transferStarted = true) : { s with transferStarted := true } = s := by
  cases s
  simp_all

/-- **C10**: for every `FileInTransfer` instance (writer or reader) and every
sequence of `processNextDataChunk`, `commit` and `rollback` calls, the
committed and rolled-back flags are never both set; `rollback` invoked after a
successful `commit` returns false and changes nothing; `commit` invoked after
a `rollback` returns false; and a second `commit` after a successful one
returns true without further effect. -/
theorem c10_commit_rollback_exclusive
    (fiValid : Bool) (size : Nat) (fsExists mkpathOk openOk : Bool)
    (wops : List WriterOp)
    (fiValid2 : Bool) (size2 : Nat) (fsExists2 infoOk2 openOk2 : Bool)
    (rops : List ReaderOp) :
    (¬((runWriter (FileInTransfer.mkWriter fiValid size fsExists mkpathOk
          openOk) wops).committed = true ∧
       (runWriter (FileInTransfer.mkWriter fiValid size fsExists mkpathOk
          openOk) wops).rollbacked = true) ∧
     ((runWriter (FileInTransfer.mkWriter fiValid size fsExists mkpathOk
          openOk) wops).committed = true →
        (runWriter (FileInTransfer.mkWriter fiValid size fsExists mkpathOk
          openOk) wops).writerRollback =
        (false, runWriter (FileInTransfer.mkWriter fiValid size fsExists
          mkpathOk openOk) wops)) ∧
     ((runWriter (FileInTransfer.mkWriter fiValid size fsExists mkpathOk
          openOk) wops).rollbacked = true → ∀ ioOk,
        ((runWriter (FileInTransfer.mkWriter fiValid size fsExists mkpathOk
          openOk) wops).writerCommit ioOk).1 = false) ∧
     ((runWriter (FileInTransfer.mkWriter fiValid size fsExists mkpathOk
          openOk) wops).committed = true → ∀ ioOk,
        (runWriter (FileInTransfer.mkWriter fiValid size fsExists mkpathOk
          openOk) wops).writerCommit ioOk =
        (true, runWriter (FileInTransfer.mkWriter fiValid size fsExists
          mkpathOk openOk) wops))) ∧
    (¬((runReader (FileInTransfer.mkReader fiValid2 size2 fsExists2 infoOk2
          openOk2) rops).committed = true ∧
       (runReader (FileInTransfer.mkReader fiValid2 size2 fsExists2 infoOk2
          openOk2) rops).rollbacked = true) ∧
     ((runReader (FileInTransfer.mkReader fiValid2 size2 fsExists2 infoOk2
          openOk2) rops).committed = true →
        (runReader (FileInTransfer.mkReader fiValid2 size2 fsExists2 infoOk2
          openOk2) rops).readerRollback =
        (false, runReader (FileInTransfer.mkReader fiValid2 size2 fsExists2
          infoOk2 openOk2) rops)) ∧
     ((runReader (FileInTransfer.mkReader fiValid2 size2 fsExists2 infoOk2
          openOk2) rops).rollbacked = true → ∀ atEnd infoOk,
        ((runReader (FileInTransfer.mkReader fiValid2 size2 fsExists2 infoOk2
          openOk2) rops).readerCommit atEnd infoOk).1 = false) ∧
     ((runReader (FileInTransfer.mkReader fiValid2 size2 fsExists2 infoOk2
          openOk2) rops).committed = true → ∀ atEnd infoOk,
        (runReader (FileInTransfer.mkReader fiValid2 size2 fsExists2 infoOk2
          openOk2) rops).readerCommit atEnd infoOk =
        (true, runReader (FileInTransfer.mkReader fiValid2 size2 fsExists2
          infoOk2 openOk2) rops))) := by
  have hw := fitInv_runWriter _ wops
    (fitInv_mkWriter fiValid size fsExists mkpathOk openOk)
  have hr := fitInv_runReader _ rops
    (fitInv_mkReader fiValid2 size2 fsExists2 infoOk2 openOk2)
  set w := runWriter (FileInTransfer.mkWriter fiValid size fsExists mkpathOk
    openOk) wops with hwdef
  set r := runReader (FileInTransfer.mkReader fiValid2 size2 fsExists2 infoOk2
    openOk2) rops with hrdef
  clear_value w r
  obtain ⟨w1, w2, w3, w4, w5⟩ := hw
  obtain ⟨r1, r2, r3, r4, r5⟩ := hr
  refine ⟨⟨w1, ?_, ?_, ?_⟩, ⟨r1, ?_, ?_, ?_⟩⟩
  · intro hc
    simp [FileInTransfer.writerRollback, hc]
  · intro hrb ioOk
    have hnc : w.committed = false := by
      cases hcm : w.committed
      · rfl
      · exact absurd ⟨hcm, hrb⟩ w1
    have herr : w.error = true := w3 hrb
    simp [FileInTransfer.writerCommit, hnc, herr]
  · intro hc ioOk
    have hts := w2 hc
    cases w
    simp_all [FileInTransfer.writerCommit]
  · intro hc
    simp [FileInTransfer.readerRollback, hc]
  · intro hrb atEnd infoOk
    have hnc : r.committed = false := by
      cases hcm : r.committed
      · rfl
      · exact absurd ⟨hcm, hrb⟩ r1
    have herr : r.error = true := r3 hrb
    simp [FileInTransfer.readerCommit, hnc, herr]
  · intro hc atEnd infoOk
    have hts := r2 hc
    cases r
    simp_all [FileInTransfer.readerCommit]

/-- Witness for `c10_commit_rollback_exclusive` at a concrete run: a writer
that wrote 5 of 5 bytes and committed, and a reader that was rolled back. -/
theorem c10_commit_rollback_exclusive_witness :
    ¬((runWriter (FileInTransfer.mkWriter true 5 false true true)
        [.chunk 5 true, .commit true]).committed = true ∧
      (runWriter (FileInTransfer.mkWriter true 5 false true true)
        [.chunk 5 true, .commit true]).rollbacked = true) ∧
    ((runReader (FileInTransfer.mkReader true 5 true true true)
        [.rollback]).readerCommit true true).1 = false :=
  ⟨(c10_commit_rollback_exclusive true 5 false true true
      [.chunk 5 true, .commit true] true 5 true true true [.rollback]).1.1,
   (c10_commit_rollback_exclusive true 5 false true true
      [.chunk 5 true, .commit true] true 5 true true true [.rollback]).2.2.2.1
      (by decide) true true⟩

/-- **C9**: a `FileInTransferWriter` refuses (returns false, sets the error
flag, writes nothing) any chunk longer than the bytes still remaining of the
declared size; `commit` can only succeed when the remaining count is zero; and
the bytes written never exceed the declared size, with a committed writer
having written exactly the declared size. -/
theorem c9_writer_never_exceeds_size
    (fiValid : Bool) (size : Nat) (fsExists mkpathOk openOk : Bool)
    (ops : List WriterOp) (len : Nat) (ioOk : Bool) :
    ((runWriter (FileInTransfer.mkWriter fiValid size fsExists mkpathOk
        openOk) ops).remainingBytes < len →
      (runWriter (FileInTransfer.mkWriter fiValid size fsExists mkpathOk
        openOk) ops).writerProcessChunk len ioOk =
      (false, { runWriter (FileInTransfer.mkWriter fiValid size fsExists
        mkpathOk openOk) ops with transferStarted := true, error := true })) ∧
    (∀ commitOk,
      ((runWriter (FileInTransfer.mkWriter fiValid size fsExists mkpathOk
         openOk) ops).writerCommit commitOk).1 = true →
      (runWriter (FileInTransfer.mkWriter fiValid size fsExists mkpathOk
         openOk) ops).remainingBytes = 0) ∧
    (runWriter (FileInTransfer.mkWriter fiValid size fsExists mkpathOk
       openOk) ops).written +
      (runWriter (FileInTransfer.mkWriter fiValid size fsExists mkpathOk
       openOk) ops).remainingBytes =
      (runWriter (FileInTransfer.mkWriter fiValid size fsExists mkpathOk
       openOk) ops).size ∧
    (runWriter (FileInTransfer.mkWriter fiValid size fsExists mkpathOk
       openOk) ops).size = size ∧
    ((runWriter (FileInTransfer.mkWriter fiValid size fsExists mkpathOk
       openOk) ops).committed = true →
      (runWriter (FileInTransfer.mkWriter fiValid size fsExists mkpathOk
       openOk) ops).written = size) := by
  have hw := fitInv_runWriter _ ops
    (fitInv_mkWriter fiValid size fsExists mkpathOk openOk)
  have hstep : ∀ (s : FileInTransfer) (op : WriterOp),
      (writerStep s op).size = s.size := by
    intro s op
    cases op with
    | chunk len ioOk =>
        simp only [writerStep, FileInTransfer.writerProcessChunk]
        split
        · rfl
        · split <;> rfl
    | commit ioOk =>
        simp only [writerStep, FileInTransfer.writerCommit,
          FileInTransfer.writerRollback]
        repeat' split
        all_goals rfl
    | rollback =>
        simp only [writerStep, FileInTransfer.writerRollback]
        split <;> rfl
  have hrun : ∀ (l : List WriterOp) (s : FileInTransfer),
      (runWriter s l).size = s.size := by
    intro l
    induction l with
    | nil => intro s; rfl
    | cons op rest ih =>
        intro s
        calc (runWriter s (op :: rest)).size
            = (runWriter (writerStep s op) rest).size := rfl
          _ = (writerStep s op).size := ih _
          _ = s.size := hstep s op
  have hsz : (runWriter (FileInTransfer.mkWriter fiValid size fsExists mkpathOk
      openOk) ops).size = size := by
    rw [hrun]
    simp only [FileInTransfer.mkWriter, FileInTransfer.mkBase]
    split <;> rfl
  set w := runWriter (FileInTransfer.mkWriter fiValid size fsExists mkpathOk
    openOk) ops with hwdef
  clear_value w
  obtain ⟨w1, w2, w3, w4, w5⟩ := hw
  refine ⟨?_, ?_, w4, hsz, ?_⟩
  · intro hlt
    simp [FileInTransfer.writerProcessChunk, hlt]
  · intro commitOk hcm
    simp only [FileInTransfer.writerCommit] at hcm
    split at hcm
    · rename_i hc
      exact w5 (by simpa using hc)
    · split at hcm
      · simp at hcm
      · split at hcm
        · rename_i hguard _
          simp only [Bool.or_eq_true, not_or, Bool.not_eq_true',
            bne_iff_ne, ne_eq, Decidable.not_not] at hguard
          omega
        · simp at hcm
  · intro hc
    have := w5 hc
    omega

/-- Witness for `c9_writer_never_exceeds_size`: a writer for a 3-byte file
refuses a 5-byte chunk. -/
theorem c9_writer_never_exceeds_size_witness :
    (runWriter (FileInTransfer.mkWriter true 3 false true true)
       []).remainingBytes < 5 ∧
    (runWriter (FileInTransfer.mkWriter true 3 false true true)
       []).writerProcessChunk 5 true =
      (false, { runWriter (FileInTransfer.mkWriter true 3 false true true)
        [] with transferStarted := true, error := true }) :=
  ⟨by decide,
   (c9_writer_never_exceeds_size true 3 false true true [] 5 true).1
     (by decide)⟩

/-! ## Relative-path validation (fileinfo.cpp)

`QString` values are modelled as lists of unicode scalar values
(`List Nat`); the two characters the algorithms inspect are the path
separator `/` (47) and the dot `.` (46).  `cleanPathL` models
`QDir::cleanPath` on such strings (separator collapsing, removal of `.`
segments, resolution of `..` against a preceding segment, removal of the
trailing separator), `isRelativeL` models `QFileInfo::isRelative` for POSIX
paths (a path is relative iff it does not start with `/`), `fileNameL` models
`QFileInfo::fileName` (everything after the last `/`) and `dirNameL` models
`QFileInfo::path` (everything before the last `/`, or `.` if there is no
separator). -/

/-- Helper of `splitSlash`: the first segment of the string and the list of
the remaining segments. -/
def splitSlashA : List Nat → (List Nat × List (List Nat))
  | [] => ([], [])
  | c :: rest =>
      let r := splitSlashA rest
      if c = 47 then ([], r.1 :: r.2) else (c :: r.1, r.2)

/-- Split a string at every `/` (47); like `QString::split('/')`, the result
is never empty and keeps empty parts. -/
def splitSlash (p : List Nat) : List (List Nat) :=
  (splitSlashA p).1 :: (splitSlashA p).2

/-- Join segments with `/` (47) separators. -/
def joinSlash : List (List Nat) → List Nat
  | [] => []
  | [s] => s
  | s :: ss => s ++ 47 :: joinSlash ss

/-- Normalisation of the segment list, as performed by `QDir::cleanPath`:
empty and `.` segments are dropped, `..` cancels the preceding ordinary
segment, leading `..` segments are kept on relative paths and dropped on
absolute ones.  `racc` is the reversed accumulator of output segments. -/
def normSegs (absolute : Bool) (racc : List (List Nat)) :
    List (List Nat) → List (List Nat)
  | [] => racc.reverse
  | s :: rest =>
    if s = [] ∨ s = [46] then normSegs absolute racc rest
    else if s = [46, 46] then
      if racc = [] then
        (if absolute then normSegs absolute racc rest
         else normSegs absolute [s] rest)
      else if racc.headD [] = [46, 46] then normSegs absolute (s :: racc) rest
      else normSegs absolute racc.tail rest
    else normSegs absolute (s :: racc) rest

/-- Does the path start with the separator `/` (47)? -/
def startsSlash (p : List Nat) : Bool :=
  match p with
  | 47 :: _ => true
  | _ => false

/-- Model of `QDir::cleanPath` (restricted to POSIX separators, which is what
the SYF wire and picker paths use).  The empty string is returned unchanged,
exactly as `QDir::cleanPath` does. -/
def cleanPathL (p : List Nat) : List Nat :=
  if p = [] then []
  else
    let absolute := startsSlash p
    let segs := normSegs absolute [] (splitSlash p)
    if absolute then 47 :: joinSlash segs
    else if segs = [] then [46] else joinSlash segs

/-- Model of `QFileInfo::isRelative` on POSIX: no leading `/`. -/
def isRelativeL (p : List Nat) : Bool := !startsSlash p

/-- `QString::startsWith("../")`. -/
def startsDotDotSlash (p : List Nat) : Bool :=
  match p with
  | 46 :: 46 :: 47 :: _ => true
  | _ => false

/-- Model of `QFileInfo::fileName`: the part after the last `/`. -/
def fileNameL (p : List Nat) : List Nat := (splitSlash p).getLastD []

/-- Model of `QFileInfo::path`: the part before the last `/`, or `.` when the
path holds no separator. -/
def dirNameL (p : List Nat) : List Nat :=
  match splitSlash p with
  | [] => [46]
  | [_] => [46]
  | ss => joinSlash ss.dropLast

/-- The path test performed both by the `FileInfo` constructor
(fileinfo.cpp lines 42-47) and by `operator>>` (lines 113-118): the invalid
cases are `path != QDir::cleanPath(path)`, `path.startsWith("../")` and
`!QFileInfo(path).isRelative()`. -/
def fileInfoPathOk (p : List Nat) : Bool :=
  !(decide (p ≠ cleanPathL p) || startsDotDotSlash p || !isRelativeL p)

theorem splitSlash_ne_nil (p : List Nat) : splitSlash p ≠ [] := by
  simp [splitSlash]

theorem mem_splitSlash_no_slash (p : List Nat) :
    ∀ s ∈ splitSlash p, 47 ∉ s := by
  induction p with
  | nil => intro s hs; simp only [splitSlash, splitSlashA] at hs; simp_all
  | cons c rest ih =>
      intro s hs
      simp only [splitSlash, splitSlashA] at hs
      by_cases hc : c = 47
      · simp only [if_pos hc, List.mem_cons] at hs
        rcases hs with hs | hs | hs
        · simp [hs]
        · exact ih s (by simp [splitSlash, hs])
        · exact ih s (by simp [splitSlash, hs])
      · simp only [if_neg hc, List.mem_cons] at hs
        rcases hs with hs | hs
        · subst hs
          intro hmem
          rcases List.mem_cons.mp hmem with h47 | hmem
          · exact hc h47.symm
          · exact ih _ (by simp [splitSlash]) hmem
        · exact ih s (by simp [splitSlash, hs])

theorem mem_normSegs (absolute : Bool) (l : List (List Nat)) :
    ∀ racc, (∀ s ∈ racc, s ≠ [] ∧ 47 ∉ s) → (∀ s ∈ l, 47 ∉ s) →
    ∀ s ∈ normSegs absolute racc l, s ≠ [] ∧ 47 ∉ s := by
  induction l with
  | nil =>
      intro racc hracc _ s hs
      simp only [normSegs, List.mem_reverse] at hs
      exact hracc s hs
  | cons seg rest ih =>
      intro racc hracc hl s hs
      have hseg : 47 ∉ seg := hl seg (by simp)
      have hrest : ∀ s ∈ rest, 47 ∉ s := fun s hs => hl s (by simp [hs])
      simp only [normSegs] at hs
      split at hs
      · exact ih racc hracc hrest s hs
      · rename_i hne
        push_neg at hne
        split at hs
        · rename_i hdd
          split at hs
          · split at hs
            · exact ih racc hracc hrest s hs
            · refine ih [seg] ?_ hrest s hs
              intro x hx
              simp only [List.mem_singleton] at hx
              subst hx
              exact ⟨by simp [hdd], by simp [hdd]⟩
          · split at hs
            · refine ih (seg :: racc) ?_ hrest s hs
              intro x hx
              rcases List.mem_cons.mp hx with hx | hx
              · subst hx; exact ⟨by simp [hdd], by simp [hdd]⟩
              · exact hracc x hx
            · refine ih racc.tail ?_ hrest s hs
              intro x hx
              exact hracc x (List.mem_of_mem_tail hx)
        · refine ih (seg :: racc) ?_ hrest s hs
          intro x hx
          rcases List.mem_cons.mp hx with hx | hx
          · subst hx
            exact ⟨hne.1, hseg⟩
          · exact hracc x hx

theorem splitSlashA_no_slash (s : List Nat) (h : 47 ∉ s) :
    splitSlashA s = (s, []) := by
  induction s with
  | nil => rfl
  | cons c rest ih =>
      have hc : c ≠ 47 := fun hc => h (by simp [hc])
      have hr : 47 ∉ rest := fun hm => h (by simp [hm])
      simp [splitSlashA, ih hr, hc]

theorem splitSlashA_append_slash (s r : List Nat) (h : 47 ∉ s) :
    splitSlashA (s ++ 47 :: r) = (s, splitSlash r) := by
  induction s with
  | nil => simp [splitSlashA, splitSlash]
  | cons c rest ih =>
      have hc : c ≠ 47 := fun hc => h (by simp [hc])
      have hr : 47 ∉ rest := fun hm => h (by simp [hm])
      simp [splitSlashA, ih hr, hc]

theorem splitSlash_joinSlash (segs : List (List Nat)) (hne : segs ≠ [])
    (h : ∀ s ∈ segs, 47 ∉ s) : splitSlash (joinSlash segs) = segs := by
  induction segs with
  | nil => exact absurd rfl hne
  | cons s rest ih =>
      cases rest with
      | nil =>
          simp only [joinSlash, splitSlash,
            splitSlashA_no_slash s (h s (by simp))]
      | cons t ts =>
          have hs : 47 ∉ s := h s (by simp)
          simp only [joinSlash, splitSlash,
            splitSlashA_append_slash _ _ hs]
          rw [← splitSlash, ih (by simp) (fun x hx => h x (by simp [hx]))]

theorem getLastD_mem {α : Type} (l : List α) (d : α) (h : l ≠ []) :
    l.getLastD d ∈ l := by
  induction l with
  | nil => exact absurd rfl h
  | cons a rest ih =>
      cases rest with
      | nil => simp [List.getLastD]
      | cons b bs =>
          have := ih (by simp)
          simp only [List.getLastD] at this ⊢
          exact List.mem_cons_of_mem a this

/-- A cleaned relative path other than the empty string always carries a
non-empty file name: `cleanPathL` never produces a trailing separator. -/
theorem fileNameL_cleanPath_ne_nil (p : List Nat)
    (hrel : isRelativeL p = true) (hne : p ≠ [])
    (hfix : p = cleanPathL p) : fileNameL p ≠ [] := by
  have habs : startsSlash p = false := by
    simpa [isRelativeL] using hrel
  rw [hfix]
  unfold cleanPathL
  rw [if_neg hne]
  simp only [habs, Bool.false_eq_true, if_false]
  set segs := normSegs false [] (splitSlash p) with hsegs
  have hgood : ∀ s ∈ segs, s ≠ [] ∧ 47 ∉ s := by
    rw [hsegs]
    exact mem_normSegs false (splitSlash p) [] (by simp)
      (mem_splitSlash_no_slash p)
  by_cases hnil : segs = []
  · rw [if_pos hnil]
    decide
  · rw [if_neg hnil]
    unfold fileNameL
    rw [splitSlash_joinSlash segs hnil (fun s hs => (hgood s hs).2)]
    have := hgood _ (getLastD_mem segs [] hnil)
    exact this.1

/-- Amended **C2**: a `FileInfo` relative path is accepted, both by the
constructor used on picker ingress and by the wire decoder, if and only if
it is (a) relative, (b) equal to its `QDir::cleanPath` normal form and
(c) does not start with `../`.  Condition (d) of the claim (non-empty file
name) follows from (a)-(c) for every non-empty path, but the empty path —
whose file name is empty — is nevertheless accepted. -/
theorem c2_amended_path_acceptance (p : List Nat) :
    fileInfoPathOk p = true ↔
      (isRelativeL p = true ∧ p = cleanPathL p ∧
       startsDotDotSlash p = false ∧ (fileNameL p ≠ [] ∨ p = [])) := by
  constructor
  · intro h
    simp only [fileInfoPathOk, Bool.not_eq_true', Bool.or_eq_false_iff,
      decide_eq_false_iff_not, not_not] at h
    obtain ⟨⟨hfix, hdd⟩, hrel⟩ := h
    have hrel2 : isRelativeL p = true := by simpa [isRelativeL] using hrel
    refine ⟨hrel2, hfix, hdd, ?_⟩
    by_cases hne : p = []
    · exact Or.inr hne
    · exact Or.inl (fileNameL_cleanPath_ne_nil p hrel2 hne hfix)
  · rintro ⟨hrel, hfix, hdd, -⟩
    simp only [fileInfoPathOk, Bool.not_eq_true', Bool.or_eq_false_iff,
      decide_eq_false_iff_not, not_not]
    exact ⟨⟨hfix, hdd⟩, by simpa [isRelativeL] using hrel⟩

/-- **C2** as stated is false: the empty relative path (scalar list `[]`)
passes every check in `FileInfo`'s constructor and in `operator>>` — it is
relative, it equals its cleaned form and it does not start with `../` — yet
its file name is empty, so the claimed condition (d) does not hold for an
accepted descriptor. -/
theorem c2_counterexample_empty_path :
    fileInfoPathOk [] = true ∧ fileNameL [] = [] ∧
    ¬(fileInfoPathOk [] = true ↔
        (isRelativeL [] = true ∧ [] = cleanPathL [] ∧
         startsDotDotSlash [] = false ∧ fileNameL ([] : List Nat) ≠ [])) := by
  refine ⟨by decide, by decide, ?_⟩
  intro h
  have := (h.mp (by decide)).2.2.2
  exact this (by decide)

/-- Witness for `c2_amended_path_acceptance`: the path `a/b.txt` (scalar
values `[97, 47, 98, 46, 116, 120, 116]`) is accepted. -/
theorem c2_amended_path_acceptance_witness :
    fileInfoPathOk [97, 47, 98, 46, 116, 120, 116] = true :=
  (c2_amended_path_acceptance [97, 47, 98, 46, 116, 120, 116]).mpr
    (by refine ⟨by decide, by decide, by decide, Or.inl (by decide)⟩)

/-! ## FileInfo and its stream operators (fileinfo.{hpp,cpp})

The stream, set up in `SyfftProtocolCommon`, uses little-endian integers and
format version `Qt_5_0`.  `operator<<` writes the UTF-8 bytes of the
relative path as a `QByteArray` (32-bit length followed by the raw bytes),
then the 64-bit size, then the `QDateTime` of last modification (serialized
in the Qt_5_0 stream format as a 64-bit Julian-day pattern, a 32-bit
milliseconds-of-day count and an 8-bit time spec).  `operator>>` reads the
fields back into an existing `FileInfo` object, re-validates the path and
sets the valid flag; the status member is not transmitted and is left
untouched in the destination object. -/

/-- `w`-byte little-endian encoding of `n` (modulo `2^(8w)`). -/
def toLE : Nat → Nat → List Nat
  | 0, _ => []
  | w + 1, n => (n % 256) :: toLE w (n / 256)

/-- Value of a little-endian byte list. -/
def fromLE : List Nat → Nat
  | [] => 0
  | b :: bs => b + 256 * fromLE bs

theorem toLE_length (w n : Nat) : (toLE w n).length = w := by
  induction w generalizing n with
  | zero => rfl
  | succ w ih => simp [toLE, ih]

theorem fromLE_toLE (w n : Nat) : fromLE (toLE w n) = n % 256 ^ w := by
  induction w generalizing n with
  | zero => simp [toLE, fromLE, Nat.mod_one]
  | succ w ih =>
      simp only [toLE, fromLE, ih]
      have hp : (256 : Nat) ^ (w + 1) = 256 * 256 ^ w := by ring
      rw [hp, Nat.mod_mul]

/-- A unicode scalar value (what one position of a `QString`, surrogate
pairs combined, can carry). -/
def ScalarOk (c : Nat) : Prop := c < 55296 ∨ (57344 ≤ c ∧ c < 1114112)

instance (c : Nat) : Decidable (ScalarOk c) := by
  unfold ScalarOk; infer_instance

/-- UTF-8 encoding of one scalar value (RFC 3629). -/
def utf8EncodeChar (c : Nat) : List Nat :=
  if c < 128 then [c]
  else if c < 2048 then [192 + c / 64, 128 + c % 64]
  else if c < 65536 then
    [224 + c / 4096, 128 + (c / 64) % 64, 128 + c % 64]
  else
    [240 + c / 262144, 128 + (c / 4096) % 64, 128 + (c / 64) % 64,
     128 + c % 64]

/-- UTF-8 encoding of a string (`QString::toUtf8`). -/
def utf8Encode (s : List Nat) : List Nat :=
  s.foldr (fun c acc => utf8EncodeChar c ++ acc) []

/-- Total UTF-8 decoder step (`QString::fromUtf8` processes the byte stream
with exactly this automaton): the state carries the characters emitted so far
and, inside a multi-byte sequence, the accumulated value, the number of
continuation bytes still expected and the smallest scalar value the sequence
is allowed to produce (overlong encodings and surrogates are rejected).
Malformed input produces the replacement character U+FFFD (65533); the exact
resynchronisation on malformed input is approximated, which well-formed
input never reaches. -/
def utf8Step (st : List Nat × Option (Nat × Nat × Nat)) (b : Nat) :
    List Nat × Option (Nat × Nat × Nat) :=
  match st with
  | (out, none) =>
      if b < 128 then (out ++ [b], none)
      else if 194 ≤ b ∧ b ≤ 223 then (out, some (b - 192, 1, 128))
      else if 224 ≤ b ∧ b ≤ 239 then (out, some (b - 224, 2, 2048))
      else if 240 ≤ b ∧ b ≤ 244 then (out, some (b - 240, 3, 65536))
      else (out ++ [65533], none)
  | (out, some (acc, need, minv)) =>
      if 128 ≤ b ∧ b < 192 then
        if need ≤ 1 then
          if minv ≤ acc * 64 + (b - 128) ∧ ScalarOk (acc * 64 + (b - 128))
          then (out ++ [acc * 64 + (b - 128)], none)
          else (out ++ [65533], none)
        else (out, some (acc * 64 + (b - 128), need - 1, minv))
      else (out ++ [65533], none)

/-- Total UTF-8 decoder (`QString::fromUtf8`): fold the automaton over the
bytes; a truncated trailing sequence yields one replacement character. -/
def utf8Decode (l : List Nat) : List Nat :=
  let r := l.foldl utf8Step ([], none)
  r.1 ++ (match r.2 with | none => [] | some _ => [65533])

theorem utf8Step_encodeChar (out : List Nat) (c : Nat) (hc : ScalarOk c)
    (l : List Nat) :
    List.foldl utf8Step (out, none) (utf8EncodeChar c ++ l) =
      List.foldl utf8Step (out ++ [c], none) l := by
  have hand : ∀ (x y : Prop) [Decidable x] [Decidable y], x → y → (x ∧ y) := by
    intro x y _ _ hx hy
    exact ⟨hx, hy⟩
  by_cases h1 : c < 128
  · have he : utf8EncodeChar c = [c] := by
      unfold utf8EncodeChar
      rw [if_pos h1]
    rw [he]
    simp only [List.cons_append, List.nil_append, List.foldl, utf8Step]
    rw [if_pos h1]
    simp
  · by_cases h2 : c < 2048
    · have he : utf8EncodeChar c = [192 + c / 64, 128 + c % 64] := by
        unfold utf8EncodeChar
        rw [if_neg h1, if_pos h2]
      rw [he]
      simp only [List.cons_append, List.nil_append, List.foldl, utf8Step]
      rw [if_neg (by omega), if_pos (by omega)]
      simp only [List.foldl, utf8Step]
      rw [if_pos (by omega), if_pos (by omega)]
      rw [if_pos (by
        refine ⟨by omega, ?_⟩
        unfold ScalarOk
        omega)]
      have : (192 + c / 64 - 192) * 64 + (128 + c % 64 - 128) = c := by omega
      rw [this]
      simp
    · by_cases h3 : c < 65536
      · have he : utf8EncodeChar c =
            [224 + c / 4096, 128 + (c / 64) % 64, 128 + c % 64] := by
          unfold utf8EncodeChar
          rw [if_neg h1, if_neg h2, if_pos h3]
        have hsc : c < 55296 ∨ 57344 ≤ c := by
          rcases hc with h | h
          · exact Or.inl h
          · exact Or.inr h.1
        rw [he]
        simp only [List.cons_append, List.nil_append, List.foldl, utf8Step]
        rw [if_neg (by omega), if_neg (by omega), if_pos (by omega)]
        simp only [List.foldl, utf8Step]
        rw [if_pos (by omega), if_neg (by omega)]
        simp only [List.foldl, utf8Step]
        rw [if_pos (by omega), if_pos (by omega)]
        rw [if_pos (by
          refine ⟨by omega, ?_⟩
          unfold ScalarOk
          omega)]
        have : ((224 + c / 4096 - 224) * 64 + (128 + c / 64 % 64 - 128)) * 64 +
            (128 + c % 64 - 128) = c := by omega
        rw [this]
        simp
      · have hc4 : c < 1114112 := by
          rcases hc with h | h
          · omega
          · exact h.2
        have he : utf8EncodeChar c =
            [240 + c / 262144, 128 + (c / 4096) % 64, 128 + (c / 64) % 64,
             128 + c % 64] := by
          unfold utf8EncodeChar
          rw [if_neg h1, if_neg h2, if_neg h3]
        rw [he]
        simp only [List.cons_append, List.nil_append, List.foldl, utf8Step]
        rw [if_neg (by omega), if_neg (by omega), if_neg (by omega),
          if_pos (by omega)]
        simp only [List.foldl, utf8Step]
        rw [if_pos (by omega), if_neg (by omega)]
        simp only [List.foldl, utf8Step]
        rw [if_pos (by omega), if_neg (by omega)]
        simp only [List.foldl, utf8Step]
        rw [if_pos (by omega), if_pos (by omega)]
        rw [if_pos (by
          refine ⟨by omega, ?_⟩
          unfold ScalarOk
          omega)]
        have : (((240 + c / 262144 - 240) * 64 + (128 + c / 4096 % 64 - 128)) *
            64 + (128 + c / 64 % 64 - 128)) * 64 + (128 + c % 64 - 128) = c :=
          by omega
        rw [this]
        simp

theorem utf8Decode_encode_aux (s : List Nat) (h : ∀ c ∈ s, ScalarOk c) :
    ∀ out, List.foldl utf8Step (out, none) (utf8Encode s) = (out ++ s, none) := by
  induction s with
  | nil => intro out; simp [utf8Encode]
  | cons c rest ih =>
      intro out
      have hc : ScalarOk c := h c (by simp)
      have hr : ∀ x ∈ rest, ScalarOk x := fun x hx => h x (by simp [hx])
      show List.foldl utf8Step (out, none)
        (utf8EncodeChar c ++ utf8Encode rest) = _
      rw [utf8Step_encodeChar out c hc, ih hr]
      simp

theorem utf8Decode_encode (s : List Nat) (h : ∀ c ∈ s, ScalarOk c) :
    utf8Decode (utf8Encode s) = s := by
  unfold utf8Decode
  rw [utf8Decode_encode_aux s h []]
  simp

/-- `FileInfo::Status` (fileinfo.hpp lines 45-51). -/
inductive FStatus
  | scheduled
  | inTransfer
  | transferred
  | transferRejected
  | transferFailed
  deriving DecidableEq, Repr

/-- The `QDateTime` payload as serialized in the Qt_5_0 stream format:
64-bit Julian-day pattern, 32-bit milliseconds of day, 8-bit spec. -/
structure QDateTimeRep where
  dateJD : Nat
  timeMS : Nat
  spec : Nat
  deriving DecidableEq, Repr

/-- The `FileInfo` class (fileinfo.hpp): validity flag, relative path
(including the file name), cached file name and directory part, size,
last-modification time stamp and transfer status. -/
structure FileInfo where
  valid : Bool
  filePath : List Nat
  name : List Nat
  path : List Nat
  size : Nat
  lastModified : QDateTimeRep
  status : FStatus
  deriving DecidableEq, Repr

/-- The `FileInfo(filePath, size, lastModified)` constructor
(fileinfo.cpp lines 33-54): store the fields, validate the path and compute
the file name and directory on success.  The status always starts as
`Scheduled`; on a rejected path the name and directory stay at their
default-constructed empty values. -/
def mkFileInfo (filePath : List Nat) (size : Nat)
    (lastModified : QDateTimeRep) : FileInfo :=
  if fileInfoPathOk filePath then
    { valid := true, filePath := filePath, name := fileNameL filePath,
      path := dirNameL filePath, size := size, lastModified := lastModified,
      status := .scheduled }
  else
    { valid := false, filePath := filePath, name := [], path := [],
      size := size, lastModified := lastModified, status := .scheduled }

/-- `operator<<(QDataStream&, const FileInfo&)` (fileinfo.cpp lines 66-79):
an invalid or non-Scheduled instance writes nothing; otherwise the UTF-8
path bytes are written as a length-prefixed byte array, then the size, then
the time stamp. -/
def fiEncode (fi : FileInfo) : List Nat :=
  if fi.valid = true ∧ fi.status = .scheduled then
    let bytes := utf8Encode fi.filePath
    toLE 4 bytes.length ++ bytes ++ toLE 8 fi.size ++
      toLE 8 fi.lastModified.dateJD ++ toLE 4 fi.lastModified.timeMS ++
      toLE 1 fi.lastModified.spec
  else []

/-- Read `k` bytes from the stream, or fail when not enough are buffered. -/
def readN (k : Nat) (bs : List Nat) : Option (List Nat × List Nat) :=
  if k ≤ bs.length then some (bs.take k, bs.drop k) else none

theorem readN_append (l r : List Nat) : readN l.length (l ++ r) = some (l, r) := by
  simp [readN, List.take_left, List.drop_left]

theorem readN_toLE (w n : Nat) (r : List Nat) :
    readN w (toLE w n ++ r) = some (toLE w n, r) := by
  have h := readN_append (toLE w n) r
  rwa [toLE_length] at h

/-- `operator>>(QDataStream&, FileInfo&)` (fileinfo.cpp lines 95-127): read
the length-prefixed UTF-8 path, the size and the time stamp into the
destination instance, then re-validate the path, recomputing the name and
directory on success.  `none` models a stream whose status is no longer
`Ok` (the destination is left invalid).  The status member of the
destination is never assigned. -/
def fiDecode (bs : List Nat) (fi : FileInfo) : Option (FileInfo × List Nat) :=
  match readN 4 bs with
  | none => none
  | some (lenB, bs1) =>
    match readN (fromLE lenB) bs1 with
    | none => none
    | some (pathB, bs2) =>
      match readN 8 bs2 with
      | none => none
      | some (sizeB, bs3) =>
        match readN 8 bs3 with
        | none => none
        | some (jdB, bs4) =>
          match readN 4 bs4 with
          | none => none
          | some (msB, bs5) =>
            match readN 1 bs5 with
            | none => none
            | some (specB, bs6) =>
              let filePath := utf8Decode pathB
              let fi2 := { fi with
                           valid := false,
                           filePath := filePath,
                           size := fromLE sizeB,
                           lastModified := ⟨fromLE jdB, fromLE msB,
                             fromLE specB⟩ }
              if fileInfoPathOk filePath then
                some ({ fi2 with
                        name := fileNameL filePath,
                        path := dirNameL filePath,
                        valid := true }, bs6)
              else some (fi2, bs6)

/-- Amended **C6**: for a valid Scheduled descriptor `D`, decoding the wire
encoding of `D` into a destination instance reproduces every transmitted
field of `D` (validity, relative path, derived name and directory, size,
time stamp) and consumes the whole encoding; the status byte is not part of
the wire format, so the destination keeps its own prior status, and the
result equals `D` exactly when that prior status was `Scheduled`. -/
theorem c6_amended_roundtrip (p : List Nat) (size : Nat) (dt : QDateTimeRep)
    (dest : FileInfo)
    (hok : fileInfoPathOk p = true)
    (hscal : ∀ c ∈ p, ScalarOk c)
    (hlen : (utf8Encode p).length < 4294967296)
    (hsize : size < 18446744073709551616)
    (hjd : dt.dateJD < 18446744073709551616)
    (hms : dt.timeMS < 4294967296)
    (hspec : dt.spec < 256) :
    fiDecode (fiEncode (mkFileInfo p size dt)) dest =
      some ({ mkFileInfo p size dt with status := dest.status }, []) ∧
    (dest.status = .scheduled →
      fiDecode (fiEncode (mkFileInfo p size dt)) dest =
        some (mkFileInfo p size dt, [])) := by
  have hD : mkFileInfo p size dt =
      { valid := true, filePath := p, name := fileNameL p,
        path := dirNameL p, size := size, lastModified := dt,
        status := .scheduled } := by
    unfold mkFileInfo
    rw [if_pos hok]
  have henc : fiEncode (mkFileInfo p size dt) =
      toLE 4 (utf8Encode p).length ++ (utf8Encode p ++ (toLE 8 size ++
        (toLE 8 dt.dateJD ++ (toLE 4 dt.timeMS ++
          (toLE 1 dt.spec ++ []))))) := by
    rw [hD]
    unfold fiEncode
    rw [if_pos ⟨rfl, rfl⟩]
    simp [List.append_assoc]
  have hlen4 : fromLE (toLE 4 (utf8Encode p).length) =
      (utf8Encode p).length := by
    rw [fromLE_toLE]
    exact Nat.mod_eq_of_lt (by simpa using hlen)
  have hdec : utf8Decode (utf8Encode p) = p := utf8Decode_encode p hscal
  have hszv : fromLE (toLE 8 size) = size := by
    rw [fromLE_toLE]
    exact Nat.mod_eq_of_lt (by simpa using hsize)
  have hjdv : fromLE (toLE 8 dt.dateJD) = dt.dateJD := by
    rw [fromLE_toLE]
    exact Nat.mod_eq_of_lt (by simpa using hjd)
  have hmsv : fromLE (toLE 4 dt.timeMS) = dt.timeMS := by
    rw [fromLE_toLE]
    exact Nat.mod_eq_of_lt (by simpa using hms)
  have hspv : fromLE (toLE 1 dt.spec) = dt.spec := by
    rw [fromLE_toLE]
    exact Nat.mod_eq_of_lt (by simpa using hspec)
  have hmain : fiDecode (fiEncode (mkFileInfo p size dt)) dest =
      some ({ mkFileInfo p size dt with status := dest.status }, []) := by
    rw [henc]
    unfold fiDecode
    rw [readN_toLE]
    simp only []
    rw [hlen4, readN_append]
    simp only []
    rw [readN_toLE]
    simp only []
    rw [readN_toLE]
    simp only []
    rw [readN_toLE]
    simp only []
    rw [readN_toLE]
    simp only [hdec, hszv, hjdv, hmsv, hspv]
    rw [if_pos hok, hD]
  refine ⟨hmain, fun hs => ?_⟩
  rw [hmain, hs, hD]

/-- **C6** as stated is false: the status field is not transmitted on the
wire, and `operator>>` leaves the destination's status untouched, so decoding
`encode(D)` into a `FileInfo` whose status is not `Scheduled` does not yield
`D`.  Here `D` describes path `a` (scalar 97), size 1. -/
theorem c6_counterexample_status_not_transmitted :
    fiDecode (fiEncode (mkFileInfo [97] 1 ⟨2440588, 0, 0⟩))
        { mkFileInfo [97] 1 ⟨2440588, 0, 0⟩ with status := .inTransfer } =
      some ({ mkFileInfo [97] 1 ⟨2440588, 0, 0⟩ with status := .inTransfer },
        []) ∧
    ¬(fiDecode (fiEncode (mkFileInfo [97] 1 ⟨2440588, 0, 0⟩))
        { mkFileInfo [97] 1 ⟨2440588, 0, 0⟩ with status := .inTransfer } =
      some (mkFileInfo [97] 1 ⟨2440588, 0, 0⟩, [])) := by
  constructor
  · decide
  · decide

/-- Witness for `c6_amended_roundtrip` at the concrete descriptor of path
`a` (scalar 97), size 1: decoding into a `Scheduled` destination gives back
exactly the descriptor. -/
theorem c6_amended_roundtrip_witness :
    fiDecode (fiEncode (mkFileInfo [97] 1 ⟨2440588, 0, 0⟩))
        (mkFileInfo [] 0 ⟨0, 0, 0⟩) =
      some (mkFileInfo [97] 1 ⟨2440588, 0, 0⟩, []) :=
  (c6_amended_roundtrip [97] 1 ⟨2440588, 0, 0⟩ (mkFileInfo [] 0 ⟨0, 0, 0⟩)
      (by decide) (by decide) (by decide) (by decide) (by decide) (by decide)
      (by decide)).2 (by decide)

/-! ## Duplicate-file handling: `KeepBoth`
(syfftprotocolreceiver.cpp, `SyfftProtocolReceiver::performDFAction`)

The conflicting file name is split with `QFileInfo::baseName` (everything
before the first dot) and `QFileInfo::completeSuffix` (everything after the
first dot); candidate names `name_k` / `name_k.ext` / `.ext_k` are tried for
`k = 1, 2, …` with a `quint8` counter that wraps to 0 after 255, ending the
loop with a rejection.  The file-system outcomes are oracles over the
candidate's relative path. -/

/-- `QFileInfo::baseName`: the characters before the first dot (46). -/
def baseNameL (n : List Nat) : List Nat := n.takeWhile (fun c => c ≠ 46)

/-- `QFileInfo::completeSuffix`: the characters after the first dot (46). -/
def completeSuffixL (n : List Nat) : List Nat :=
  match n.dropWhile (fun c => c ≠ 46) with
  | [] => []
  | _ :: r => r

/-- Helper of `natToDec`: most-significant-first decimal digits of `n`
(`fuel ≥ n` bounds the recursion). -/
def natToDecAux : Nat → Nat → List Nat
  | 0, _ => []
  | fuel + 1, n =>
      if n = 0 then [] else natToDecAux fuel (n / 10) ++ [48 + n % 10]

/-- Decimal rendering of a number (`QString::arg` on an integer);
digit `d` becomes scalar `48 + d`. -/
def natToDec (n : Nat) : List Nat :=
  if n = 0 then [48] else natToDecAux n n

/-- The candidate relative path built inside the `KeepBoth` loop for counter
value `k`: `path/.ext_k` when the base name is empty (hidden files, leading
dot preserved), `path/name_k` when there is no extension, and
`path/name_k.ext` otherwise (47 = `/`, 46 = `.`, 95 = `_`). -/
def mkCandidate (path name ext : List Nat) (k : Nat) : List Nat :=
  if name = [] then path ++ [47, 46] ++ ext ++ [95] ++ natToDec k
  else if ext = [] then path ++ [47] ++ name ++ [95] ++ natToDec k
  else path ++ [47] ++ name ++ [95] ++ natToDec k ++ [46] ++ ext

/-- The `FileInfo` built for counter value `k`
(`FileInfo(QDir::cleanPath(newPath), size, lastModified)`). -/
def kbCandidate (path name ext : List Nat) (size : Nat) (ts : QDateTimeRep)
    (k : Nat) : FileInfo :=
  mkFileInfo (cleanPathL (mkCandidate path name ext k)) size ts

/-- The error flag of the `FileInTransferWriter` opened on candidate `k`;
`mkpathOk`/`openOk` are file-system oracles over the candidate path. -/
def kbError (fsExists mkpathOk openOk : List Nat → Bool)
    (path name ext : List Nat) (size : Nat) (ts : QDateTimeRep)
    (k : Nat) : Bool :=
  (FileInTransfer.mkWriter (kbCandidate path name ext size ts k).valid size
    (fsExists (kbCandidate path name ext size ts k).filePath)
    (mkpathOk (kbCandidate path name ext size ts k).filePath)
    (openOk (kbCandidate path name ext size ts k).filePath)).error

/-- Whether candidate `k` already exists on disk. -/
def kbExists (fsExists : List Nat → Bool) (path name ext : List Nat)
    (size : Nat) (ts : QDateTimeRep) (k : Nat) : Bool :=
  fsExists (kbCandidate path name ext size ts k).filePath

/-- The `while (counter != 0)` loop of `performDFAction`'s `KeepBoth`
branch: the `quint8` counter runs `k, k+1, …, 255` and the wrap to 0 ends
the loop; `fuel = 256 - k` counts the iterations left.  A writer error
rejects (`none`), a free name accepts that candidate (`some`). -/
def kbGo (fsExists mkpathOk openOk : List Nat → Bool)
    (path name ext : List Nat) (size : Nat) (ts : QDateTimeRep) :
    Nat → Nat → Option FileInfo
  | 0, _ => none
  | fuel + 1, k =>
      if kbError fsExists mkpathOk openOk path name ext size ts k then none
      else if kbExists fsExists path name ext size ts k then
        kbGo fsExists mkpathOk openOk path name ext size ts fuel (k + 1)
      else some (kbCandidate path name ext size ts k)

/-- The `KeepBoth` branch of `SyfftProtocolReceiver::performDFAction`
(syfftprotocolreceiver.cpp lines 948-1008), starting from the conflicting
file's directory part, base name and complete suffix.  `some fi` means the
transfer is accepted under the renamed descriptor `fi`; `none` means the
file transfer is rejected. -/
def performDFKeepBoth (fsExists mkpathOk openOk : List Nat → Bool)
    (currentFile : FileInfo) : Option FileInfo :=
  kbGo fsExists mkpathOk openOk currentFile.path
    (baseNameL currentFile.name) (completeSuffixL currentFile.name)
    currentFile.size currentFile.lastModified 255 1

theorem kbGo_spec (fsExists mkpathOk openOk : List Nat → Bool)
    (path name ext : List Nat) (size : Nat) (ts : QDateTimeRep) :
    ∀ fuel k, 1 ≤ k → fuel + k = 256 →
    (∀ fi, kbGo fsExists mkpathOk openOk path name ext size ts fuel k =
        some fi →
      ∃ j, k ≤ j ∧ j ≤ 255 ∧ fi = kbCandidate path name ext size ts j ∧
        kbError fsExists mkpathOk openOk path name ext size ts j = false ∧
        kbExists fsExists path name ext size ts j = false ∧
        (∀ i, k ≤ i → i < j →
          kbError fsExists mkpathOk openOk path name ext size ts i = false ∧
          kbExists fsExists path name ext size ts i = true)) ∧
    (kbGo fsExists mkpathOk openOk path name ext size ts fuel k = none →
      (∃ j, k ≤ j ∧ j ≤ 255 ∧
        kbError fsExists mkpathOk openOk path name ext size ts j = true ∧
        (∀ i, k ≤ i → i < j →
          kbError fsExists mkpathOk openOk path name ext size ts i = false ∧
          kbExists fsExists path name ext size ts i = true)) ∨
      (∀ j, k ≤ j → j ≤ 255 →
        kbError fsExists mkpathOk openOk path name ext size ts j = false ∧
        kbExists fsExists path name ext size ts j = true)) := by
  intro fuel
  induction fuel with
  | zero =>
      intro k hk1 hk2
      constructor
      · intro fi hfi
        simp [kbGo] at hfi
      · intro _
        right
        intro j hj1 hj2
        omega
  | succ fuel ih =>
      intro k hk1 hk2
      constructor
      · intro fi hfi
        simp only [kbGo] at hfi
        split at hfi
        · exact absurd hfi (by simp)
        · rename_i herr
          split at hfi
          · rename_i hex
            obtain ⟨j, hj1, hj2, hj3, hj4, hj5, hj6⟩ :=
              (ih (k + 1) (by omega) (by omega)).1 fi hfi
            refine ⟨j, by omega, hj2, hj3, hj4, hj5, ?_⟩
            intro i hi1 hi2
            by_cases hik : i = k
            · subst hik
              exact ⟨by simpa using herr, hex⟩
            · exact hj6 i (by omega) hi2
          · rename_i hex
            refine ⟨k, le_refl k, by omega, ?_, by simpa using herr,
              by simpa using hex, ?_⟩
            · simpa using hfi.symm
            · intro i hi1 hi2
              omega
      · intro hfi
        simp only [kbGo] at hfi
        split at hfi
        · rename_i herr
          left
          exact ⟨k, le_refl k, by omega, herr, fun i hi1 hi2 => by omega⟩
        · rename_i herr
          split at hfi
          · rename_i hex
            rcases (ih (k + 1) (by omega) (by omega)).2 hfi with
              ⟨j, hj1, hj2, hj3, hj4⟩ | hall
            · left
              refine ⟨j, by omega, hj2, hj3, ?_⟩
              intro i hi1 hi2
              by_cases hik : i = k
              · subst hik
                exact ⟨by simpa using herr, hex⟩
              · exact hj4 i (by omega) hi2
            · right
              intro j hj1 hj2
              by_cases hjk : j = k
              · subst hjk
                exact ⟨by simpa using herr, hex⟩
              · exact hall j (by omega) hj2
          · exact absurd hfi (by simp)

/-- **C5**: the `KeepBoth` duplicate-file action tries the candidate names
formed by inserting `_1`, `_2`, … between the base name and the extension
(with the dotfile special case of `mkCandidate`), in increasing counter
order; it accepts the transfer under the first candidate that does not
exist on disk, and it rejects the transfer when a candidate writer cannot
be opened or when the 8-bit counter overflows (all 255 candidates exist). -/
theorem c5_keepboth_search (fsExists mkpathOk openOk : List Nat → Bool)
    (cf : FileInfo) :
    (∀ fi, performDFKeepBoth fsExists mkpathOk openOk cf = some fi →
      ∃ j, 1 ≤ j ∧ j ≤ 255 ∧
        fi = kbCandidate cf.path (baseNameL cf.name)
          (completeSuffixL cf.name) cf.size cf.lastModified j ∧
        kbError fsExists mkpathOk openOk cf.path (baseNameL cf.name)
          (completeSuffixL cf.name) cf.size cf.lastModified j = false ∧
        kbExists fsExists cf.path (baseNameL cf.name)
          (completeSuffixL cf.name) cf.size cf.lastModified j = false ∧
        (∀ i, 1 ≤ i → i < j →
          kbError fsExists mkpathOk openOk cf.path (baseNameL cf.name)
            (completeSuffixL cf.name) cf.size cf.lastModified i = false ∧
          kbExists fsExists cf.path (baseNameL cf.name)
            (completeSuffixL cf.name) cf.size cf.lastModified i = true)) ∧
    (performDFKeepBoth fsExists mkpathOk openOk cf = none →
      (∃ j, 1 ≤ j ∧ j ≤ 255 ∧
        kbError fsExists mkpathOk openOk cf.path (baseNameL cf.name)
          (completeSuffixL cf.name) cf.size cf.lastModified j = true ∧
        (∀ i, 1 ≤ i → i < j →
          kbError fsExists mkpathOk openOk cf.path (baseNameL cf.name)
            (completeSuffixL cf.name) cf.size cf.lastModified i = false ∧
          kbExists fsExists cf.path (baseNameL cf.name)
            (completeSuffixL cf.name) cf.size cf.lastModified i = true)) ∨
      (∀ j, 1 ≤ j → j ≤ 255 →
        kbError fsExists mkpathOk openOk cf.path (baseNameL cf.name)
          (completeSuffixL cf.name) cf.size cf.lastModified j = false ∧
        kbExists fsExists cf.path (baseNameL cf.name)
          (completeSuffixL cf.name) cf.size cf.lastModified j = true)) :=
  kbGo_spec fsExists mkpathOk openOk cf.path (baseNameL cf.name)
    (completeSuffixL cf.name) cf.size cf.lastModified 255 1 (le_refl 1) rfl

/-- Witness for `c5_keepboth_search` on a dotfile conflict: the received
file `.bashrc` (scalars `[46,98,97,115,104,114,99]`) conflicts; candidate
`.bashrc_1` exists on disk, so the loop accepts the transfer under the
second candidate `.bashrc_2` — the dotfile naming keeps the leading dot and
appends the suffix after the name. -/
theorem c5_keepboth_search_witness :
    ∃ j, 1 ≤ j ∧ j ≤ 255 ∧
      kbCandidate [46] [] [98, 97, 115, 104, 114, 99] 5 ⟨0, 0, 0⟩ 2 =
        kbCandidate [46] (baseNameL [46, 98, 97, 115, 104, 114, 99])
          (completeSuffixL [46, 98, 97, 115, 104, 114, 99]) 5 ⟨0, 0, 0⟩ j ∧
      kbError (fun p => decide (p = [46, 98, 97, 115, 104, 114, 99, 95, 49]))
        (fun _ => true) (fun _ => true) [46]
        (baseNameL [46, 98, 97, 115, 104, 114, 99])
        (completeSuffixL [46, 98, 97, 115, 104, 114, 99]) 5 ⟨0, 0, 0⟩ j =
        false ∧
      kbExists (fun p => decide (p = [46, 98, 97, 115, 104, 114, 99, 95, 49]))
        [46] (baseNameL [46, 98, 97, 115, 104, 114, 99])
        (completeSuffixL [46, 98, 97, 115, 104, 114, 99]) 5 ⟨0, 0, 0⟩ j =
        false ∧
      (∀ i, 1 ≤ i → i < j →
        kbError (fun p => decide (p = [46, 98, 97, 115, 104, 114, 99, 95, 49]))
          (fun _ => true) (fun _ => true) [46]
          (baseNameL [46, 98, 97, 115, 104, 114, 99])
          (completeSuffixL [46, 98, 97, 115, 104, 114, 99]) 5 ⟨0, 0, 0⟩ i =
          false ∧
        kbExists (fun p => decide (p = [46, 98, 97, 115, 104, 114, 99, 95, 49]))
          [46] (baseNameL [46, 98, 97, 115, 104, 114, 99])
          (completeSuffixL [46, 98, 97, 115, 104, 114, 99]) 5 ⟨0, 0, 0⟩ i =
          true) :=
  (c5_keepboth_search
      (fun p => decide (p = [46, 98, 97, 115, 104, 114, 99, 95, 49]))
      (fun _ => true) (fun _ => true)
      { valid := true, filePath := [46, 98, 97, 115, 104, 114, 99],
        name := [46, 98, 97, 115, 104, 114, 99], path := [46], size := 5,
        lastModified := ⟨0, 0, 0⟩, status := .scheduled }).1
    (kbCandidate [46] [] [98, 97, 115, 104, 114, 99] 5 ⟨0, 0, 0⟩ 2)
    (by decide)

/-! ## Peer aging (user.{hpp,cpp}, users.cpp)

`PeersList::incrementAge` runs on a timer every `AGING_INTERVAL` = 5000 ms
(users.hpp line 209) and calls `PeerUser::incrementAge` on every record,
emitting `peerExpired` for each record whose call returns true.  A beacon
refresh (`PeerUser::update`) resets the record's age to 0. -/

/-- `User::Age` constants (user.hpp lines 149-156). -/
def AgeMax : Nat := 4

def AgeUnconfirmed : Nat := 254

def AgeInfinity : Nat := 255

/-- `PeerUser::incrementAge` (user.cpp lines 719-731): an unconfirmed record
is left alone; otherwise the `quint8` age is incremented and, when it
exceeds `AgeMax`, the record becomes unconfirmed, the updated signal fires
and true is returned (the caller then emits `peerExpired`). -/
def incrementAge (age : Nat) : Bool × Nat :=
  if age = AgeUnconfirmed then (false, age)
  else
    let age2 := (age + 1) % 256
    if age2 > AgeMax then (true, AgeUnconfirmed) else (false, age2)

/-- `n` aging ticks applied to a record of the given age: final age and the
number of `peerExpired` emissions for this record. -/
def runAgingTicks (age : Nat) : Nat → Nat × Nat
  | 0 => (age, 0)
  | n + 1 =>
      let r := incrementAge age
      let rest := runAgingTicks r.2 n
      (rest.1, (if r.1 then 1 else 0) + rest.2)

set_option maxRecDepth 4096 in
/-- **C3** evaluated on the code: a peer record whose age was reset to 0 by
a beacon is still confirmed, with age 4 and no `peerExpired` emission, after
4 aging ticks (the claimed 20 s); the record becomes Unconfirmed with
exactly one `peerExpired` emission only at the 5th tick (25 s), because
`incrementAge` tests `++m_age > AgeMax` rather than reaching `AgeMax`, and
the emission never repeats afterwards. -/
theorem c3_aging_off_by_one_evidence :
    runAgingTicks 0 4 = (4, 0) ∧
    (runAgingTicks 0 4).1 ≠ AgeUnconfirmed ∧
    runAgingTicks 0 5 = (AgeUnconfirmed, 1) ∧
    runAgingTicks 0 100 = (AgeUnconfirmed, 1) := by
  refine ⟨by decide, by decide, by decide, by decide⟩

/-! ## Discovery-protocol send errors (syfdprotocol.{hpp,cpp}) -/

/-- `Enums::OperationalMode`. -/
inductive OpMode
  | online
  | offline
  deriving DecidableEq, Repr

/-- `SyfdProtocol::ERROR_THRESHOLD` (syfdprotocol.hpp line 188). -/
def ERROR_THRESHOLD : Nat := 3

/-- The `SyfdProtocol` state that `sendDatagram` touches: the operational
mode, the consecutive-send-error counter and the number of `error()` signal
emissions. -/
structure SyfdState where
  mode : OpMode
  errorCount : Nat
  errorEvents : Nat
  deriving DecidableEq, Repr

/-- `SyfdProtocol::sendDatagram` (syfdprotocol.cpp lines 308-327): a write
failure increments the counter, and at exactly `ERROR_THRESHOLD` the
protocol calls `setMode(Offline)` (which resets the counter and stops the
send timer) and emits `error()`; a successful write resets the counter. -/
def sendDatagram (s : SyfdState) (writeOk : Bool) : SyfdState :=
  if writeOk then { s with errorCount := 0 }
  else if s.errorCount + 1 = ERROR_THRESHOLD then
    { mode := .offline, errorCount := 0, errorEvents := s.errorEvents + 1 }
  else { s with errorCount := s.errorCount + 1 }

/-- One firing of the periodic send timer with the given socket outcome;
after the transition to Offline the timer is stopped, so nothing is sent. -/
def syfdTick (s : SyfdState) (writeOk : Bool) : SyfdState :=
  if s.mode = .offline then s else sendDatagram s writeOk

/-- Run the discovery sender, starting Online with a clear counter, over a
sequence of socket outcomes. -/
def runSyfd (outcomes : List Bool) : SyfdState :=
  outcomes.foldl syfdTick ⟨.online, 0, 0⟩

/-- Specification-side predicate: does the outcome sequence contain three
consecutive failures, counting an initial streak of `c` failures? -/
def hasTripleFrom (c : Nat) : List Bool → Bool
  | [] => false
  | b :: rest =>
      if b then hasTripleFrom 0 rest
      else if c + 1 = 3 then true
      else hasTripleFrom (c + 1) rest

theorem runSyfd_spec (outcomes : List Bool) :
    ∀ c e, c < 3 →
    (hasTripleFrom c outcomes = true →
      List.foldl syfdTick ⟨.online, c, e⟩ outcomes = ⟨.offline, 0, e + 1⟩) ∧
    (hasTripleFrom c outcomes = false →
      (List.foldl syfdTick ⟨.online, c, e⟩ outcomes).mode = .online ∧
      (List.foldl syfdTick ⟨.online, c, e⟩ outcomes).errorEvents = e) := by
  induction outcomes with
  | nil =>
      intro c e hc
      exact ⟨fun h => by simp [hasTripleFrom] at h, fun _ => ⟨rfl, rfl⟩⟩
  | cons b rest ih =>
      intro c e hc
      have hstep : syfdTick ⟨.online, c, e⟩ b =
          if b = true then ⟨.online, 0, e⟩
          else if c + 1 = 3 then ⟨.offline, 0, e + 1⟩
          else ⟨.online, c + 1, e⟩ := by
        cases b <;> simp [syfdTick, sendDatagram, ERROR_THRESHOLD]
      have hoff : ∀ (l : List Bool) (e2 : Nat),
          List.foldl syfdTick ⟨.offline, 0, e2⟩ l = ⟨.offline, 0, e2⟩ := by
        intro l
        induction l with
        | nil => intro e2; rfl
        | cons x xs ihx =>
            intro e2
            show List.foldl syfdTick (syfdTick ⟨.offline, 0, e2⟩ x) xs = _
            simp only [syfdTick, if_pos rfl]
            exact ihx e2
      constructor
      · intro htr
        show List.foldl syfdTick (syfdTick ⟨.online, c, e⟩ b) rest = _
        rw [hstep]
        cases b with
        | true =>
            simp only [if_pos rfl]
            simp only [hasTripleFrom, if_pos rfl] at htr
            exact (ih 0 e (by omega)).1 htr
        | false =>
            simp only [Bool.false_eq_true, if_false]
            by_cases h3 : c + 1 = 3
            · rw [if_pos h3]
              exact hoff rest (e + 1)
            · rw [if_neg h3]
              simp only [hasTripleFrom, Bool.false_eq_true, if_false,
                if_neg h3] at htr
              exact (ih (c + 1) e (by omega)).1 htr
      · intro htr
        show (List.foldl syfdTick (syfdTick ⟨.online, c, e⟩ b) rest).mode =
            OpMode.online ∧
          (List.foldl syfdTick
            (syfdTick ⟨.online, c, e⟩ b) rest).errorEvents = e
        rw [hstep]
        cases b with
        | true =>
            simp only [if_pos rfl]
            simp only [hasTripleFrom, if_pos rfl] at htr
            exact (ih 0 e (by omega)).2 htr
        | false =>
            simp only [Bool.false_eq_true, if_false]
            simp only [hasTripleFrom, Bool.false_eq_true, if_false] at htr
            by_cases h3 : c + 1 = 3
            · rw [if_pos h3] at htr
              simp at htr
            · rw [if_neg h3] at htr ⊢
              exact (ih (c + 1) e (by omega)).2 htr

/-- **C7**: each failed socket write increments the error counter and a
single success resets it to zero; the discovery protocol transitions to
Offline and emits exactly one `error()` event precisely when three
consecutive failures occur, and it never goes Offline from send errors with
fewer than three consecutive failures. -/
theorem c7_send_error_threshold (outcomes : List Bool) :
    ((runSyfd outcomes).mode = .offline ↔ hasTripleFrom 0 outcomes = true) ∧
    ((runSyfd outcomes).errorEvents =
      if hasTripleFrom 0 outcomes = true then 1 else 0) ∧
    (∀ s : SyfdState, s.mode = .online → (syfdTick s true).errorCount = 0) ∧
    (∀ s : SyfdState, s.mode = .online → s.errorCount + 1 ≠ 3 →
      (syfdTick s false).errorCount = s.errorCount + 1 ∧
      (syfdTick s false).mode = .online) := by
  have hspec := runSyfd_spec outcomes 0 0 (by omega)
  refine ⟨⟨?_, ?_⟩, ?_, ?_, ?_⟩
  · intro hoff
    cases htr : hasTripleFrom 0 outcomes
    · have := (hspec.2 htr).1
      rw [runSyfd] at hoff
      rw [this] at hoff
      exact absurd hoff (by simp)
    · rfl
  · intro htr
    show (List.foldl syfdTick ⟨.online, 0, 0⟩ outcomes).mode = .offline
    rw [hspec.1 htr]
  · cases htr : hasTripleFrom 0 outcomes
    · simp only [Bool.false_eq_true, if_false]
      exact (hspec.2 htr).2
    · simp only [if_pos rfl]
      show (List.foldl syfdTick ⟨.online, 0, 0⟩ outcomes).errorEvents = 1
      rw [hspec.1 htr]
  · intro s hmode
    simp [syfdTick, hmode, sendDatagram]
  · intro s hmode hne
    simp [syfdTick, hmode, sendDatagram, ERROR_THRESHOLD, hne]

/-- Witness for `c7_send_error_threshold`: three consecutive failed sends
take the protocol Offline with one error event; two failures followed by a
success do not. -/
theorem c7_send_error_threshold_witness :
    (runSyfd [false, false, false]).mode = .offline ∧
    (runSyfd [false, false, false]).errorEvents = 1 ∧
    (runSyfd [false, false, true, false, false]).mode ≠ .offline := by
  refine ⟨(c7_send_error_threshold [false, false, false]).1.mpr (by decide),
    ?_, ?_⟩
  · have h := (c7_send_error_threshold [false, false, false]).2.1
    rw [h]
    decide
  · intro hoff
    have h := (c7_send_error_threshold
      [false, false, true, false, false]).1.mp hoff
    simp [hasTripleFrom] at h

/-! ## Peer-registry persistence (users.cpp)

`peers.json` handling: the `PeersList` constructor (lines 247-291) reads the
stored records — each loaded through the `User`/`PeerUser` JSON constructors
(user.cpp lines 166-241), which set the age to `AgeUnconfirmed` for every
peer record — and `~PeersList` (lines 559-562) writes the whole list back.
The model tracks, per operation, the `(uuid, age)` registry contents and the
number of times `saveToFile(confPath + "/peers.json", …)` runs. -/

/-- The JSON shape of one stored peer record, reduced to the fields the
`User(confPath, json)` constructor checks: presence of the mandatory keys,
nullness of the parsed UUID, the two name lengths, and the `Me` flag.
`SyfdDatagram::STRING_LEN` = 16. -/
structure PeerJson where
  hasUuid : Bool
  hasFirst : Bool
  hasLast : Bool
  uuidNull : Bool
  uuid : Nat
  firstLen : Nat
  lastLen : Nat
  me : Bool
  deriving DecidableEq, Repr

/-- `User(confPath, json)` (user.cpp lines 166-241), reduced to the derived
uuid/age pair: invalid when a mandatory field is missing, the UUID is null
or a name exceeds 16 characters; the age becomes `AgeInfinity` for the
local user (`Me`) and `AgeUnconfirmed` for a peer. -/
def userFromJson (j : PeerJson) : Option (Nat × Nat) :=
  if ¬j.hasUuid ∨ ¬j.hasFirst ∨ ¬j.hasLast then none
  else if j.uuidNull ∨ j.firstLen > 16 ∨ j.lastLen > 16 then none
  else some (j.uuid, if j.me then AgeInfinity else AgeUnconfirmed)

/-- `PeerUser(confPath, json, localUuid)` (user.cpp lines 694-705): a JSON
record that represents the local user is rejected. -/
def peerUserFromJson (j : PeerJson) : Option (Nat × Nat) :=
  match userFromJson j with
  | none => none
  | some r => if r.2 = AgeInfinity then none else some r

/-- The `PeersList` state the persistence claims are about: the registry
contents as `(uuid, age)` pairs and the number of `peers.json` writes. -/
structure PeersListState where
  instances : List (Nat × Nat)
  saveCount : Nat
  deriving DecidableEq, Repr

/-- The `PeersList` constructor (users.cpp lines 247-291): every valid
stored record whose UUID differs from the local one is added to the list;
the constructor performs no save. -/
def mkPeersList (localUuid : Nat) (stored : List PeerJson) : PeersListState :=
  { instances := stored.foldl (fun acc j =>
      match peerUserFromJson j with
      | none => acc
      | some r => if r.1 ≠ localUuid then acc ++ [r] else acc) [],
    saveCount := 0 }

/-- The discovery-beacon fields `PeersList::update` dispatches on. -/
structure BeaconMsg where
  uuid : Nat
  quit : Bool
  deriving DecidableEq, Repr

/-- `PeersList::update` (users.cpp lines 314-398), reduced to the uuid/age
bookkeeping: a Quit beacon marks the matching record unconfirmed, a beacon
from a known peer refreshes its age to 0, a beacon carrying the local UUID
triggers a UUID reset (no list change), and an unknown peer is inserted
with age 0.  No branch saves the registry to disk. -/
def peersUpdate (localUuid : Nat) (s : PeersListState) (d : BeaconMsg) :
    PeersListState :=
  if d.quit then
    { s with instances := s.instances.map (fun p =>
        if p.1 = d.uuid then (p.1, AgeUnconfirmed) else p) }
  else if s.instances.any (fun p => p.1 = d.uuid) then
    { s with instances := s.instances.map (fun p =>
        if p.1 = d.uuid then (p.1, 0) else p) }
  else if d.uuid = localUuid then s
  else { s with instances := s.instances ++ [(d.uuid, 0)] }

/-- `~PeersList` (users.cpp lines 559-562): the destructor saves the whole
registry to `peers.json` — the only write of that file in the program. -/
def peersDestroy (s : PeersListState) : PeersListState :=
  { s with saveCount := s.saveCount + 1 }

theorem peerUserFromJson_age (j : PeerJson) (r : Nat × Nat)
    (h : peerUserFromJson j = some r) : r.2 = AgeUnconfirmed := by
  unfold peerUserFromJson at h
  rcases hu : userFromJson j with - | r2
  · rw [hu] at h
    exact absurd h (by simp)
  · rw [hu] at h
    simp only [] at h
    split at h
    · exact absurd h (by simp)
    · rename_i hne
      have hr : r2 = r := Option.some.inj h
      subst hr
      unfold userFromJson at hu
      split at hu
      · exact absurd hu (by simp)
      · split at hu
        · exact absurd hu (by simp)
        · have h2 := Option.some.inj hu
          rcases hme : j.me
          · rw [hme] at h2
            simp only [Bool.false_eq_true, if_false] at h2
            rw [← h2]
          · rw [hme] at h2
            simp only [if_pos] at h2
            exact absurd (by rw [← h2]) hne

/-- **C8** as stated is false: a beacon that inserts a brand-new peer — a
registry change — does not serialize the registry; only the destructor
does.  Concretely, on a fresh registry, the first beacon from peer 2
inserts the record yet the save count stays 0. -/
theorem c8_counterexample_no_save_on_change :
    (peersUpdate 1 (mkPeersList 1 []) ⟨2, false⟩).instances = [(2, 0)] ∧
    (peersUpdate 1 (mkPeersList 1 []) ⟨2, false⟩).saveCount = 0 := by
  constructor
  · decide
  · decide

/-- Amended **C8**: the peer registry is serialized to `peers.json` exactly
once, at shutdown (the `PeersList` destructor) — beacon processing never
writes it — and every peer record loaded from `peers.json` at startup
starts in the Unconfirmed state. -/
theorem c8_amended_persistence (localUuid : Nat) (stored : List PeerJson)
    (beacons : List BeaconMsg) :
    (∀ p ∈ (mkPeersList localUuid stored).instances, p.2 = AgeUnconfirmed) ∧
    (mkPeersList localUuid stored).saveCount = 0 ∧
    (∀ (s : PeersListState) (d : BeaconMsg),
      (peersUpdate localUuid s d).saveCount = s.saveCount) ∧
    (peersDestroy (beacons.foldl (peersUpdate localUuid)
      (mkPeersList localUuid stored))).saveCount = 1 := by
  have hload : ∀ (l : List PeerJson) (acc : List (Nat × Nat)),
      (∀ p ∈ acc, p.2 = AgeUnconfirmed) →
      ∀ p ∈ l.foldl (fun acc j =>
        match peerUserFromJson j with
        | none => acc
        | some r => if r.1 ≠ localUuid then acc ++ [r] else acc) acc,
        p.2 = AgeUnconfirmed := by
    intro l
    induction l with
    | nil => intro acc hacc p hp; exact hacc p hp
    | cons j rest ih =>
        intro acc hacc p hp
        refine ih _ ?_ p hp
        intro q hq
        rcases hj : peerUserFromJson j with - | r
        · rw [List.foldl_cons] at hp
          simp only [hj] at hq
          exact hacc q hq
        · simp only [hj] at hq
          have hage : r.2 = AgeUnconfirmed := peerUserFromJson_age j r hj
          split at hq
          · rcases List.mem_append.mp hq with hq | hq
            · exact hacc q hq
            · simp only [List.mem_singleton] at hq
              subst hq
              exact hage
          · exact hacc q hq
  have hnosave : ∀ (s : PeersListState) (d : BeaconMsg),
      (peersUpdate localUuid s d).saveCount = s.saveCount := by
    intro s d
    simp only [peersUpdate]
    split
    · rfl
    · split
      · rfl
      · split <;> rfl
  have hfold : ∀ (bs : List BeaconMsg) (s : PeersListState),
      (bs.foldl (peersUpdate localUuid) s).saveCount = s.saveCount := by
    intro bs
    induction bs with
    | nil => intro s; rfl
    | cons b rest ih =>
        intro s
        show (rest.foldl (peersUpdate localUuid)
          (peersUpdate localUuid s b)).saveCount = _
        rw [ih, hnosave]
  refine ⟨hload stored [] (by simp), rfl, hnosave, ?_⟩
  show (beacons.foldl (peersUpdate localUuid)
    (mkPeersList localUuid stored)).saveCount + 1 = 1
  rw [hfold]
  rfl

/-- Witness for `c8_amended_persistence`: loading one stored record for
peer 7 yields only Unconfirmed entries, and a run with one refreshing
beacon saves exactly once, at shutdown. -/
theorem c8_amended_persistence_witness :
    (∀ p ∈ (mkPeersList 1
      [⟨true, true, true, false, 7, 3, 4, false⟩]).instances,
      p.2 = AgeUnconfirmed) ∧
    (peersDestroy ([(⟨7, false⟩ : BeaconMsg)].foldl (peersUpdate 1)
      (mkPeersList 1 [⟨true, true, true, false, 7, 3, 4, false⟩]))).saveCount
      = 1 :=
  ⟨(c8_amended_persistence 1 [⟨true, true, true, false, 7, 3, 4, false⟩]
      [⟨7, false⟩]).1,
   (c8_amended_persistence 1 [⟨true, true, true, false, 7, 3, 4, false⟩]
      [⟨7, false⟩]).2.2.2⟩

/-! ## The SYFFT receiver session
(syfftprotocolcommon.{hpp,cpp}, syfftprotocolreceiver.{hpp,cpp})

One state machine per inbound session.  Every command handler of
`SyfftProtocolReceiver::readData` becomes one step, taken on a complete
frame (the `QDataStream` transaction machinery only delays processing of
incomplete frames, leaving the session state untouched).  External inputs —
socket write outcomes, file-system outcomes, the sharing and duplicate-file
decisions delivered through `SyfftProtocolSharingRequest` and
`SyfftProtocolDuplicatedFile` (whose `m_chosen` flag makes each decision
fire at most once, and whose `connectionAborted` hookup cancels it on
abort) — appear as step parameters.  Commands arriving while the session is
`PausedByUser` are not read from the socket (`readData` returns
immediately); they stay buffered, which the trace models by placing the
step after the unpause. -/

/-- `SyfftProtocolCommon::Status` (syfftprotocolcommon.hpp lines 127-138). -/
inductive SStatus
  | new
  | connecting
  | connected
  | inTransfer
  | transferCompleted
  | closing
  | closed
  | aborted
  | pausedByUser
  | pausedByPeer
  deriving DecidableEq, Repr

/-- `SyfftProtocolReceiver::DuplicatedFileAction`. -/
inductive DFAction
  | ask
  | replace
  | keep
  | keepBoth
  deriving DecidableEq, Repr

/-- A default `FileInfo` (the value `m_files.at` would fault on; only used
to make list indexing total). -/
def fiDefault : FileInfo :=
  { valid := false, filePath := [], name := [], path := [], size := 0,
    lastModified := ⟨0, 0, 0⟩, status := .scheduled }

/-- The state of one receiver-side SYFFT session: the protocol status and
the pause stack, the handshake and sharing bookkeeping, the file list with
the current index, the open `FileInTransferWriter` (if any), the default
duplicate-file action, and the `TransferInfo` counters. -/
structure RecvState where
  status : SStatus
  pauseStack : List SStatus
  preventUserToggle : Bool
  peerUuidKnown : Bool
  totalFiles : Nat
  totalBytes : Nat
  msgSet : Bool
  files : List FileInfo
  currentFile : Nat
  fit : Option FileInTransfer
  defaultDF : DFAction
  transferredFiles : Nat
  skippedFiles : Nat
  transferredBytes : Nat
  skippedBytes : Nat
  awaitingShare : Bool
  awaitingDF : Bool
  deriving DecidableEq, Repr

/-- The freshly constructed receiver (`SyfftProtocolCommon` constructor:
status `New`, unknown peer UUID, `m_currentFile = 0xFFFFFFFF`, empty
transfer info; `SyfftProtocolReceiver` constructor: default duplicate-file
action `Ask`). -/
def initRecv : RecvState :=
  { status := .new, pauseStack := [], preventUserToggle := false,
    peerUuidKnown := false, totalFiles := 0, totalBytes := 0, msgSet := false,
    files := [], currentFile := 4294967295, fit := none, defaultDF := .ask,
    transferredFiles := 0, skippedFiles := 0, transferredBytes := 0,
    skippedBytes := 0, awaitingShare := false, awaitingDF := false }

/-- Unsigned 32-bit subtraction (quint32 wraparound made explicit). -/
def usub32 (a b : Nat) : Nat :=
  (a + 4294967296 - b % 4294967296) % 4294967296

/-- Unsigned 64-bit subtraction (quint64 wraparound made explicit). -/
def usub64 (a b : Nat) : Nat :=
  (a + 18446744073709551616 - b % 18446744073709551616) % 18446744073709551616

/-- `TransferInfo::remainingFiles` (quint32 arithmetic). -/
def remainingFilesR (s : RecvState) : Nat :=
  usub32 (usub32 s.totalFiles s.transferredFiles) s.skippedFiles

/-- `TransferInfo::remainingBytes` (quint64 arithmetic). -/
def remainingBytesR (s : RecvState) : Nat :=
  usub64 (usub64 s.totalBytes s.transferredBytes) s.skippedBytes

/-- `m_files[i].setStatus(st)`. -/
def setFileStatus (files : List FileInfo) (i : Nat) (st : FStatus) :
    List FileInfo :=
  files.set i { files.getD i fiDefault with status := st }

/-- Exact sum of the descriptor sizes. -/
def sumSizes (files : List FileInfo) : Nat := (files.map FileInfo.size).sum

/-- The quint64 accumulation `totalBytes += info.size()` performed by the
SHARE-end validation (wraps modulo `2^64`). -/
def sumSizes64 (files : List FileInfo) : Nat :=
  files.foldl (fun a f => (a + f.size) % 18446744073709551616) 0

/-- `SyfftProtocolCommon::closeConnection` (syfftprotocolcommon.cpp lines
213-239), reduced to its state effect: outside New/Closing/Closed/Aborted
the status becomes Closing (the CLOSE command is sent and the socket is
asked to disconnect; `Closed` is reached by the later `disconnected`
event). -/
def closeConnectionR (s : RecvState) : RecvState :=
  if s.status = .new ∨ s.status = .closing ∨ s.status = .closed ∨
     s.status = .aborted then s
  else { s with status := .closing }

/-- `SyfftProtocolCommon::abortConnection` (syfftprotocolcommon.cpp lines
249-295): outside New/Closed/Aborted the status becomes Aborted at once,
the remaining files and bytes are added to the skipped counters, the file
currently in transfer (if the index is in range) is marked TransferFailed
and the `FileInTransfer` instance is dropped.  Dropping the session's
pending decision objects fires their `connectionAborted` handlers, which
mark them chosen. -/
def abortConnectionR (s : RecvState) : RecvState :=
  if s.status = .new ∨ s.status = .closed ∨ s.status = .aborted then s
  else
    { s with
      status := .aborted,
      skippedFiles := s.skippedFiles + remainingFilesR s,
      skippedBytes := s.skippedBytes + remainingBytesR s,
      files := if s.currentFile < s.totalFiles then
          setFileStatus s.files s.currentFile .transferFailed
        else s.files,
      fit := none,
      awaitingShare := false,
      awaitingDF := false }

/-- `SyfftProtocolCommon::manageError`: log and abort. -/
def manageErrorR (s : RecvState) : RecvState := abortConnectionR s

/-- `SyfftProtocolCommon::togglePauseMode` (syfftprotocolcommon.cpp lines
313-385): no effect in New/Aborted/Closing/Closed or when a user-requested
toggle is inhibited; toggling out of the matching pause status pops the
stacked status, toggling in pushes the current status. -/
def togglePauseR (userRequested : Bool) (s : RecvState) : RecvState :=
  if s.status = .new ∨ s.status = .aborted ∨ s.status = .closing ∨
     s.status = .closed then s
  else if userRequested ∧ s.preventUserToggle then s
  else if s.status = (if userRequested then SStatus.pausedByUser
                      else SStatus.pausedByPeer) then
    match s.pauseStack with
    | [] => s
    | old :: rest => { s with status := old, pauseStack := rest }
  else { s with pauseStack := s.status :: s.pauseStack,
                status := if userRequested then SStatus.pausedByUser
                          else SStatus.pausedByPeer }

/-- `SyfftProtocolCommon::moveToNextFile` (syfftprotocolcommon.cpp lines
393-422): advance the quint32 index; when it reaches the total the status
becomes TransferCompleted and the connection starts closing. -/
def moveToNextFileR (s : RecvState) : RecvState :=
  if (s.currentFile + 1) % 4294967296 = s.totalFiles then
    closeConnectionR
      { s with currentFile := (s.currentFile + 1) % 4294967296,
               status := .transferCompleted }
  else { s with currentFile := (s.currentFile + 1) % 4294967296 }

/-- `SyfftProtocolReceiver::acceptFileTransfer`: send ACCEPT and mark the
current file InTransfer. -/
def acceptFileTransferR (s : RecvState) : RecvState :=
  { s with files := setFileStatus s.files s.currentFile .inTransfer }

/-- `SyfftProtocolReceiver::rejectFileTransfer`: send REJECT, drop the
writer, mark the current file TransferRejected, account it as skipped and
advance. -/
def rejectFileTransferR (s : RecvState) : RecvState :=
  moveToNextFileR
    { s with
      fit := none,
      files := setFileStatus s.files s.currentFile .transferRejected,
      skippedFiles := s.skippedFiles + 1,
      skippedBytes := s.skippedBytes +
        (s.files.getD s.currentFile fiDefault).size }

/-- `SyfftProtocolReceiver::performDFAction` (syfftprotocolreceiver.cpp
lines 931-1008): Replace accepts, Keep rejects, otherwise the `KeepBoth`
candidate search runs — acceptance installs the renamed descriptor and its
writer, failure rejects.  (`Ask` is excluded by an assertion.) -/
def performDFActionR (action : DFAction) (fsE mkp op : List Nat → Bool)
    (s : RecvState) : RecvState :=
  if action = .replace then acceptFileTransferR s
  else if action = .keep then rejectFileTransferR s
  else
    match performDFKeepBoth fsE mkp op
        (s.files.getD s.currentFile fiDefault) with
    | some newFile =>
        acceptFileTransferR
          { s with
            files := s.files.set s.currentFile newFile,
            fit := some (FileInTransfer.mkWriter newFile.valid newFile.size
              (fsE newFile.filePath) (mkp newFile.filePath)
              (op newFile.filePath)) }
    | none => rejectFileTransferR s

/-- `SyfftProtocolReceiver::helloCommand`: expected only while Connecting
with the peer UUID still unknown; stores the peer UUID and answers with the
local one (`writeOk` = the raw write succeeded). -/
def helloR (writeOk : Bool) (s : RecvState) : RecvState :=
  if s.status ≠ .connecting ∨ s.peerUuidKnown then manageErrorR s
  else
    let s2 := { s with peerUuidKnown := true }
    if writeOk then s2 else manageErrorR s2

/-- `SyfftProtocolReceiver::ackCommand`: expected only while Connecting with
the peer UUID known; moves to Connected. -/
def ackR (s : RecvState) : RecvState :=
  if s.status ≠ .connecting ∨ ¬s.peerUuidKnown then manageErrorR s
  else { s with status := .connected }

/-- `SyfftProtocolReceiver::shareCommand`: the SHARE that begins a request
(Connected, no totals, no message yet) reads the totals, rejecting
`totalFiles ≥ INT_MAX`; the SHARE that ends it (all items received)
validates the quint64 size sum against the advertised total, pauses the
session and hands the decision to the share handler; any other context
aborts. -/
def shareR (nFiles nBytes : Nat) (s : RecvState) : RecvState :=
  if s.status = .connected ∧ s.totalFiles = 0 ∧ ¬s.msgSet then
    if nFiles ≥ 2147483647 then manageErrorR s
    else { s with totalFiles := nFiles, totalBytes := nBytes, msgSet := true }
  else if s.status = .connected ∧ s.files.length = s.totalFiles ∧
      s.msgSet then
    if sumSizes64 s.files ≠ s.totalBytes then
      manageErrorR { s with files := [] }
    else
      let s2 := togglePauseR true s
      { s2 with preventUserToggle := true, awaitingShare := true }
  else manageErrorR s

/-- `SyfftProtocolReceiver::itemCommand`: expected only while Connected with
items still missing; the decoded descriptor (built exactly like
`operator>>` does, its status being the destination's default) must be
valid, otherwise the session aborts. -/
def itemR (p : List Nat) (sz : Nat) (ts : QDateTimeRep) (s : RecvState) :
    RecvState :=
  if s.status ≠ .connected ∨ s.files.length ≥ s.totalFiles then manageErrorR s
  else if ¬(mkFileInfo p sz ts).valid then manageErrorR s
  else { s with files := s.files ++ [mkFileInfo p sz ts] }

/-- `SyfftProtocolReceiver::startCommand` (syfftprotocolreceiver.cpp lines
476-566): expected only while InTransfer with no file open; opens a writer
on the current descriptor; an open error rejects the file, a non-existing
target accepts it, and a duplicate either runs the default action or pauses
the session awaiting the user's duplicate-file decision. -/
def startR (fsE mkp op : List Nat → Bool) (s : RecvState) : RecvState :=
  if s.status ≠ .inTransfer ∨ s.fit.isSome then manageErrorR s
  else
    let cf := s.files.getD s.currentFile fiDefault
    let w := FileInTransfer.mkWriter cf.valid cf.size (fsE cf.filePath)
      (mkp cf.filePath) (op cf.filePath)
    let s2 := { s with fit := some w }
    if w.error then rejectFileTransferR s2
    else if ¬w.fileExists then acceptFileTransferR s2
    else if s.defaultDF ≠ .ask then performDFActionR s.defaultDF fsE mkp op s2
    else
      let s3 := togglePauseR true s2
      { s3 with preventUserToggle := true, awaitingDF := true }

/-- `SyfftProtocolReceiver::skipCommand`: expected only while InTransfer
with no file open; replies REJECT, accounts the file as skipped/failed and
advances. -/
def skipR (s : RecvState) : RecvState :=
  if s.status ≠ .inTransfer ∨ s.fit.isSome then manageErrorR s
  else
    moveToNextFileR
      { s with
        skippedFiles := s.skippedFiles + 1,
        skippedBytes := s.skippedBytes +
          (s.files.getD s.currentFile fiDefault).size,
        files := setFileStatus s.files s.currentFile .transferFailed }

/-- `SyfftProtocolReceiver::chunkCommand` (syfftprotocolreceiver.cpp lines
618-669): expected only while InTransfer with a file open; an announced
length above `MAX_CHUNK_SIZE` aborts before any data is consumed; otherwise
the chunk is handed to the writer — on success the transferred bytes grow,
on failure the writer is rolled back once and STOP is sent. -/
def chunkR (len : Nat) (writeOk : Bool) (s : RecvState) : RecvState :=
  match s.fit with
  | none => manageErrorR s
  | some w =>
      if s.status ≠ .inTransfer then manageErrorR s
      else if len > MAX_CHUNK_SIZE then manageErrorR s
      else if (w.writerProcessChunk len writeOk).1 then
        { s with fit := some (w.writerProcessChunk len writeOk).2,
                 transferredBytes := s.transferredBytes + len }
      else if ¬(w.writerProcessChunk len writeOk).2.rollbacked then
        { s with
          fit := some (((w.writerProcessChunk len writeOk).2).writerRollback).2 }
      else { s with fit := some (w.writerProcessChunk len writeOk).2 }

/-- `SyfftProtocolReceiver::commitCommand` (syfftprotocolreceiver.cpp lines
680-734): expected only while InTransfer with a file open; a successful
writer commit answers COMMIT and marks the file Transferred, a failed one
rolls back, answers ROLLBK and accounts the file as skipped/failed; either
way the writer is dropped and the session advances. -/
def commitR (commitOk : Bool) (s : RecvState) : RecvState :=
  match s.fit with
  | none => manageErrorR s
  | some w =>
      if s.status ≠ .inTransfer then manageErrorR s
      else if (w.writerCommit commitOk).1 then
        moveToNextFileR
          { s with
            fit := none,
            files := setFileStatus s.files s.currentFile .transferred,
            transferredFiles := s.transferredFiles + 1 }
      else
        moveToNextFileR
          { s with
            fit := none,
            files := setFileStatus s.files s.currentFile .transferFailed,
            skippedFiles := s.skippedFiles + 1,
            skippedBytes := s.skippedBytes +
              (w.writerCommit commitOk).2.remainingBytes }

/-- `SyfftProtocolReceiver::rollbkCommand`: expected only while InTransfer
with a file open; rolls the writer back, answers ROLLBK, accounts the file
as skipped/failed and advances. -/
def rollbkR (s : RecvState) : RecvState :=
  match s.fit with
  | none => manageErrorR s
  | some w =>
      if s.status ≠ .inTransfer then manageErrorR s
      else
        moveToNextFileR
          { s with
            fit := none,
            files := setFileStatus s.files s.currentFile .transferFailed,
            skippedFiles := s.skippedFiles + 1,
            skippedBytes := s.skippedBytes + (w.writerRollback).2.remainingBytes }

/-- `SyfftProtocolReceiver::closeCommand`: ignored when already Closed,
expected only in TransferCompleted/Closing (anything else aborts); closes
the connection. -/
def closeR (s : RecvState) : RecvState :=
  if s.status = .closed then s
  else if s.status ≠ .transferCompleted ∧ s.status ≠ .closing then
    manageErrorR s
  else closeConnectionR s

/-- `SyfftProtocolReceiver::acceptSharingRequest` (syfftprotocolreceiver.cpp
lines 808-847): leave the decision pause, stop if the session was aborted
meanwhile, abort when the chosen base path cannot be created or read
(`pathOk`), otherwise move to InTransfer and start on the first file. -/
def decideShareAcceptR (pathOk : Bool) (s : RecvState) : RecvState :=
  if ¬s.awaitingShare then s
  else
    let s2 := togglePauseR true { s with preventUserToggle := false }
    if s2.status = .aborted then { s2 with awaitingShare := false }
    else if ¬pathOk then manageErrorR { s2 with awaitingShare := false }
    else
      moveToNextFileR
        { s2 with status := .inTransfer, awaitingShare := false }

/-- `SyfftProtocolReceiver::rejectSharingRequest`: leave the decision pause,
stop if aborted meanwhile, account everything as skipped and close. -/
def decideShareRejectR (s : RecvState) : RecvState :=
  if ¬s.awaitingShare then s
  else
    let s2 := togglePauseR true { s with preventUserToggle := false }
    if s2.status = .aborted then { s2 with awaitingShare := false }
    else
      closeConnectionR
        { s2 with
          skippedFiles := s2.totalFiles,
          skippedBytes := s2.totalBytes,
          awaitingShare := false }

/-- The duplicate-file decision handler connected in `startCommand`
(syfftprotocolreceiver.cpp lines 521-540): leave the decision pause, stop
if aborted meanwhile, remember the action when `applyAll` and perform it. -/
def dfDecisionR (action : DFAction) (applyAll : Bool)
    (fsE mkp op : List Nat → Bool) (s : RecvState) : RecvState :=
  if ¬s.awaitingDF then s
  else
    let s2 := togglePauseR true { s with preventUserToggle := false }
    if s2.status = .aborted then { s2 with awaitingDF := false }
    else
      let s3 := { s2 with
                  awaitingDF := false,
                  defaultDF := if applyAll then action else s2.defaultDF }
      performDFActionR action fsE mkp op s3

/-- `SyfftProtocolCommon::changePauseMode`'s queued body: a request to
enter pause is ignored when already paused by the user, a request to leave
is ignored otherwise; the toggle itself honours the inhibit flag. -/
def userPauseR (enter : Bool) (s : RecvState) : RecvState :=
  if (enter ∧ s.status = .pausedByUser) ∨
     (¬enter ∧ s.status ≠ .pausedByUser) then s
  else togglePauseR true s

/-- One externally visible event of a receiver session. -/
inductive RStep
  | acceptConn
  | hello (writeOk : Bool)
  | ack
  | share (nFiles nBytes : Nat)
  | item (p : List Nat) (sz : Nat) (ts : QDateTimeRep)
  | startCmd (fsE mkp op : List Nat → Bool)
  | skipCmd
  | chunkCmd (len : Nat) (writeOk : Bool)
  | commitCmd (commitOk : Bool)
  | rollbkCmd
  | closeCmd
  | pauseCmd
  | abortCmd
  | decideShareAccept (pathOk : Bool)
  | decideShareReject
  | dfDecision (action : DFAction) (applyAll : Bool)
      (fsE mkp op : List Nat → Bool)
  | userPause (enter : Bool)
  | localAbort
  | disconnected

/-- Commands delivered through `readData` are not processed while the local
user holds the session paused (`readData` returns at once and the bytes
stay buffered). -/
def cmdGuard (s : RecvState) (body : RecvState) : RecvState :=
  if s.status = .pausedByUser then s else body

/-- One step of the receiver session. -/
def recvStep (s : RecvState) : RStep → RecvState
  | .acceptConn => if s.status = .new then { s with status := .connecting }
      else s
  | .hello writeOk => cmdGuard s (helloR writeOk s)
  | .ack => cmdGuard s (ackR s)
  | .share nFiles nBytes => cmdGuard s (shareR nFiles nBytes s)
  | .item p sz ts => cmdGuard s (itemR p sz ts s)
  | .startCmd fsE mkp op => cmdGuard s (startR fsE mkp op s)
  | .skipCmd => cmdGuard s (skipR s)
  | .chunkCmd len writeOk => cmdGuard s (chunkR len writeOk s)
  | .commitCmd commitOk => cmdGuard s (commitR commitOk s)
  | .rollbkCmd => cmdGuard s (rollbkR s)
  | .closeCmd => cmdGuard s (closeR s)
  | .pauseCmd => cmdGuard s (togglePauseR false s)
  | .abortCmd => cmdGuard s (manageErrorR s)
  | .decideShareAccept pathOk => decideShareAcceptR pathOk s
  | .decideShareReject => decideShareRejectR s
  | .dfDecision a applyAll fsE mkp op => dfDecisionR a applyAll fsE mkp op s
  | .userPause enter => userPauseR enter s
  | .localAbort => abortConnectionR s
  | .disconnected => if s.status = .closing then { s with status := .closed }
      else s

/-- A receiver session run from construction over a list of events. -/
def runRecv (steps : List RStep) : RecvState :=
  steps.foldl recvStep initRecv

/-! ### Elementary facts about the list bookkeeping -/

theorem length_setFileStatus (l : List FileInfo) (i : Nat) (st : FStatus) :
    (setFileStatus l i st).length = l.length := by
  simp [setFileStatus]

theorem getD_set_self : ∀ (l : List FileInfo) (i : Nat) (v : FileInfo),
    i < l.length → (l.set i v).getD i fiDefault = v
  | _ :: _, 0, _, _ => rfl
  | _ :: l, i + 1, v, h => getD_set_self l i v (by simpa using h)

theorem getD_set_ne : ∀ (l : List FileInfo) (i j : Nat) (v : FileInfo),
    i ≠ j → (l.set i v).getD j fiDefault = l.getD j fiDefault
  | [], _, _, _, _ => rfl
  | _ :: _, 0, 0, _, h => absurd rfl h
  | _ :: _, 0, _ + 1, _, _ => rfl
  | _ :: _, _ + 1, 0, _, _ => rfl
  | _ :: l, i + 1, j + 1, v, h =>
      getD_set_ne l i j v (fun hh => h (by rw [hh]))

theorem getD_append_left : ∀ (l m : List FileInfo) (i : Nat), i < l.length →
    (l ++ m).getD i fiDefault = l.getD i fiDefault
  | _ :: _, _, 0, _ => rfl
  | _ :: l, m, i + 1, h => getD_append_left l m i (by simpa using h)

theorem getD_append_self : ∀ (l : List FileInfo) (v : FileInfo),
    (l ++ [v]).getD l.length fiDefault = v
  | [], _ => rfl
  | _ :: l, v => getD_append_self l v

theorem sumSizes_cons (f : FileInfo) (l : List FileInfo) :
    sumSizes (f :: l) = f.size + sumSizes l := by
  simp [sumSizes]

theorem sumSizes_take_le (l : List FileInfo) :
    ∀ j, sumSizes (l.take j) ≤ sumSizes l := by
  induction l with
  | nil => intro j; simp [sumSizes]
  | cons a l ih =>
      intro j
      cases j with
      | zero => simp [sumSizes]
      | succ j =>
          simpa [List.take, sumSizes_cons] using
            Nat.add_le_add_left (ih j) a.size

theorem sumSizes_take_succ (l : List FileInfo) :
    ∀ j, j < l.length →
      sumSizes (l.take (j + 1)) =
        sumSizes (l.take j) + (l.getD j fiDefault).size := by
  induction l with
  | nil => intro j h; simp at h
  | cons a l ih =>
      intro j h
      cases j with
      | zero => simp [List.take, sumSizes, List.getD]
      | succ j =>
          have h' : j < l.length := by simpa using h
          simp only [List.take, sumSizes_cons, ih j h', List.getD_cons_succ]
          omega

theorem take_set_ge : ∀ (l : List FileInfo) (i j : Nat) (v : FileInfo),
    j ≤ i → (l.set i v).take j = l.take j
  | [], _, _, _, _ => rfl
  | _ :: _, _, 0, _, _ => by simp
  | _ :: _, 0, _ + 1, _, h => absurd h (by omega)
  | a :: l, i + 1, j + 1, v, h => by
      simp only [List.set, List.take, List.cons.injEq, true_and]
      exact take_set_ge l i j v (by omega)

theorem sumSizes_set (l : List FileInfo) :
    ∀ (i : Nat) (v : FileInfo), v.size = (l.getD i fiDefault).size →
      sumSizes (l.set i v) = sumSizes l := by
  induction l with
  | nil => intro i v _; rfl
  | cons a l ih =>
      intro i v h
      cases i with
      | zero =>
          simp only [List.getD_cons_zero] at h
          simp [List.set, sumSizes_cons, h]
      | succ i =>
          simp only [List.getD_cons_succ] at h
          simp [List.set, sumSizes_cons, ih i v h]

theorem sumSizes_setFileStatus (l : List FileInfo) (i : Nat) (st : FStatus) :
    sumSizes (setFileStatus l i st) = sumSizes l :=
  sumSizes_set l i _ rfl

theorem take_setFileStatus_ge (l : List FileInfo) (i j : Nat) (st : FStatus)
    (h : j ≤ i) : (setFileStatus l i st).take j = l.take j :=
  take_set_ge l i j _ h

theorem getD_setFileStatus_self (l : List FileInfo) (i : Nat) (st : FStatus)
    (h : i < l.length) :
    (setFileStatus l i st).getD i fiDefault =
      { l.getD i fiDefault with status := st } :=
  getD_set_self l i _ h

theorem getD_setFileStatus_ne (l : List FileInfo) (i j : Nat) (st : FStatus)
    (h : i ≠ j) :
    (setFileStatus l i st).getD j fiDefault = l.getD j fiDefault :=
  getD_set_ne l i j _ h

theorem getLast_append_singleton :
    ∀ (l : List SStatus) (b : SStatus), (l ++ [b]).getLast? = some b
  | [], _ => rfl
  | [_], _ => rfl
  | _ :: x :: l, b => getLast_append_singleton (x :: l) b

/-! ### The session invariant -/

/-- The bytes already written by the open writer, if any. -/
def fitWritten : Option FileInTransfer → Nat
  | none => 0
  | some w => w.written

/-- The phase a session is in once pauses are seen through: while paused,
the bottom of the pause stack is the status the session will eventually
return to. -/
def underlyingR (s : RecvState) : SStatus :=
  if s.status = SStatus.pausedByUser ∨ s.status = SStatus.pausedByPeer then
    (s.pauseStack.getLast?).getD s.status
  else s.status

/-- The inductive invariant of a receiver session.  Beyond the shape of the
pause stack it records, per phase: before the transfer starts the counters
are zero, the file index is still at its initial value and every received
descriptor is Scheduled; during the transfer the counters match the current
index, the transferred bytes are bounded by the sizes of the files already
passed plus the bytes written to the current one, the writer's bookkeeping
is consistent with the current descriptor, and no descriptor other than the
current one is InTransfer; in the final phases the counters add up to the
total and no descriptor is left InTransfer. -/
structure RInv (s : RecvState) : Prop where
  totalLt : s.totalFiles < 2147483647
  stackOk : s.status = SStatus.pausedByUser ∨ s.status = SStatus.pausedByPeer →
    ∃ front b, s.pauseStack = front ++ [b] ∧
      (b = SStatus.connecting ∨ b = SStatus.connected ∨
       b = SStatus.inTransfer ∨ b = SStatus.transferCompleted) ∧
      (∀ x ∈ front, x = SStatus.pausedByUser ∨ x = SStatus.pausedByPeer)
  stackEmpty : s.status ≠ SStatus.pausedByUser →
    s.status ≠ SStatus.pausedByPeer → s.status ≠ SStatus.aborted →
    s.pauseStack = []
  preventOk : s.preventUserToggle = true →
    s.status = SStatus.pausedByUser ∨ s.status = SStatus.aborted
  pre : underlyingR s = SStatus.new ∨ underlyingR s = SStatus.connecting ∨
      underlyingR s = SStatus.connected →
    s.transferredFiles = 0 ∧ s.skippedFiles = 0 ∧ s.transferredBytes = 0 ∧
    s.currentFile = 4294967295 ∧ s.fit = none ∧
    s.files.length ≤ s.totalFiles ∧
    ∀ i < s.files.length, (s.files.getD i fiDefault).status = FStatus.scheduled
  shareWait : s.awaitingShare = true →
    s.status = SStatus.pausedByUser ∧ s.pauseStack = [SStatus.connected] ∧
    s.preventUserToggle = true ∧ s.files.length = s.totalFiles
  dfWait : s.awaitingDF = true →
    s.status = SStatus.pausedByUser ∧ s.pauseStack = [SStatus.inTransfer] ∧
    s.preventUserToggle = true ∧ fitWritten s.fit = 0
  trans : underlyingR s = SStatus.inTransfer →
    s.currentFile < s.totalFiles ∧
    s.files.length = s.totalFiles ∧
    s.transferredFiles + s.skippedFiles = s.currentFile ∧
    s.transferredBytes ≤
      sumSizes (s.files.take s.currentFile) + fitWritten s.fit ∧
    (∀ w, s.fit = some w → w.written + w.remainingBytes = w.size ∧
      w.size = (s.files.getD s.currentFile fiDefault).size) ∧
    (∀ i, i ≠ s.currentFile → i < s.files.length →
      (s.files.getD i fiDefault).status ≠ FStatus.inTransfer)
  post : underlyingR s = SStatus.transferCompleted ∨
      underlyingR s = SStatus.closing ∨ underlyingR s = SStatus.closed ∨
      underlyingR s = SStatus.aborted →
    s.transferredFiles + s.skippedFiles = s.totalFiles ∧
    s.transferredBytes ≤ sumSizes s.files ∧
    s.fit = none ∧
    (∀ i < s.files.length,
      (s.files.getD i fiDefault).status ≠ FStatus.inTransfer) ∧
    s.awaitingShare = false ∧ s.awaitingDF = false

theorem underlying_not_paused (s : RecvState)
    (h1 : s.status ≠ SStatus.pausedByUser)
    (h2 : s.status ≠ SStatus.pausedByPeer) : underlyingR s = s.status := by
  simp [underlyingR, h1, h2]

theorem underlying_paused (s : RecvState) (front : List SStatus) (b : SStatus)
    (hp : s.status = SStatus.pausedByUser ∨ s.status = SStatus.pausedByPeer)
    (hs : s.pauseStack = front ++ [b]) : underlyingR s = b := by
  simp [underlyingR, hp, hs, getLast_append_singleton]

theorem underlying_ne_paused (s : RecvState) (h : RInv s) :
    underlyingR s ≠ SStatus.pausedByUser ∧
    underlyingR s ≠ SStatus.pausedByPeer := by
  by_cases hp : s.status = SStatus.pausedByUser ∨ s.status = SStatus.pausedByPeer
  · obtain ⟨front, b, hs, hb, _⟩ := h.stackOk hp
    rw [underlying_paused s front b hp hs]
    rcases hb with hb | hb | hb | hb <;> subst hb <;>
      exact ⟨by decide, by decide⟩
  · push_neg at hp
    rw [underlying_not_paused s hp.1 hp.2]
    exact hp

theorem status_setFileStatus_ne_IT (l : List FileInfo) (c i : Nat)
    (st : FStatus) (hi : i < l.length) (hstne : st ≠ FStatus.inTransfer)
    (hother : i ≠ c → (l.getD i fiDefault).status ≠ FStatus.inTransfer) :
    ((setFileStatus l c st).getD i fiDefault).status ≠
      FStatus.inTransfer := by
  by_cases hic : i = c
  · subst hic
    rw [getD_setFileStatus_self l i _ hi]
    exact hstne
  · rw [getD_setFileStatus_ne l c i _ (fun hh => hic hh.symm)]
    exact hother hic

/-- Aborting preserves the invariant: afterwards the counters add up to the
total, the bytes stay bounded and no file is left InTransfer. -/
theorem rinv_abort (s : RecvState) (h : RInv s) :
    RInv (abortConnectionR s) := by
  unfold abortConnectionR
  split
  · exact h
  · rename_i hng
    have key : s.transferredFiles + s.skippedFiles ≤ s.totalFiles ∧
        s.transferredBytes ≤ sumSizes s.files ∧
        (∀ i < s.files.length, i ≠ s.currentFile →
          (s.files.getD i fiDefault).status ≠ FStatus.inTransfer) ∧
        (¬(s.currentFile < s.totalFiles) → ∀ i < s.files.length,
          (s.files.getD i fiDefault).status ≠ FStatus.inTransfer) := by
      have hnp := underlying_ne_paused s h
      cases hu : underlyingR s with
      | pausedByUser => exact absurd hu hnp.1
      | pausedByPeer => exact absurd hu hnp.2
      | new =>
          obtain ⟨h1, h2, h3, _, _, _, h7⟩ := h.pre (Or.inl hu)
          refine ⟨by omega, by rw [h3]; exact Nat.zero_le _, ?_, ?_⟩
          · intro i hi _; rw [h7 i hi]; decide
          · intro _ i hi; rw [h7 i hi]; decide
      | connecting =>
          obtain ⟨h1, h2, h3, _, _, _, h7⟩ := h.pre (Or.inr (Or.inl hu))
          refine ⟨by omega, by rw [h3]; exact Nat.zero_le _, ?_, ?_⟩
          · intro i hi _; rw [h7 i hi]; decide
          · intro _ i hi; rw [h7 i hi]; decide
      | connected =>
          obtain ⟨h1, h2, h3, _, _, _, h7⟩ := h.pre (Or.inr (Or.inr hu))
          refine ⟨by omega, by rw [h3]; exact Nat.zero_le _, ?_, ?_⟩
          · intro i hi _; rw [h7 i hi]; decide
          · intro _ i hi; rw [h7 i hi]; decide
      | inTransfer =>
          obtain ⟨hc, hlen, hcnt, hbytes, hwf, hnoIT⟩ := h.trans hu
          have hfw : fitWritten s.fit ≤
              (s.files.getD s.currentFile fiDefault).size := by
            cases hf : s.fit with
            | none => simp [fitWritten]
            | some w =>
                obtain ⟨h1, h2⟩ := hwf w hf
                simp only [fitWritten]; omega
          have hts : sumSizes (s.files.take s.currentFile) +
              (s.files.getD s.currentFile fiDefault).size =
              sumSizes (s.files.take (s.currentFile + 1)) :=
            (sumSizes_take_succ s.files s.currentFile (by omega)).symm
          have htl : sumSizes (s.files.take (s.currentFile + 1)) ≤
              sumSizes s.files := sumSizes_take_le s.files _
          refine ⟨by omega, by omega, ?_, ?_⟩
          · intro i hi hne; exact hnoIT i hne hi
          · intro hct; exact absurd hc hct
      | transferCompleted =>
          obtain ⟨hcnt, hbytes, _, hnoIT, _, _⟩ := h.post (Or.inl hu)
          exact ⟨by omega, hbytes, fun i hi _ => hnoIT i hi,
            fun _ i hi => hnoIT i hi⟩
      | closing =>
          obtain ⟨hcnt, hbytes, _, hnoIT, _, _⟩ := h.post (Or.inr (Or.inl hu))
          exact ⟨by omega, hbytes, fun i hi _ => hnoIT i hi,
            fun _ i hi => hnoIT i hi⟩
      | closed =>
          obtain ⟨hcnt, hbytes, _, hnoIT, _, _⟩ :=
            h.post (Or.inr (Or.inr (Or.inl hu)))
          exact ⟨by omega, hbytes, fun i hi _ => hnoIT i hi,
            fun _ i hi => hnoIT i hi⟩
      | aborted =>
          obtain ⟨hcnt, hbytes, _, hnoIT, _, _⟩ :=
            h.post (Or.inr (Or.inr (Or.inr hu)))
          exact ⟨by omega, hbytes, fun i hi _ => hnoIT i hi,
            fun _ i hi => hnoIT i hi⟩
    obtain ⟨hA, hB, hC, hCc⟩ := key
    have htot := h.totalLt
    have hrem : remainingFilesR s =
        s.totalFiles - s.transferredFiles - s.skippedFiles := by
      unfold remainingFilesR usub32; omega
    refine ⟨htot, ?_, ?_, ?_, ?_, ?_, ?_, ?_, ?_⟩
    · intro hh; simp at hh
    · intro _ _ hh; exact absurd rfl hh
    · intro _; exact Or.inr rfl
    · intro hh; simp [underlyingR] at hh
    · intro hh; exact nomatch hh
    · intro hh; exact nomatch hh
    · intro hh; simp [underlyingR] at hh
    · intro _
      refine ⟨?_, ?_, rfl, ?_, rfl, rfl⟩
      · show s.transferredFiles + (s.skippedFiles + remainingFilesR s) =
          s.totalFiles
        omega
      · show s.transferredBytes ≤ sumSizes (if s.currentFile < s.totalFiles
            then setFileStatus s.files s.currentFile FStatus.transferFailed
            else s.files)
        split
        · rwa [sumSizes_setFileStatus]
        · exact hB
      · intro i hi
        show ((if s.currentFile < s.totalFiles then
            setFileStatus s.files s.currentFile FStatus.transferFailed
            else s.files).getD i fiDefault).status ≠ FStatus.inTransfer
        by_cases hct : s.currentFile < s.totalFiles
        · rw [if_pos hct] at hi ⊢
          rw [length_setFileStatus] at hi
          exact status_setFileStatus_ne_IT s.files s.currentFile i _ hi
            (by decide) (hC i hi)
        · rw [if_neg hct] at hi ⊢
          exact hCc hct i hi

/-- Advancing to the next file preserves the invariant, given the state an
advancing caller leaves behind: unpaused InTransfer, no open writer, and
counters/statuses already accounting for every file before the new index. -/
theorem rinv_moveToNext (s : RecvState)
    (hst : s.status = SStatus.inTransfer)
    (hstk : s.pauseStack = [])
    (hprev : s.preventUserToggle = false)
    (haw1 : s.awaitingShare = false) (haw2 : s.awaitingDF = false)
    (htot : s.totalFiles < 2147483647)
    (hfit : s.fit = none)
    (hlen : s.files.length = s.totalFiles)
    (hc2 : (s.currentFile + 1) % 4294967296 ≤ s.totalFiles)
    (hcnt : s.transferredFiles + s.skippedFiles =
      (s.currentFile + 1) % 4294967296)
    (hbytes : s.transferredBytes ≤
      sumSizes (s.files.take ((s.currentFile + 1) % 4294967296)))
    (hnoIT : ∀ i < s.files.length, i ≠ (s.currentFile + 1) % 4294967296 →
      (s.files.getD i fiDefault).status ≠ FStatus.inTransfer) :
    RInv (moveToNextFileR s) := by
  unfold moveToNextFileR closeConnectionR
  by_cases heq : (s.currentFile + 1) % 4294967296 = s.totalFiles
  · rw [if_pos heq, if_neg (by simp)]
    refine ⟨htot, ?_, ?_, ?_, ?_, ?_, ?_, ?_, ?_⟩
    · intro hh; simp at hh
    · intro _ _ _; exact hstk
    · intro hh
      have hh' : s.preventUserToggle = true := hh
      rw [hprev] at hh'; exact nomatch hh'
    · intro hh; simp [underlyingR] at hh
    · intro hh
      have hh' : s.awaitingShare = true := hh
      rw [haw1] at hh'; exact nomatch hh'
    · intro hh
      have hh' : s.awaitingDF = true := hh
      rw [haw2] at hh'; exact nomatch hh'
    · intro hh; simp [underlyingR] at hh
    · intro _
      rw [heq, ← hlen, List.take_length] at hbytes
      refine ⟨?_, hbytes, hfit, ?_, haw1, haw2⟩
      · show s.transferredFiles + s.skippedFiles = s.totalFiles
        omega
      · intro i hi
        have hi' : i < s.files.length := hi
        exact hnoIT i hi' (by omega)
  · rw [if_neg heq]
    refine ⟨htot, ?_, ?_, ?_, ?_, ?_, ?_, ?_, ?_⟩
    · intro hh; simp [hst] at hh
    · intro _ _ _; exact hstk
    · intro hh
      have hh' : s.preventUserToggle = true := hh
      rw [hprev] at hh'; exact nomatch hh'
    · intro hh; simp [underlyingR, hst] at hh
    · intro hh
      have hh' : s.awaitingShare = true := hh
      rw [haw1] at hh'; exact nomatch hh'
    · intro hh
      have hh' : s.awaitingDF = true := hh
      rw [haw2] at hh'; exact nomatch hh'
    · intro _
      refine ⟨?_, hlen, hcnt, ?_, ?_, ?_⟩
      · show (s.currentFile + 1) % 4294967296 < s.totalFiles
        omega
      · rw [hfit]
        simp only [fitWritten]
        omega
      · intro w hw; rw [hfit] at hw; exact nomatch hw
      · intro i hne hi; exact hnoIT i hi hne
    · intro hh; simp [underlyingR, hst] at hh

/-- The facts available about an unpaused InTransfer state satisfying the
invariant; every file-level command handler starts from such a state. -/
structure TransCtx (s : RecvState) : Prop where
  hst : s.status = SStatus.inTransfer
  hstk : s.pauseStack = []
  hprev : s.preventUserToggle = false
  haw1 : s.awaitingShare = false
  haw2 : s.awaitingDF = false
  htot : s.totalFiles < 2147483647
  hlen : s.files.length = s.totalFiles
  hc : s.currentFile < s.totalFiles
  hcnt : s.transferredFiles + s.skippedFiles = s.currentFile
  hbytes : s.transferredBytes ≤
    sumSizes (s.files.take s.currentFile) + fitWritten s.fit
  hwf : ∀ w, s.fit = some w → w.written + w.remainingBytes = w.size ∧
    w.size = (s.files.getD s.currentFile fiDefault).size
  hnoIT : ∀ i, i ≠ s.currentFile → i < s.files.length →
    (s.files.getD i fiDefault).status ≠ FStatus.inTransfer

theorem transCtx_of_rinv (s : RecvState) (h : RInv s)
    (hst : s.status = SStatus.inTransfer) : TransCtx s := by
  have h1 : s.status ≠ SStatus.pausedByUser := by rw [hst]; decide
  have h2 : s.status ≠ SStatus.pausedByPeer := by rw [hst]; decide
  have h3 : s.status ≠ SStatus.aborted := by rw [hst]; decide
  have hu : underlyingR s = SStatus.inTransfer := by
    rw [underlying_not_paused s h1 h2]; exact hst
  obtain ⟨hc, hlen, hcnt, hbytes, hwf, hnoIT⟩ := h.trans hu
  have haw1 : s.awaitingShare = false := by
    cases hh : s.awaitingShare with
    | false => rfl
    | true => exact absurd ((h.shareWait hh).1) (by rw [hst]; decide)
  have haw2 : s.awaitingDF = false := by
    cases hh : s.awaitingDF with
    | false => rfl
    | true => exact absurd ((h.dfWait hh).1) (by rw [hst]; decide)
  have hprev : s.preventUserToggle = false := by
    cases hh : s.preventUserToggle with
    | false => rfl
    | true =>
        rcases h.preventOk hh with hx | hx
        · exact absurd hx h1
        · exact absurd hx h3
  exact ⟨hst, h.stackEmpty h1 h2 h3, hprev, haw1, haw2, h.totalLt, hlen, hc,
    hcnt, hbytes, hwf, hnoIT⟩

theorem transCtx_fw_le (s : RecvState) (ctx : TransCtx s) :
    fitWritten s.fit ≤ (s.files.getD s.currentFile fiDefault).size := by
  cases hf : s.fit with
  | none => simp [fitWritten]
  | some w =>
      obtain ⟨h1, h2⟩ := ctx.hwf w hf
      simp only [fitWritten]; omega

/-- Rejecting the current file (REJECT sent, file marked, skip counters
bumped, advance) preserves the invariant. -/
theorem rinv_rejectFile (s : RecvState) (ctx : TransCtx s) :
    RInv (rejectFileTransferR s) := by
  unfold rejectFileTransferR
  have hclen : s.currentFile < s.files.length := by
    rw [ctx.hlen]; exact ctx.hc
  apply rinv_moveToNext
  · exact ctx.hst
  · exact ctx.hstk
  · exact ctx.hprev
  · exact ctx.haw1
  · exact ctx.haw2
  · exact ctx.htot
  · rfl
  · show (setFileStatus s.files s.currentFile FStatus.transferRejected).length
        = s.totalFiles
    rw [length_setFileStatus]; exact ctx.hlen
  · show (s.currentFile + 1) % 4294967296 ≤ s.totalFiles
    have := ctx.hc; have := ctx.htot; omega
  · show s.transferredFiles + (s.skippedFiles + 1) =
      (s.currentFile + 1) % 4294967296
    have := ctx.hcnt; have := ctx.hc; have := ctx.htot; omega
  · show s.transferredBytes ≤ sumSizes
      ((setFileStatus s.files s.currentFile FStatus.transferRejected).take
        ((s.currentFile + 1) % 4294967296))
    have hmod : (s.currentFile + 1) % 4294967296 = s.currentFile + 1 := by
      have := ctx.hc; have := ctx.htot; omega
    rw [hmod]
    have hlen' : s.currentFile <
        (setFileStatus s.files s.currentFile FStatus.transferRejected).length
      := by rw [length_setFileStatus]; exact hclen
    rw [sumSizes_take_succ _ s.currentFile hlen',
      take_setFileStatus_ge _ _ _ _ (Nat.le_refl _),
      getD_setFileStatus_self _ _ _ hclen]
    have h1 := ctx.hbytes
    have h2 := transCtx_fw_le s ctx
    show s.transferredBytes ≤ sumSizes (s.files.take s.currentFile) +
      (s.files.getD s.currentFile fiDefault).size
    omega
  · intro i hi _
    rw [length_setFileStatus] at hi
    exact status_setFileStatus_ne_IT s.files s.currentFile i _ hi
      (by decide) (fun hne => ctx.hnoIT i hne hi)

/-- Accepting the current file (ACCEPT sent, file marked InTransfer)
preserves the invariant. -/
theorem rinv_acceptFile (s : RecvState) (ctx : TransCtx s) :
    RInv (acceptFileTransferR s) := by
  unfold acceptFileTransferR
  have hclen : s.currentFile < s.files.length := by
    rw [ctx.hlen]; exact ctx.hc
  refine ⟨ctx.htot, ?_, ?_, ?_, ?_, ?_, ?_, ?_, ?_⟩
  · intro hh; simp [ctx.hst] at hh
  · intro _ _ _; exact ctx.hstk
  · intro hh
    have hh' : s.preventUserToggle = true := hh
    rw [ctx.hprev] at hh'; exact nomatch hh'
  · intro hh; simp [underlyingR, ctx.hst] at hh
  · intro hh
    have hh' : s.awaitingShare = true := hh
    rw [ctx.haw1] at hh'; exact nomatch hh'
  · intro hh
    have hh' : s.awaitingDF = true := hh
    rw [ctx.haw2] at hh'; exact nomatch hh'
  · intro _
    refine ⟨ctx.hc, ?_, ctx.hcnt, ?_, ?_, ?_⟩
    · show (setFileStatus s.files s.currentFile FStatus.inTransfer).length
          = s.totalFiles
      rw [length_setFileStatus]; exact ctx.hlen
    · show s.transferredBytes ≤ sumSizes
        ((setFileStatus s.files s.currentFile FStatus.inTransfer).take
          s.currentFile) + fitWritten s.fit
      rw [take_setFileStatus_ge _ _ _ _ (Nat.le_refl _)]
      exact ctx.hbytes
    · intro w hw
      have hw' : s.fit = some w := hw
      rw [getD_setFileStatus_self _ _ _ hclen]
      exact ctx.hwf w hw'
    · intro i hne hi
      rw [length_setFileStatus] at hi
      rw [getD_setFileStatus_ne s.files s.currentFile i _
        (fun hh => hne hh.symm)]
      exact ctx.hnoIT i hne hi
  · intro hh; simp [underlyingR, ctx.hst] at hh

theorem kbCandidate_size (p n e : List Nat) (sz : Nat) (ts : QDateTimeRep)
    (k : Nat) : (kbCandidate p n e sz ts k).size = sz := by
  unfold kbCandidate mkFileInfo
  split <;> rfl

theorem kbGo_size (fsE mkp op : List Nat → Bool) (p n e : List Nat)
    (sz : Nat) (ts : QDateTimeRep) :
    ∀ fuel k fi, kbGo fsE mkp op p n e sz ts fuel k = some fi →
      fi.size = sz := by
  intro fuel
  induction fuel with
  | zero => intro k fi hh; exact nomatch hh
  | succ fuel ih =>
      intro k fi hh
      unfold kbGo at hh
      split at hh
      · exact nomatch hh
      · split at hh
        · exact ih (k + 1) fi hh
        · rw [Option.some.injEq] at hh
          rw [← hh]; exact kbCandidate_size p n e sz ts k

theorem mkWriter_written (v : Bool) (sz : Nat) (e m o : Bool) :
    (FileInTransfer.mkWriter v sz e m o).written = 0 := by
  simp only [FileInTransfer.mkWriter, FileInTransfer.mkBase]
  split <;> rfl

theorem mkWriter_rem (v : Bool) (sz : Nat) (e m o : Bool) :
    (FileInTransfer.mkWriter v sz e m o).remainingBytes = sz := by
  simp only [FileInTransfer.mkWriter, FileInTransfer.mkBase]
  split <;> rfl

theorem mkWriter_size (v : Bool) (sz : Nat) (e m o : Bool) :
    (FileInTransfer.mkWriter v sz e m o).size = sz := by
  simp only [FileInTransfer.mkWriter, FileInTransfer.mkBase]
  split <;> rfl

/-- Performing a duplicate-file action from an unpaused InTransfer state
whose writer has not written yet preserves the invariant. -/
theorem rinv_performDF (a : DFAction) (fsE mkp op : List Nat → Bool)
    (s : RecvState) (ctx : TransCtx s) (hw0 : fitWritten s.fit = 0) :
    RInv (performDFActionR a fsE mkp op s) := by
  unfold performDFActionR
  by_cases h1 : a = DFAction.replace
  · rw [if_pos h1]; exact rinv_acceptFile s ctx
  · rw [if_neg h1]
    by_cases h2 : a = DFAction.keep
    · rw [if_pos h2]; exact rinv_rejectFile s ctx
    · rw [if_neg h2]
      have hclen : s.currentFile < s.files.length := by
        rw [ctx.hlen]; exact ctx.hc
      cases hkb : performDFKeepBoth fsE mkp op
          (s.files.getD s.currentFile fiDefault) with
      | none => exact rinv_rejectFile s ctx
      | some nf =>
          have hkb' : kbGo fsE mkp op
              (s.files.getD s.currentFile fiDefault).path
              (baseNameL (s.files.getD s.currentFile fiDefault).name)
              (completeSuffixL (s.files.getD s.currentFile fiDefault).name)
              (s.files.getD s.currentFile fiDefault).size
              (s.files.getD s.currentFile fiDefault).lastModified 255 1 =
              some nf := hkb
          have hsz : nf.size = (s.files.getD s.currentFile fiDefault).size :=
            kbGo_size _ _ _ _ _ _ _ _ 255 1 nf hkb'
          apply rinv_acceptFile
          refine ⟨ctx.hst, ctx.hstk, ctx.hprev, ctx.haw1, ctx.haw2, ctx.htot,
            ?_, ctx.hc, ctx.hcnt, ?_, ?_, ?_⟩
          · show (s.files.set s.currentFile nf).length = s.totalFiles
            rw [List.length_set]; exact ctx.hlen
          · show s.transferredBytes ≤
              sumSizes ((s.files.set s.currentFile nf).take s.currentFile) +
                fitWritten (some (FileInTransfer.mkWriter nf.valid nf.size
                  (fsE nf.filePath) (mkp nf.filePath) (op nf.filePath)))
            rw [take_set_ge _ _ _ _ (Nat.le_refl _)]
            simp only [fitWritten, mkWriter_written]
            have := ctx.hbytes
            omega
          · intro w hw
            simp only [Option.some.injEq] at hw
            rw [getD_set_self _ _ _ hclen, ← hw, mkWriter_written,
              mkWriter_rem, mkWriter_size]
            omega
          · intro i hne hi
            rw [List.length_set] at hi
            rw [getD_set_ne s.files s.currentFile i nf
              (fun hh => hne hh.symm)]
            exact ctx.hnoIT i hne hi

/-- Leaving pause mode (popping the saved status) preserves the invariant. -/
theorem rinv_toggle_pop (s : RecvState) (h : RInv s)
    (hpaused : s.status = SStatus.pausedByUser ∨
      s.status = SStatus.pausedByPeer)
    (hprev : s.preventUserToggle = false)
    (hflag1 : s.awaitingShare = false) (hflag2 : s.awaitingDF = false)
    (old : SStatus) (rest : List SStatus)
    (hstk : s.pauseStack = old :: rest) :
    RInv { s with status := old, pauseStack := rest } := by
  obtain ⟨front, b, hfb, hb, hfr⟩ := h.stackOk hpaused
  have hbnp : b ≠ SStatus.pausedByUser ∧ b ≠ SStatus.pausedByPeer ∧
      b ≠ SStatus.aborted := by
    rcases hb with hx | hx | hx | hx <;> subst hx <;>
      exact ⟨by decide, by decide, by decide⟩
  have hueq : underlyingR s = b := underlying_paused s front b hpaused hfb
  rw [hstk] at hfb
  cases front with
  | nil =>
      simp only [List.nil_append, List.cons.injEq] at hfb
      obtain ⟨hob, hre⟩ := hfb
      have hueq2 : underlyingR { s with status := old, pauseStack := rest } =
          b := by
        rw [underlying_not_paused]
        · exact hob
        · show old ≠ SStatus.pausedByUser
          rw [hob]; exact hbnp.1
        · show old ≠ SStatus.pausedByPeer
          rw [hob]; exact hbnp.2.1
      refine ⟨h.totalLt, ?_, ?_, ?_, ?_, ?_, ?_, ?_, ?_⟩
      · intro hh
        have hh' : old = SStatus.pausedByUser ∨
            old = SStatus.pausedByPeer := hh
        rw [hob] at hh'
        rcases hh' with hx | hx
        · exact absurd hx hbnp.1
        · exact absurd hx hbnp.2.1
      · intro _ _ _
        show rest = []
        exact hre
      · intro hh
        have hh' : s.preventUserToggle = true := hh
        rw [hprev] at hh'; exact nomatch hh'
      · intro hh; rw [hueq2, ← hueq] at hh; exact h.pre hh
      · intro hh
        have hh' : s.awaitingShare = true := hh
        rw [hflag1] at hh'; exact nomatch hh'
      · intro hh
        have hh' : s.awaitingDF = true := hh
        rw [hflag2] at hh'; exact nomatch hh'
      · intro hh; rw [hueq2, ← hueq] at hh; exact h.trans hh
      · intro hh; rw [hueq2, ← hueq] at hh; exact h.post hh
  | cons f front' =>
      simp only [List.cons_append, List.cons.injEq] at hfb
      obtain ⟨hof, hre⟩ := hfb
      have hfp : old = SStatus.pausedByUser ∨ old = SStatus.pausedByPeer := by
        rw [hof]
        exact hfr f (List.mem_cons_self f front')
      have hueq2 : underlyingR { s with status := old, pauseStack := rest } =
          b := by
        apply underlying_paused _ front' b
        · exact hfp
        · exact hre
      refine ⟨h.totalLt, ?_, ?_, ?_, ?_, ?_, ?_, ?_, ?_⟩
      · intro _
        exact ⟨front', b, hre, hb,
          fun x hx => hfr x (List.mem_cons_of_mem _ hx)⟩
      · intro h1' h2' _
        rcases hfp with hx | hx
        · exact absurd hx h1'
        · exact absurd hx h2'
      · intro hh
        have hh' : s.preventUserToggle = true := hh
        rw [hprev] at hh'; exact nomatch hh'
      · intro hh; rw [hueq2, ← hueq] at hh; exact h.pre hh
      · intro hh
        have hh' : s.awaitingShare = true := hh
        rw [hflag1] at hh'; exact nomatch hh'
      · intro hh
        have hh' : s.awaitingDF = true := hh
        rw [hflag2] at hh'; exact nomatch hh'
      · intro hh; rw [hueq2, ← hueq] at hh; exact h.trans hh
      · intro hh; rw [hueq2, ← hueq] at hh; exact h.post hh

/-- Entering pause mode (pushing the current status) preserves the
invariant. -/
theorem rinv_toggle_push (s : RecvState) (h : RInv s) (ps : SStatus)
    (hps : ps = SStatus.pausedByUser ∨ ps = SStatus.pausedByPeer)
    (hng : s.status ≠ SStatus.new ∧ s.status ≠ SStatus.aborted ∧
      s.status ≠ SStatus.closing ∧ s.status ≠ SStatus.closed)
    (hnpu : s.status ≠ SStatus.pausedByUser) :
    RInv { s with pauseStack := s.status :: s.pauseStack, status := ps } := by
  have hflag1 : s.awaitingShare = false := by
    cases hh : s.awaitingShare with
    | false => rfl
    | true => exact absurd ((h.shareWait hh).1) hnpu
  have hflag2 : s.awaitingDF = false := by
    cases hh : s.awaitingDF with
    | false => rfl
    | true => exact absurd ((h.dfWait hh).1) hnpu
  have hprev : s.preventUserToggle = false := by
    cases hh : s.preventUserToggle with
    | false => rfl
    | true =>
        rcases h.preventOk hh with hx | hx
        · exact absurd hx hnpu
        · exact absurd hx hng.2.1
  by_cases hpp : s.status = SStatus.pausedByPeer
  · obtain ⟨front, b, hfb, hb, hfr⟩ := h.stackOk (Or.inr hpp)
    have hueq : underlyingR s = b :=
      underlying_paused s front b (Or.inr hpp) hfb
    have hueq2 : underlyingR { s with
        pauseStack := s.status :: s.pauseStack, status := ps } = b := by
      apply underlying_paused _ (s.status :: front) b
      · exact hps
      · show s.status :: s.pauseStack = (s.status :: front) ++ [b]
        rw [hfb]; rfl
    refine ⟨h.totalLt, ?_, ?_, ?_, ?_, ?_, ?_, ?_, ?_⟩
    · intro _
      refine ⟨s.status :: front, b, ?_, hb, ?_⟩
      · show s.status :: s.pauseStack = (s.status :: front) ++ [b]
        rw [hfb]; rfl
      · intro x hx
        rcases List.mem_cons.mp hx with hx' | hx'
        · rw [hx', hpp]; exact Or.inr rfl
        · exact hfr x hx'
    · intro h1' h2' _
      rcases hps with hx | hx
      · exact absurd hx h1'
      · exact absurd hx h2'
    · intro hh
      have hh' : s.preventUserToggle = true := hh
      rw [hprev] at hh'; exact nomatch hh'
    · intro hh; rw [hueq2, ← hueq] at hh; exact h.pre hh
    · intro hh
      have hh' : s.awaitingShare = true := hh
      rw [hflag1] at hh'; exact nomatch hh'
    · intro hh
      have hh' : s.awaitingDF = true := hh
      rw [hflag2] at hh'; exact nomatch hh'
    · intro hh; rw [hueq2, ← hueq] at hh; exact h.trans hh
    · intro hh; rw [hueq2, ← hueq] at hh; exact h.post hh
  · have hstk : s.pauseStack = [] := h.stackEmpty hnpu hpp hng.2.1
    have hmem : s.status = SStatus.connecting ∨
        s.status = SStatus.connected ∨ s.status = SStatus.inTransfer ∨
        s.status = SStatus.transferCompleted := by
      cases hss : s.status
      · exact absurd hss hng.1
      · exact Or.inl rfl
      · exact Or.inr (Or.inl rfl)
      · exact Or.inr (Or.inr (Or.inl rfl))
      · exact Or.inr (Or.inr (Or.inr rfl))
      · exact absurd hss hng.2.2.1
      · exact absurd hss hng.2.2.2
      · exact absurd hss hng.2.1
      · exact absurd hss hnpu
      · exact absurd hss hpp
    have hueq : underlyingR s = s.status :=
      underlying_not_paused s hnpu hpp
    have hueq2 : underlyingR { s with
        pauseStack := s.status :: s.pauseStack, status := ps } = s.status := by
      apply underlying_paused _ [] s.status
      · exact hps
      · show s.status :: s.pauseStack = [] ++ [s.status]
        rw [hstk]
        rfl
    refine ⟨h.totalLt, ?_, ?_, ?_, ?_, ?_, ?_, ?_, ?_⟩
    · intro _
      refine ⟨[], s.status, ?_, hmem, ?_⟩
      · show s.status :: s.pauseStack = [] ++ [s.status]
        rw [hstk]
        rfl
      · intro x hx; exact absurd hx (List.not_mem_nil x)
    · intro h1' h2' _
      rcases hps with hx | hx
      · exact absurd hx h1'
      · exact absurd hx h2'
    · intro hh
      have hh' : s.preventUserToggle = true := hh
      rw [hprev] at hh'; exact nomatch hh'
    · intro hh; rw [hueq2, ← hueq] at hh; exact h.pre hh
    · intro hh
      have hh' : s.awaitingShare = true := hh
      rw [hflag1] at hh'; exact nomatch hh'
    · intro hh
      have hh' : s.awaitingDF = true := hh
      rw [hflag2] at hh'; exact nomatch hh'
    · intro hh; rw [hueq2, ← hueq] at hh; exact h.trans hh
    · intro hh; rw [hueq2, ← hueq] at hh; exact h.post hh

/-- `togglePauseMode` preserves the invariant (the peer-requested toggle is
only reachable through `readData`, hence never in user-paused states). -/
theorem rinv_toggle (u : Bool) (s : RecvState) (h : RInv s)
    (hcond : u = false → s.status ≠ SStatus.pausedByUser) :
    RInv (togglePauseR u s) := by
  by_cases hg : s.status = SStatus.new ∨ s.status = SStatus.aborted ∨
      s.status = SStatus.closing ∨ s.status = SStatus.closed
  · unfold togglePauseR; rw [if_pos hg]; exact h
  by_cases hpc : u = true ∧ s.preventUserToggle = true
  · unfold togglePauseR; rw [if_neg hg, if_pos hpc]; exact h
  by_cases hequ : s.status =
      (if u then SStatus.pausedByUser else SStatus.pausedByPeer)
  · have hrw : togglePauseR u s = match s.pauseStack with
        | [] => s
        | old :: rest => { s with status := old, pauseStack := rest } := by
      unfold togglePauseR; rw [if_neg hg, if_neg hpc, if_pos hequ]
    rw [hrw]
    cases hstk : s.pauseStack with
    | nil => exact h
    | cons old rest =>
        have hpaused : s.status = SStatus.pausedByUser ∨
            s.status = SStatus.pausedByPeer := by
          cases u
          · exact Or.inr hequ
          · exact Or.inl hequ
        have hprev : s.preventUserToggle = false := by
          cases u
          · cases hh : s.preventUserToggle with
            | false => rfl
            | true =>
                rcases h.preventOk hh with hx | hx
                · have hx' : s.status = SStatus.pausedByPeer := hequ
                  rw [hx'] at hx; exact nomatch hx
                · have hx' : s.status = SStatus.pausedByPeer := hequ
                  rw [hx'] at hx; exact nomatch hx
          · cases hh : s.preventUserToggle with
            | false => rfl
            | true => exact absurd ⟨rfl, hh⟩ hpc
        have hflag1 : s.awaitingShare = false := by
          cases hh : s.awaitingShare with
          | false => rfl
          | true =>
              have := (h.shareWait hh).2.2.1
              rw [hprev] at this; exact nomatch this
        have hflag2 : s.awaitingDF = false := by
          cases hh : s.awaitingDF with
          | false => rfl
          | true =>
              have := (h.dfWait hh).2.2.1
              rw [hprev] at this; exact nomatch this
        exact rinv_toggle_pop s h hpaused hprev hflag1 hflag2 old rest hstk
  · have hrw : togglePauseR u s = { s with
        pauseStack := s.status :: s.pauseStack,
        status := if u then SStatus.pausedByUser
                  else SStatus.pausedByPeer } := by
      unfold togglePauseR; rw [if_neg hg, if_neg hpc, if_neg hequ]
    rw [hrw]
    apply rinv_toggle_push s h _ ?_ ?_ ?_
    · cases u
      · exact Or.inr rfl
      · exact Or.inl rfl
    · push_neg at hg; exact hg
    · cases u
      · exact hcond rfl
      · exact fun hh => hequ hh

/-- Reduction of the user-requested unpause performed by the decision
handlers: from a user-paused state with a single stacked status and the
inhibit flag clear, the toggle pops that status. -/
theorem toggle_unpause (s : RecvState) (b : SStatus)
    (hst : s.status = SStatus.pausedByUser)
    (hstk : s.pauseStack = [b]) (hprev : s.preventUserToggle = false) :
    togglePauseR true s = { s with status := b, pauseStack := [] } := by
  unfold togglePauseR
  rw [if_neg (by rw [hst]; decide)]
  rw [if_neg (by rw [hprev]; simp)]
  rw [if_pos (show _ from by rw [hst]; rfl)]
  rw [hstk]

/-- The invariant does not mention the peer UUID, the advertised byte
total, the message flag, the default duplicate-file action or the skipped
bytes, so updating them preserves it. -/
theorem rinv_irrelevant (s : RecvState) (h : RInv s) (pk : Bool) (tb : Nat)
    (ms : Bool) (df : DFAction) (sb : Nat) :
    RInv { s with
      peerUuidKnown := pk
      totalBytes := tb
      msgSet := ms
      defaultDF := df
      skippedBytes := sb } :=
  ⟨h.totalLt, h.stackOk, h.stackEmpty, h.preventOk, h.pre, h.shareWait,
   h.dfWait, h.trans, h.post⟩

/-- A status change within the pre-transfer phase preserves the
invariant. -/
theorem rinv_setStatus_pre (s : RecvState) (h : RInv s) (st2 : SStatus)
    (hs : s.status = SStatus.new ∨ s.status = SStatus.connecting ∨
      s.status = SStatus.connected)
    (hst2 : st2 = SStatus.new ∨ st2 = SStatus.connecting ∨
      st2 = SStatus.connected) :
    RInv { s with status := st2 } := by
  have h1 : s.status ≠ SStatus.pausedByUser := by
    rcases hs with hx | hx | hx <;> rw [hx] <;> decide
  have h2 : s.status ≠ SStatus.pausedByPeer := by
    rcases hs with hx | hx | hx <;> rw [hx] <;> decide
  have h3 : s.status ≠ SStatus.aborted := by
    rcases hs with hx | hx | hx <;> rw [hx] <;> decide
  have h2np : st2 ≠ SStatus.pausedByUser ∧ st2 ≠ SStatus.pausedByPeer ∧
      st2 ≠ SStatus.aborted := by
    rcases hst2 with hx | hx | hx <;> subst hx <;>
      exact ⟨by decide, by decide, by decide⟩
  have hu : underlyingR s = SStatus.new ∨
      underlyingR s = SStatus.connecting ∨
      underlyingR s = SStatus.connected := by
    rw [underlying_not_paused s h1 h2]; exact hs
  have hueq2 : underlyingR { s with status := st2 } = st2 := by
    have := underlying_not_paused { s with status := st2 } h2np.1 h2np.2.1
    rw [this]
  refine ⟨h.totalLt, ?_, ?_, ?_, ?_, ?_, ?_, ?_, ?_⟩
  · intro hh
    have hh' : st2 = SStatus.pausedByUser ∨ st2 = SStatus.pausedByPeer := hh
    rcases hh' with hx | hx
    · exact absurd hx h2np.1
    · exact absurd hx h2np.2.1
  · intro _ _ _; exact h.stackEmpty h1 h2 h3
  · intro hh
    rcases h.preventOk hh with hx | hx
    · exact absurd hx h1
    · exact absurd hx h3
  · intro _; exact h.pre hu
  · intro hh; exact absurd ((h.shareWait hh).1) h1
  · intro hh; exact absurd ((h.dfWait hh).1) h1
  · intro hh
    rw [hueq2] at hh
    rcases hst2 with hx | hx | hx <;> subst hx <;> exact nomatch hh
  · intro hh
    rw [hueq2] at hh
    rcases hst2 with hx | hx | hx <;> subst hx <;>
      rcases hh with h' | h' | h' | h' <;> exact nomatch h'

theorem mkFileInfo_status (p : List Nat) (sz : Nat) (ts : QDateTimeRep) :
    (mkFileInfo p sz ts).status = FStatus.scheduled := by
  unfold mkFileInfo
  split <;> rfl

theorem rinv_helloR (w : Bool) (s : RecvState) (h : RInv s) :
    RInv (helloR w s) := by
  unfold helloR
  split
  · exact rinv_abort s h
  · have hs2 : RInv { s with peerUuidKnown := true } :=
      rinv_irrelevant s h true s.totalBytes s.msgSet s.defaultDF
        s.skippedBytes
    cases w
    · exact rinv_abort _ hs2
    · exact hs2

theorem rinv_ackR (s : RecvState) (h : RInv s) : RInv (ackR s) := by
  unfold ackR
  split
  · exact rinv_abort s h
  · rename_i hcnd
    push_neg at hcnd
    exact rinv_setStatus_pre s h SStatus.connected
      (Or.inr (Or.inl hcnd.1)) (Or.inr (Or.inr rfl))

theorem rinv_itemR (p : List Nat) (sz : Nat) (ts : QDateTimeRep)
    (s : RecvState) (h : RInv s) : RInv (itemR p sz ts s) := by
  unfold itemR
  split
  · exact rinv_abort s h
  split
  · exact rinv_abort s h
  rename_i hcnd _
  push_neg at hcnd
  obtain ⟨hst, hlt⟩ := hcnd
  have h1 : s.status ≠ SStatus.pausedByUser := by rw [hst]; decide
  have h2 : s.status ≠ SStatus.pausedByPeer := by rw [hst]; decide
  have h3 : s.status ≠ SStatus.aborted := by rw [hst]; decide
  have hu : underlyingR s = SStatus.connected := by
    rw [underlying_not_paused s h1 h2]; exact hst
  obtain ⟨p1, p2, p3, p4, p5, _, p7⟩ := h.pre (Or.inr (Or.inr hu))
  have hun : underlyingR { s with
      files := s.files ++ [mkFileInfo p sz ts] } = SStatus.connected := by
    have := underlying_not_paused
      { s with files := s.files ++ [mkFileInfo p sz ts] } h1 h2
    rw [this]; exact hst
  refine ⟨h.totalLt, ?_, ?_, ?_, ?_, ?_, ?_, ?_, ?_⟩
  · intro hh
    have hh' : s.status = SStatus.pausedByUser ∨
        s.status = SStatus.pausedByPeer := hh
    rw [hst] at hh'
    rcases hh' with hx | hx <;> exact nomatch hx
  · intro _ _ _; exact h.stackEmpty h1 h2 h3
  · intro hh
    rcases h.preventOk hh with hx | hx
    · exact absurd hx h1
    · exact absurd hx h3
  · intro _
    refine ⟨p1, p2, p3, p4, p5, ?_, ?_⟩
    · show (s.files ++ [mkFileInfo p sz ts]).length ≤ s.totalFiles
      rw [List.length_append]
      show s.files.length + 1 ≤ s.totalFiles
      omega
    · intro i hi
      have hi' : i < (s.files ++ [mkFileInfo p sz ts]).length := hi
      rw [List.length_append] at hi'
      have hi2 : i < s.files.length + 1 := hi'
      show ((s.files ++ [mkFileInfo p sz ts]).getD i fiDefault).status =
        FStatus.scheduled
      by_cases hlt2 : i < s.files.length
      · rw [getD_append_left _ _ _ hlt2]; exact p7 i hlt2
      · have hieq : i = s.files.length := by omega
        rw [hieq, getD_append_self]
        exact mkFileInfo_status p sz ts
  · intro hh; exact absurd ((h.shareWait hh).1) h1
  · intro hh; exact absurd ((h.dfWait hh).1) h1
  · intro hh
    rw [hun] at hh
    exact nomatch hh
  · intro hh
    rw [hun] at hh
    rcases hh with h' | h' | h' | h' <;> exact nomatch h'

theorem rinv_closeR (s : RecvState) (h : RInv s) : RInv (closeR s) := by
  unfold closeR
  split
  · exact h
  split
  · exact rinv_abort s h
  · rename_i _ hcnd
    push_neg at hcnd
    unfold closeConnectionR
    split
    · exact h
    · rename_i hg
      have hst : s.status = SStatus.transferCompleted := by
        by_cases hx : s.status = SStatus.transferCompleted
        · exact hx
        · exact absurd (Or.inr (Or.inl (hcnd hx))) hg
      have h1 : s.status ≠ SStatus.pausedByUser := by rw [hst]; decide
      have h2 : s.status ≠ SStatus.pausedByPeer := by rw [hst]; decide
      have h3 : s.status ≠ SStatus.aborted := by rw [hst]; decide
      have hu : underlyingR s = SStatus.transferCompleted := by
        rw [underlying_not_paused s h1 h2]; exact hst
      obtain ⟨hcnt, hbytes, hfit, hnoIT, haw1, haw2⟩ := h.post (Or.inl hu)
      refine ⟨h.totalLt, ?_, ?_, ?_, ?_, ?_, ?_, ?_, ?_⟩
      · intro hh
        have hh' : SStatus.closing = SStatus.pausedByUser ∨
            SStatus.closing = SStatus.pausedByPeer := hh
        rcases hh' with hx | hx <;> exact nomatch hx
      · intro _ _ _; exact h.stackEmpty h1 h2 h3
      · intro hh
        rcases h.preventOk hh with hx | hx
        · exact absurd hx h1
        · exact absurd hx h3
      · intro hh; simp [underlyingR] at hh
      · intro hh
        have hh' : s.awaitingShare = true := hh
        rw [haw1] at hh'; exact nomatch hh'
      · intro hh
        have hh' : s.awaitingDF = true := hh
        rw [haw2] at hh'; exact nomatch hh'
      · intro hh; simp [underlyingR] at hh
      · intro _; exact ⟨hcnt, hbytes, hfit, hnoIT, haw1, haw2⟩

theorem rinv_skipR (s : RecvState) (h : RInv s) : RInv (skipR s) := by
  unfold skipR
  split
  · exact rinv_abort s h
  · rename_i hcnd
    have hst : s.status = SStatus.inTransfer := by
      by_contra hx; exact hcnd (Or.inl hx)
    have hfn : s.fit = none := by
      cases hx : s.fit with
      | none => rfl
      | some w => exact absurd (Or.inr (by rw [hx]; rfl)) hcnd
    have ctx := transCtx_of_rinv s h hst
    have hclen : s.currentFile < s.files.length := by
      rw [ctx.hlen]; exact ctx.hc
    apply rinv_moveToNext
    · exact ctx.hst
    · exact ctx.hstk
    · exact ctx.hprev
    · exact ctx.haw1
    · exact ctx.haw2
    · exact ctx.htot
    · exact hfn
    · show (setFileStatus s.files s.currentFile
          FStatus.transferFailed).length = s.totalFiles
      rw [length_setFileStatus]; exact ctx.hlen
    · show (s.currentFile + 1) % 4294967296 ≤ s.totalFiles
      have := ctx.hc; have := ctx.htot; omega
    · show s.transferredFiles + (s.skippedFiles + 1) =
        (s.currentFile + 1) % 4294967296
      have := ctx.hcnt; have := ctx.hc; have := ctx.htot; omega
    · show s.transferredBytes ≤ sumSizes
        ((setFileStatus s.files s.currentFile FStatus.transferFailed).take
          ((s.currentFile + 1) % 4294967296))
      have hmod : (s.currentFile + 1) % 4294967296 = s.currentFile + 1 := by
        have := ctx.hc; have := ctx.htot; omega
      rw [hmod]
      have hlen' : s.currentFile <
          (setFileStatus s.files s.currentFile
            FStatus.transferFailed).length := by
        rw [length_setFileStatus]; exact hclen
      rw [sumSizes_take_succ _ s.currentFile hlen',
        take_setFileStatus_ge _ _ _ _ (Nat.le_refl _),
        getD_setFileStatus_self _ _ _ hclen]
      have h1 := ctx.hbytes
      have h2 : fitWritten s.fit = 0 := by rw [hfn]; rfl
      show s.transferredBytes ≤ sumSizes (s.files.take s.currentFile) +
        (s.files.getD s.currentFile fiDefault).size
      omega
    · intro i hi _
      rw [length_setFileStatus] at hi
      exact status_setFileStatus_ne_IT s.files s.currentFile i _ hi
        (by decide) (fun hne => ctx.hnoIT i hne hi)

theorem rinv_userPause (enter : Bool) (s : RecvState) (h : RInv s) :
    RInv (userPauseR enter s) := by
  unfold userPauseR
  split
  · exact h
  · exact rinv_toggle true s h (fun hh => nomatch hh)

theorem rinv_shareR (nF nB : Nat) (s : RecvState) (h : RInv s) :
    RInv (shareR nF nB s) := by
  unfold shareR
  split
  · rename_i hc1
    obtain ⟨hst, htot0, _⟩ := hc1
    split
    · exact rinv_abort s h
    · rename_i hnF
      have h1 : s.status ≠ SStatus.pausedByUser := by rw [hst]; decide
      have h2 : s.status ≠ SStatus.pausedByPeer := by rw [hst]; decide
      have h3 : s.status ≠ SStatus.aborted := by rw [hst]; decide
      have hu : underlyingR s = SStatus.connected := by
        rw [underlying_not_paused s h1 h2]; exact hst
      obtain ⟨p1, p2, p3, p4, p5, p6, p7⟩ := h.pre (Or.inr (Or.inr hu))
      have hun : underlyingR { s with
          totalFiles := nF
          totalBytes := nB
          msgSet := true } = SStatus.connected := by
        have := underlying_not_paused
          { s with
            totalFiles := nF
            totalBytes := nB
            msgSet := true } h1 h2
        rw [this]; exact hst
      refine ⟨?_, ?_, ?_, ?_, ?_, ?_, ?_, ?_, ?_⟩
      · show nF < 2147483647
        omega
      · intro hh
        have hh' : s.status = SStatus.pausedByUser ∨
            s.status = SStatus.pausedByPeer := hh
        rw [hst] at hh'
        rcases hh' with hx | hx <;> exact nomatch hx
      · intro _ _ _; exact h.stackEmpty h1 h2 h3
      · intro hh
        rcases h.preventOk hh with hx | hx
        · exact absurd hx h1
        · exact absurd hx h3
      · intro _
        refine ⟨p1, p2, p3, p4, p5, ?_, p7⟩
        show s.files.length ≤ nF
        rw [htot0] at p6
        omega
      · intro hh; exact absurd ((h.shareWait hh).1) h1
      · intro hh; exact absurd ((h.dfWait hh).1) h1
      · intro hh; rw [hun] at hh; exact nomatch hh
      · intro hh
        rw [hun] at hh
        rcases hh with h' | h' | h' | h' <;> exact nomatch h'
  split
  · rename_i hc2
    obtain ⟨hst, hlen2, _⟩ := hc2
    have h1 : s.status ≠ SStatus.pausedByUser := by rw [hst]; decide
    have h2 : s.status ≠ SStatus.pausedByPeer := by rw [hst]; decide
    have h3 : s.status ≠ SStatus.aborted := by rw [hst]; decide
    have hu : underlyingR s = SStatus.connected := by
      rw [underlying_not_paused s h1 h2]; exact hst
    obtain ⟨p1, p2, p3, p4, p5, p6, p7⟩ := h.pre (Or.inr (Or.inr hu))
    split
    · refine rinv_abort _ ⟨h.totalLt, ?_, ?_, ?_, ?_, ?_, ?_, ?_, ?_⟩
      · intro hh
        have hh' : s.status = SStatus.pausedByUser ∨
            s.status = SStatus.pausedByPeer := hh
        rw [hst] at hh'
        rcases hh' with hx | hx <;> exact nomatch hx
      · intro _ _ _; exact h.stackEmpty h1 h2 h3
      · intro hh
        rcases h.preventOk hh with hx | hx
        · exact absurd hx h1
        · exact absurd hx h3
      · intro _
        refine ⟨p1, p2, p3, p4, p5, ?_, ?_⟩
        · show ([] : List FileInfo).length ≤ s.totalFiles
          simp
        · intro i hi
          have hi' : i < ([] : List FileInfo).length := hi
          simp at hi'
      · intro hh; exact absurd ((h.shareWait hh).1) h1
      · intro hh; exact absurd ((h.dfWait hh).1) h1
      · intro hh
        have hun0 : underlyingR { s with files := [] } =
            SStatus.connected := by
          have := underlying_not_paused { s with files := [] } h1 h2
          rw [this]; exact hst
        rw [hun0] at hh
        exact nomatch hh
      · intro hh
        have hun0 : underlyingR { s with files := [] } =
            SStatus.connected := by
          have := underlying_not_paused { s with files := [] } h1 h2
          rw [this]; exact hst
        rw [hun0] at hh
        rcases hh with h' | h' | h' | h' <;> exact nomatch h'
    · have hstk : s.pauseStack = [] := h.stackEmpty h1 h2 h3
      have hprev : s.preventUserToggle = false := by
        cases hh : s.preventUserToggle with
        | false => rfl
        | true =>
            rcases h.preventOk hh with hx | hx
            · exact absurd hx h1
            · exact absurd hx h3
      have hdf : s.awaitingDF = false := by
        cases hh : s.awaitingDF with
        | false => rfl
        | true => exact absurd ((h.dfWait hh).1) h1
      have hpush : togglePauseR true s = { s with
          pauseStack := s.status :: s.pauseStack,
          status := SStatus.pausedByUser } := by
        unfold togglePauseR
        rw [if_neg (by rw [hst]; decide)]
        rw [if_neg (by rw [hprev]; simp)]
        rw [if_neg (by rw [hst]; decide)]
        rfl
      rw [hpush]
      have hueq2 : underlyingR { s with
          pauseStack := s.status :: s.pauseStack,
          status := SStatus.pausedByUser, preventUserToggle := true,
          awaitingShare := true } = SStatus.connected := by
        apply underlying_paused _ [] SStatus.connected
        · exact Or.inl rfl
        · show s.status :: s.pauseStack = [] ++ [SStatus.connected]
          rw [hst, hstk]
          rfl
      refine ⟨h.totalLt, ?_, ?_, ?_, ?_, ?_, ?_, ?_, ?_⟩
      · intro _
        refine ⟨[], SStatus.connected, ?_, Or.inr (Or.inl rfl), ?_⟩
        · show s.status :: s.pauseStack = [] ++ [SStatus.connected]
          rw [hst, hstk]
          rfl
        · intro x hx; exact absurd hx (List.not_mem_nil x)
      · intro h1' _ _; exact absurd rfl h1'
      · intro _; exact Or.inl rfl
      · intro _; exact ⟨p1, p2, p3, p4, p5, p6, p7⟩
      · intro _
        refine ⟨rfl, ?_, rfl, hlen2⟩
        show s.status :: s.pauseStack = [SStatus.connected]
        rw [hst, hstk]
      · intro hh
        have hh' : s.awaitingDF = true := hh
        rw [hdf] at hh'; exact nomatch hh'
      · intro hh; rw [hueq2] at hh; exact nomatch hh
      · intro hh
        rw [hueq2] at hh
        rcases hh with h' | h' | h' | h' <;> exact nomatch h'
  · exact rinv_abort s h

/-- The body of `startCommand` once the writer has been created, stated for
an arbitrary freshly opened writer. -/
theorem rinv_start_go (s : RecvState) (ctx : TransCtx s) (hfn : s.fit = none)
    (w : FileInTransfer) (hww : w.written = 0)
    (hwr : w.remainingBytes = w.size)
    (hwsz : w.size = (s.files.getD s.currentFile fiDefault).size)
    (fsE mkp op : List Nat → Bool) :
    RInv (if w.error then rejectFileTransferR { s with fit := some w }
      else if ¬w.fileExists then acceptFileTransferR { s with fit := some w }
      else if s.defaultDF ≠ DFAction.ask then
        performDFActionR s.defaultDF fsE mkp op { s with fit := some w }
      else { togglePauseR true { s with fit := some w } with
             preventUserToggle := true, awaitingDF := true }) := by
  have hb : s.transferredBytes ≤
      sumSizes (s.files.take s.currentFile) + 0 := by
    have hb0 := ctx.hbytes
    rw [hfn] at hb0
    simp only [fitWritten] at hb0
    omega
  have ctx2 : TransCtx { s with fit := some w } := by
    refine ⟨ctx.hst, ctx.hstk, ctx.hprev, ctx.haw1, ctx.haw2, ctx.htot,
      ctx.hlen, ctx.hc, ctx.hcnt, ?_, ?_, ctx.hnoIT⟩
    · show s.transferredBytes ≤
        sumSizes (s.files.take s.currentFile) + w.written
      rw [hww]
      exact hb
    · intro w' hw'
      simp only [Option.some.injEq] at hw'
      subst hw'
      exact ⟨by omega, hwsz⟩
  split
  · exact rinv_rejectFile _ ctx2
  split
  · exact rinv_acceptFile _ ctx2
  split
  · refine rinv_performDF s.defaultDF fsE mkp op _ ctx2 ?_
    show fitWritten (some w) = 0
    simp only [fitWritten]
    exact hww
  · have hpush : togglePauseR true { s with fit := some w } =
        { s with
          fit := some w
          pauseStack := s.status :: s.pauseStack
          status := SStatus.pausedByUser } := by
      unfold togglePauseR
      rw [if_neg (by simp [ctx.hst])]
      rw [if_neg (by simp [ctx.hprev])]
      rw [if_neg (by simp [ctx.hst])]
      rfl
    rw [hpush]
    have hueq2 : underlyingR { s with
        fit := some w
        pauseStack := s.status :: s.pauseStack
        status := SStatus.pausedByUser
        preventUserToggle := true
        awaitingDF := true } = SStatus.inTransfer := by
      apply underlying_paused _ [] SStatus.inTransfer
      · exact Or.inl rfl
      · show s.status :: s.pauseStack = [] ++ [SStatus.inTransfer]
        rw [ctx.hst, ctx.hstk]
        rfl
    refine ⟨ctx.htot, ?_, ?_, ?_, ?_, ?_, ?_, ?_, ?_⟩
    · intro _
      refine ⟨[], SStatus.inTransfer, ?_, Or.inr (Or.inr (Or.inl rfl)), ?_⟩
      · show s.status :: s.pauseStack = [] ++ [SStatus.inTransfer]
        rw [ctx.hst, ctx.hstk]
        rfl
      · intro x hx; exact absurd hx (List.not_mem_nil x)
    · intro h1' _ _; exact absurd rfl h1'
    · intro _; exact Or.inl rfl
    · intro hh
      rw [hueq2] at hh
      rcases hh with h' | h' | h' <;> exact nomatch h'
    · intro hh
      have hh' : s.awaitingShare = true := hh
      rw [ctx.haw1] at hh'; exact nomatch hh'
    · intro _
      refine ⟨rfl, ?_, rfl, ?_⟩
      · show s.status :: s.pauseStack = [SStatus.inTransfer]
        rw [ctx.hst, ctx.hstk]
      · show fitWritten (some w) = 0
        simp only [fitWritten]
        exact hww
    · intro _
      exact ⟨ctx2.hc, ctx2.hlen, ctx2.hcnt, ctx2.hbytes, ctx2.hwf,
        ctx2.hnoIT⟩
    · intro hh
      rw [hueq2] at hh
      rcases hh with h' | h' | h' | h' <;> exact nomatch h'

theorem rinv_startR (fsE mkp op : List Nat → Bool) (s : RecvState)
    (h : RInv s) : RInv (startR fsE mkp op s) := by
  unfold startR
  split
  · exact rinv_abort s h
  · rename_i hcnd
    have hst : s.status = SStatus.inTransfer := by
      by_contra hx; exact hcnd (Or.inl hx)
    have hfn : s.fit = none := by
      cases hx : s.fit with
      | none => rfl
      | some w => exact absurd (Or.inr (by rw [hx]; rfl)) hcnd
    have ctx := transCtx_of_rinv s h hst
    exact rinv_start_go s ctx hfn
      (FileInTransfer.mkWriter
        (s.files.getD s.currentFile fiDefault).valid
        (s.files.getD s.currentFile fiDefault).size
        (fsE (s.files.getD s.currentFile fiDefault).filePath)
        (mkp (s.files.getD s.currentFile fiDefault).filePath)
        (op (s.files.getD s.currentFile fiDefault).filePath))
      (mkWriter_written _ _ _ _ _)
      (by rw [mkWriter_rem, mkWriter_size])
      (mkWriter_size _ _ _ _ _) fsE mkp op

theorem wpc_facts (w : FileInTransfer) (len : Nat) (ok : Bool) :
    ((w.writerProcessChunk len ok).1 = true →
      (w.writerProcessChunk len ok).2.written = w.written + len ∧
      (w.writerProcessChunk len ok).2.remainingBytes =
        w.remainingBytes - len ∧
      (w.writerProcessChunk len ok).2.size = w.size ∧
      len ≤ w.remainingBytes) ∧
    ((w.writerProcessChunk len ok).1 = false →
      (w.writerProcessChunk len ok).2.written = w.written ∧
      (w.writerProcessChunk len ok).2.remainingBytes = w.remainingBytes ∧
      (w.writerProcessChunk len ok).2.size = w.size) := by
  simp only [FileInTransfer.writerProcessChunk]
  split
  · constructor
    · intro hh; exact nomatch hh
    · intro _; exact ⟨rfl, rfl, rfl⟩
  · rename_i hc
    split
    · constructor
      · intro hh; exact nomatch hh
      · intro _; exact ⟨rfl, rfl, rfl⟩
    · constructor
      · intro _
        refine ⟨rfl, rfl, rfl, ?_⟩
        simp at hc
        omega
      · intro hh; exact nomatch hh

theorem wrb_fields (x : FileInTransfer) :
    ((x.writerRollback).2).written = x.written ∧
    ((x.writerRollback).2).remainingBytes = x.remainingBytes ∧
    ((x.writerRollback).2).size = x.size := by
  unfold FileInTransfer.writerRollback
  split
  · exact ⟨rfl, rfl, rfl⟩
  · exact ⟨rfl, rfl, rfl⟩

/-- Replacing the open writer with one holding the same bookkeeping
preserves the invariant. -/
theorem rinv_chunk_keep (s : RecvState) (ctx : TransCtx s)
    (w w2 : FileInTransfer) (hf : s.fit = some w)
    (hwr : w2.written = w.written)
    (hrem : w2.remainingBytes = w.remainingBytes) (hsz : w2.size = w.size) :
    RInv { s with fit := some w2 } := by
  have hun : underlyingR { s with fit := some w2 } =
      SStatus.inTransfer := by
    have := underlying_not_paused { s with fit := some w2 }
      (by rw [ctx.hst]; decide) (by rw [ctx.hst]; decide)
    rw [this]; exact ctx.hst
  refine ⟨ctx.htot, ?_, ?_, ?_, ?_, ?_, ?_, ?_, ?_⟩
  · intro hh
    have hh' : s.status = SStatus.pausedByUser ∨
        s.status = SStatus.pausedByPeer := hh
    rw [ctx.hst] at hh'
    rcases hh' with hx | hx <;> exact nomatch hx
  · intro _ _ _; exact ctx.hstk
  · intro hh
    have hh' : s.preventUserToggle = true := hh
    rw [ctx.hprev] at hh'; exact nomatch hh'
  · intro hh
    rw [hun] at hh
    rcases hh with h' | h' | h' <;> exact nomatch h'
  · intro hh
    have hh' : s.awaitingShare = true := hh
    rw [ctx.haw1] at hh'; exact nomatch hh'
  · intro hh
    have hh' : s.awaitingDF = true := hh
    rw [ctx.haw2] at hh'; exact nomatch hh'
  · intro _
    refine ⟨ctx.hc, ctx.hlen, ctx.hcnt, ?_, ?_, ctx.hnoIT⟩
    · show s.transferredBytes ≤
        sumSizes (s.files.take s.currentFile) + w2.written
      rw [hwr]
      have hb := ctx.hbytes
      rw [hf] at hb
      exact hb
    · intro w' hw'
      simp only [Option.some.injEq] at hw'
      subst hw'
      obtain ⟨g1, g2⟩ := ctx.hwf w hf
      refine ⟨by rw [hwr, hrem, hsz]; exact g1, by rw [hsz]; exact g2⟩
  · intro hh
    rw [hun] at hh
    rcases hh with h' | h' | h' | h' <;> exact nomatch h'

theorem rinv_chunkR (len : Nat) (ok : Bool) (s : RecvState) (h : RInv s) :
    RInv (chunkR len ok s) := by
  unfold chunkR
  split
  · exact rinv_abort s h
  · rename_i w hf
    split
    · exact rinv_abort s h
    rename_i hstn
    split
    · exact rinv_abort s h
    have hst : s.status = SStatus.inTransfer := by
      by_contra hx; exact hstn hx
    have ctx := transCtx_of_rinv s h hst
    obtain ⟨hwsum, hwsz⟩ := ctx.hwf w hf
    obtain ⟨hT, hF⟩ := wpc_facts w len ok
    split
    · rename_i hr1
      obtain ⟨e1, e2, e3, e4⟩ := hT hr1
      have hun : underlyingR { s with
          fit := some (w.writerProcessChunk len ok).2,
          transferredBytes := s.transferredBytes + len } =
          SStatus.inTransfer := by
        have := underlying_not_paused { s with
            fit := some (w.writerProcessChunk len ok).2,
            transferredBytes := s.transferredBytes + len }
          (by rw [ctx.hst]; decide) (by rw [ctx.hst]; decide)
        rw [this]; exact ctx.hst
      refine ⟨ctx.htot, ?_, ?_, ?_, ?_, ?_, ?_, ?_, ?_⟩
      · intro hh
        have hh' : s.status = SStatus.pausedByUser ∨
            s.status = SStatus.pausedByPeer := hh
        rw [ctx.hst] at hh'
        rcases hh' with hx | hx <;> exact nomatch hx
      · intro _ _ _; exact ctx.hstk
      · intro hh
        have hh' : s.preventUserToggle = true := hh
        rw [ctx.hprev] at hh'; exact nomatch hh'
      · intro hh
        rw [hun] at hh
        rcases hh with h' | h' | h' <;> exact nomatch h'
      · intro hh
        have hh' : s.awaitingShare = true := hh
        rw [ctx.haw1] at hh'; exact nomatch hh'
      · intro hh
        have hh' : s.awaitingDF = true := hh
        rw [ctx.haw2] at hh'; exact nomatch hh'
      · intro _
        refine ⟨ctx.hc, ctx.hlen, ctx.hcnt, ?_, ?_, ctx.hnoIT⟩
        · show s.transferredBytes + len ≤
            sumSizes (s.files.take s.currentFile) +
              (w.writerProcessChunk len ok).2.written
          rw [e1]
          have hb := ctx.hbytes
          rw [hf] at hb
          simp only [fitWritten] at hb
          omega
        · intro w' hw'
          simp only [Option.some.injEq] at hw'
          subst hw'
          constructor
          · rw [e1, e2, e3]
            omega
          · rw [e3]
            exact hwsz
      · intro hh
        rw [hun] at hh
        rcases hh with h' | h' | h' | h' <;> exact nomatch h'
    · rename_i hr1
      have hr1' : (w.writerProcessChunk len ok).1 = false := by
        cases hx : (w.writerProcessChunk len ok).1 with
        | false => rfl
        | true => exact absurd hx hr1
      obtain ⟨e1, e2, e3⟩ := hF hr1'
      split
      · obtain ⟨f1, f2, f3⟩ := wrb_fields ((w.writerProcessChunk len ok).2)
        exact rinv_chunk_keep s ctx w _ hf (by rw [f1, e1])
          (by rw [f2, e2]) (by rw [f3, e3])
      · exact rinv_chunk_keep s ctx w _ hf e1 e2 e3

/-- Marking the current file with a terminal status, accounting it on one
of the two counters and advancing preserves the invariant. -/
theorem rinv_advance (s : RecvState) (ctx : TransCtx s) (st : FStatus)
    (hstne : st ≠ FStatus.inTransfer) (a b sb2 : Nat) (hab : a + b = 1)
    (hwle : fitWritten s.fit ≤
      (s.files.getD s.currentFile fiDefault).size) :
    RInv (moveToNextFileR
      { s with
        fit := none
        files := setFileStatus s.files s.currentFile st
        transferredFiles := s.transferredFiles + a
        skippedFiles := s.skippedFiles + b
        skippedBytes := sb2 }) := by
  have hclen : s.currentFile < s.files.length := by
    rw [ctx.hlen]; exact ctx.hc
  apply rinv_moveToNext
  · exact ctx.hst
  · exact ctx.hstk
  · exact ctx.hprev
  · exact ctx.haw1
  · exact ctx.haw2
  · exact ctx.htot
  · rfl
  · show (setFileStatus s.files s.currentFile st).length = s.totalFiles
    rw [length_setFileStatus]; exact ctx.hlen
  · show (s.currentFile + 1) % 4294967296 ≤ s.totalFiles
    have := ctx.hc; have := ctx.htot; omega
  · show s.transferredFiles + a + (s.skippedFiles + b) =
      (s.currentFile + 1) % 4294967296
    have := ctx.hcnt; have := ctx.hc; have := ctx.htot; omega
  · show s.transferredBytes ≤ sumSizes
      ((setFileStatus s.files s.currentFile st).take
        ((s.currentFile + 1) % 4294967296))
    have hmod : (s.currentFile + 1) % 4294967296 = s.currentFile + 1 := by
      have := ctx.hc; have := ctx.htot; omega
    rw [hmod]
    have hlen' : s.currentFile <
        (setFileStatus s.files s.currentFile st).length := by
      rw [length_setFileStatus]; exact hclen
    rw [sumSizes_take_succ _ s.currentFile hlen',
      take_setFileStatus_ge _ _ _ _ (Nat.le_refl _),
      getD_setFileStatus_self _ _ _ hclen]
    have h1 := ctx.hbytes
    show s.transferredBytes ≤ sumSizes (s.files.take s.currentFile) +
      (s.files.getD s.currentFile fiDefault).size
    omega
  · intro i hi _
    rw [length_setFileStatus] at hi
    exact status_setFileStatus_ne_IT s.files s.currentFile i st hi hstne
      (fun hne => ctx.hnoIT i hne hi)

theorem rinv_commitR (ok : Bool) (s : RecvState) (h : RInv s) :
    RInv (commitR ok s) := by
  unfold commitR
  split
  · exact rinv_abort s h
  · rename_i w hf
    split
    · exact rinv_abort s h
    rename_i hstn
    have hst : s.status = SStatus.inTransfer := by
      by_contra hx; exact hstn hx
    have ctx := transCtx_of_rinv s h hst
    have hwle := transCtx_fw_le s ctx
    split
    · exact rinv_advance s ctx FStatus.transferred (by decide) 1 0
        s.skippedBytes rfl hwle
    · exact rinv_advance s ctx FStatus.transferFailed (by decide) 0 1
        (s.skippedBytes + (w.writerCommit ok).2.remainingBytes) rfl hwle

theorem rinv_rollbkR (s : RecvState) (h : RInv s) : RInv (rollbkR s) := by
  unfold rollbkR
  split
  · exact rinv_abort s h
  · rename_i w hf
    split
    · exact rinv_abort s h
    rename_i hstn
    have hst : s.status = SStatus.inTransfer := by
      by_contra hx; exact hstn hx
    have ctx := transCtx_of_rinv s h hst
    have hwle := transCtx_fw_le s ctx
    exact rinv_advance s ctx FStatus.transferFailed (by decide) 0 1
      (s.skippedBytes + ((w.writerRollback).2).remainingBytes) rfl hwle

theorem rinv_decideShareAccept (pathOk : Bool) (s : RecvState)
    (h : RInv s) : RInv (decideShareAcceptR pathOk s) := by
  unfold decideShareAcceptR
  split
  · exact h
  rename_i hg
  have hg' : s.awaitingShare = true := not_not.mp hg
  obtain ⟨hpu, hstk, _, hlenT⟩ := h.shareWait hg'
  have hdf : s.awaitingDF = false := by
    cases hx : s.awaitingDF with
    | false => rfl
    | true =>
        have := (h.dfWait hx).2.1
        rw [hstk] at this
        simp at this
  have hu : underlyingR s = SStatus.connected :=
    underlying_paused s [] SStatus.connected (Or.inl hpu)
      (by rw [hstk]; rfl)
  obtain ⟨p1, p2, p3, p4, p5, _, p7⟩ := h.pre (Or.inr (Or.inr hu))
  rw [toggle_unpause { s with preventUserToggle := false }
    SStatus.connected hpu hstk rfl]
  cases pathOk with
  | false =>
      have hb : RInv { s with
          preventUserToggle := false
          status := SStatus.connected
          pauseStack := []
          awaitingShare := false } := by
        refine ⟨h.totalLt, ?_, ?_, ?_, ?_, ?_, ?_, ?_, ?_⟩
        · intro hh
          have hh' : SStatus.connected = SStatus.pausedByUser ∨
              SStatus.connected = SStatus.pausedByPeer := hh
          rcases hh' with hx | hx <;> exact nomatch hx
        · intro _ _ _; rfl
        · intro hh; exact nomatch hh
        · intro _; exact ⟨p1, p2, p3, p4, p5, hlenT.le, p7⟩
        · intro hh; exact nomatch hh
        · intro hh
          have hh' : s.awaitingDF = true := hh
          rw [hdf] at hh'; exact nomatch hh'
        · intro hh; simp [underlyingR] at hh
        · intro hh; simp [underlyingR] at hh
      exact rinv_abort _ hb
  | true =>
      show RInv (moveToNextFileR { s with
        preventUserToggle := false
        pauseStack := []
        status := SStatus.inTransfer
        awaitingShare := false })
      apply rinv_moveToNext
      · rfl
      · rfl
      · rfl
      · rfl
      · exact hdf
      · exact h.totalLt
      · exact p5
      · exact hlenT
      · show (s.currentFile + 1) % 4294967296 ≤ s.totalFiles
        omega
      · show s.transferredFiles + s.skippedFiles =
          (s.currentFile + 1) % 4294967296
        omega
      · show s.transferredBytes ≤
          sumSizes (s.files.take ((s.currentFile + 1) % 4294967296))
        rw [p3]
        exact Nat.zero_le _
      · intro i hi _
        have hi' : i < s.files.length := hi
        rw [p7 i hi']
        decide

theorem rinv_decideShareReject (s : RecvState) (h : RInv s) :
    RInv (decideShareRejectR s) := by
  unfold decideShareRejectR
  split
  · exact h
  rename_i hg
  have hg' : s.awaitingShare = true := not_not.mp hg
  obtain ⟨hpu, hstk, _, _⟩ := h.shareWait hg'
  have hdf : s.awaitingDF = false := by
    cases hx : s.awaitingDF with
    | false => rfl
    | true =>
        have := (h.dfWait hx).2.1
        rw [hstk] at this
        simp at this
  have hu : underlyingR s = SStatus.connected :=
    underlying_paused s [] SStatus.connected (Or.inl hpu)
      (by rw [hstk]; rfl)
  obtain ⟨p1, p2, p3, p4, p5, _, p7⟩ := h.pre (Or.inr (Or.inr hu))
  rw [toggle_unpause { s with preventUserToggle := false }
    SStatus.connected hpu hstk rfl]
  show RInv (closeConnectionR { s with
    preventUserToggle := false
    pauseStack := []
    status := SStatus.connected
    skippedFiles := s.totalFiles
    skippedBytes := s.totalBytes
    awaitingShare := false })
  unfold closeConnectionR
  rw [if_neg (by simp)]
  refine ⟨h.totalLt, ?_, ?_, ?_, ?_, ?_, ?_, ?_, ?_⟩
  · intro hh
    have hh' : SStatus.closing = SStatus.pausedByUser ∨
        SStatus.closing = SStatus.pausedByPeer := hh
    rcases hh' with hx | hx <;> exact nomatch hx
  · intro _ _ _; rfl
  · intro hh; exact nomatch hh
  · intro hh; simp [underlyingR] at hh
  · intro hh; exact nomatch hh
  · intro hh
    have hh' : s.awaitingDF = true := hh
    rw [hdf] at hh'; exact nomatch hh'
  · intro hh; simp [underlyingR] at hh
  · intro _
    refine ⟨?_, ?_, p5, ?_, rfl, hdf⟩
    · show s.transferredFiles + s.totalFiles = s.totalFiles
      omega
    · show s.transferredBytes ≤ sumSizes s.files
      rw [p3]
      exact Nat.zero_le _
    · intro i hi
      have hi' : i < s.files.length := hi
      rw [p7 i hi']
      decide

theorem rinv_dfDecision (a : DFAction) (all : Bool)
    (fsE mkp op : List Nat → Bool) (s : RecvState) (h : RInv s) :
    RInv (dfDecisionR a all fsE mkp op s) := by
  unfold dfDecisionR
  split
  · exact h
  rename_i hg
  have hg' : s.awaitingDF = true := not_not.mp hg
  obtain ⟨hpu, hstk, _, hfw⟩ := h.dfWait hg'
  have hsh : s.awaitingShare = false := by
    cases hx : s.awaitingShare with
    | false => rfl
    | true =>
        have := (h.shareWait hx).2.1
        rw [hstk] at this
        simp at this
  have hu : underlyingR s = SStatus.inTransfer :=
    underlying_paused s [] SStatus.inTransfer (Or.inl hpu)
      (by rw [hstk]; rfl)
  obtain ⟨hc, hlen, hcnt, hbytes, hwf, hnoIT⟩ := h.trans hu
  rw [toggle_unpause { s with preventUserToggle := false }
    SStatus.inTransfer hpu hstk rfl]
  show RInv (performDFActionR a fsE mkp op { s with
    preventUserToggle := false
    pauseStack := []
    status := SStatus.inTransfer
    awaitingDF := false
    defaultDF := if all then a else s.defaultDF })
  refine rinv_performDF a fsE mkp op _ ?_ ?_
  · exact ⟨rfl, rfl, rfl, hsh, rfl, h.totalLt, hlen, hc, hcnt, hbytes, hwf,
      hnoIT⟩
  · show fitWritten s.fit = 0
    exact hfw

/-- Every step of the receiver session preserves the invariant. -/
theorem rinv_step (s : RecvState) (h : RInv s) (st : RStep) :
    RInv (recvStep s st) := by
  cases st with
  | acceptConn =>
      simp only [recvStep]
      split
      · rename_i hn
        exact rinv_setStatus_pre s h SStatus.connecting (Or.inl hn)
          (Or.inr (Or.inl rfl))
      · exact h
  | hello w =>
      simp only [recvStep, cmdGuard]
      split
      · exact h
      · exact rinv_helloR w s h
  | ack =>
      simp only [recvStep, cmdGuard]
      split
      · exact h
      · exact rinv_ackR s h
  | share nF nB =>
      simp only [recvStep, cmdGuard]
      split
      · exact h
      · exact rinv_shareR nF nB s h
  | item p sz ts =>
      simp only [recvStep, cmdGuard]
      split
      · exact h
      · exact rinv_itemR p sz ts s h
  | startCmd fsE mkp op =>
      simp only [recvStep, cmdGuard]
      split
      · exact h
      · exact rinv_startR fsE mkp op s h
  | skipCmd =>
      simp only [recvStep, cmdGuard]
      split
      · exact h
      · exact rinv_skipR s h
  | chunkCmd len ok =>
      simp only [recvStep, cmdGuard]
      split
      · exact h
      · exact rinv_chunkR len ok s h
  | commitCmd ok =>
      simp only [recvStep, cmdGuard]
      split
      · exact h
      · exact rinv_commitR ok s h
  | rollbkCmd =>
      simp only [recvStep, cmdGuard]
      split
      · exact h
      · exact rinv_rollbkR s h
  | closeCmd =>
      simp only [recvStep, cmdGuard]
      split
      · exact h
      · exact rinv_closeR s h
  | pauseCmd =>
      simp only [recvStep, cmdGuard]
      split
      · exact h
      · rename_i hpu
        exact rinv_toggle false s h (fun _ => hpu)
  | abortCmd =>
      simp only [recvStep, cmdGuard]
      split
      · exact h
      · exact rinv_abort s h
  | decideShareAccept pathOk =>
      exact rinv_decideShareAccept pathOk s h
  | decideShareReject =>
      exact rinv_decideShareReject s h
  | dfDecision a all fsE mkp op =>
      exact rinv_dfDecision a all fsE mkp op s h
  | userPause enter =>
      exact rinv_userPause enter s h
  | localAbort =>
      exact rinv_abort s h
  | disconnected =>
      simp only [recvStep]
      split
      · rename_i hcl
        have h1 : s.status ≠ SStatus.pausedByUser := by rw [hcl]; decide
        have h2 : s.status ≠ SStatus.pausedByPeer := by rw [hcl]; decide
        have h3 : s.status ≠ SStatus.aborted := by rw [hcl]; decide
        have hu : underlyingR s = SStatus.closing := by
          rw [underlying_not_paused s h1 h2]; exact hcl
        obtain ⟨hcnt, hbytes, hfit, hnoIT, haw1, haw2⟩ :=
          h.post (Or.inr (Or.inl hu))
        refine ⟨h.totalLt, ?_, ?_, ?_, ?_, ?_, ?_, ?_, ?_⟩
        · intro hh
          have hh' : SStatus.closed = SStatus.pausedByUser ∨
              SStatus.closed = SStatus.pausedByPeer := hh
          rcases hh' with hx | hx <;> exact nomatch hx
        · intro _ _ _; exact h.stackEmpty h1 h2 h3
        · intro hh
          rcases h.preventOk hh with hx | hx
          · exact absurd hx h1
          · exact absurd hx h3
        · intro hh; simp [underlyingR] at hh
        · intro hh
          have hh' : s.awaitingShare = true := hh
          rw [haw1] at hh'; exact nomatch hh'
        · intro hh
          have hh' : s.awaitingDF = true := hh
          rw [haw2] at hh'; exact nomatch hh'
        · intro hh; simp [underlyingR] at hh
        · intro _; exact ⟨hcnt, hbytes, hfit, hnoIT, haw1, haw2⟩
      · exact h

theorem rinv_init : RInv initRecv := by
  refine ⟨by decide, ?_, ?_, ?_, ?_, ?_, ?_, ?_, ?_⟩
  · intro hh
    have hh' : SStatus.new = SStatus.pausedByUser ∨
        SStatus.new = SStatus.pausedByPeer := hh
    rcases hh' with hx | hx <;> exact nomatch hx
  · intro _ _ _; rfl
  · intro hh; exact nomatch hh
  · intro _
    refine ⟨rfl, rfl, rfl, rfl, rfl, Nat.le_refl _, ?_⟩
    intro i hi
    have hi' : i < ([] : List FileInfo).length := hi
    simp at hi'
  · intro hh; exact nomatch hh
  · intro hh; exact nomatch hh
  · intro hh; exact absurd hh (by decide)
  · intro hh; exact absurd hh (by decide)

/-- The invariant holds after any sequence of session events. -/
theorem rinv_run (steps : List RStep) : RInv (runRecv steps) := by
  suffices hgen : ∀ (l : List RStep) (s : RecvState), RInv s →
      RInv (l.foldl recvStep s) by
    exact hgen steps initRecv rinv_init
  intro l
  induction l with
  | nil => intro s hs; exact hs
  | cons a l ih => intro s hs; exact ih _ (rinv_step s hs a)

/-- **C1** as stated is false: a session can reach the terminal Closed
status with a file still in the Scheduled status.  The trace below performs
the whole handshake and item exchange for a single 5-byte file and then has
the local user reject the sharing request: the connection closes politely,
the counters balance (the file is accounted as skipped), but the file's
status is still Scheduled — never Transferred, Rejected or Failed (the
per-file Rejected status is only used for duplicate-file rejections of an
individual transfer). -/
theorem c1_counterexample_scheduled_at_closed :
    (runRecv [RStep.acceptConn, RStep.hello true, RStep.ack,
      RStep.share 1 5, RStep.item [97] 5 ⟨0, 0, 0⟩, RStep.share 0 0,
      RStep.decideShareReject, RStep.disconnected]).status =
      SStatus.closed ∧
    (runRecv [RStep.acceptConn, RStep.hello true, RStep.ack,
      RStep.share 1 5, RStep.item [97] 5 ⟨0, 0, 0⟩, RStep.share 0 0,
      RStep.decideShareReject, RStep.disconnected]).files.length = 1 ∧
    ((runRecv [RStep.acceptConn, RStep.hello true, RStep.ack,
      RStep.share 1 5, RStep.item [97] 5 ⟨0, 0, 0⟩, RStep.share 0 0,
      RStep.decideShareReject, RStep.disconnected]).files.getD 0
        fiDefault).status = FStatus.scheduled := by
  decide

/-- Amended **C1**: for every receiver session reaching a terminal state
(Closed or Aborted), the counters satisfy
`transferred_files + skipped_files = total_files`; the transferred bytes
never exceed the sum of the sizes of the descriptors in the session's list
(hence never exceed `total_bytes` whenever that sum is bounded by the
advertised total, as the SHARE validation enforces modulo the 64-bit
accumulation); and no file is left in the InTransfer status — every file
is Scheduled (its exchange never started, as in the counterexample) or
exactly one of Transferred, Rejected, Failed. -/
theorem c1_amended_terminal_accounting (steps : List RStep)
    (hterm : (runRecv steps).status = SStatus.closed ∨
      (runRecv steps).status = SStatus.aborted) :
    (runRecv steps).transferredFiles + (runRecv steps).skippedFiles =
      (runRecv steps).totalFiles ∧
    (runRecv steps).transferredBytes ≤ sumSizes (runRecv steps).files ∧
    (sumSizes (runRecv steps).files ≤ (runRecv steps).totalBytes →
      (runRecv steps).transferredBytes ≤ (runRecv steps).totalBytes) ∧
    ∀ i < (runRecv steps).files.length,
      ((runRecv steps).files.getD i fiDefault).status ≠
        FStatus.inTransfer := by
  have h := rinv_run steps
  have h1 : (runRecv steps).status ≠ SStatus.pausedByUser := by
    rcases hterm with hx | hx <;> rw [hx] <;> decide
  have h2 : (runRecv steps).status ≠ SStatus.pausedByPeer := by
    rcases hterm with hx | hx <;> rw [hx] <;> decide
  have hu : underlyingR (runRecv steps) = (runRecv steps).status :=
    underlying_not_paused _ h1 h2
  have hpost := h.post (by
    rcases hterm with hx | hx
    · exact Or.inr (Or.inr (Or.inl (hu.trans hx)))
    · exact Or.inr (Or.inr (Or.inr (hu.trans hx))))
  obtain ⟨g1, g2, _, g4, _, _⟩ := hpost
  exact ⟨g1, g2, fun hle => le_trans g2 hle, g4⟩

/-- Witness for `c1_amended_terminal_accounting`: a session aborted right
after the connection was accepted. -/
theorem c1_amended_terminal_accounting_witness :
    (runRecv [RStep.acceptConn, RStep.localAbort]).status =
      SStatus.aborted ∧
    ((runRecv [RStep.acceptConn, RStep.localAbort]).transferredFiles +
      (runRecv [RStep.acceptConn, RStep.localAbort]).skippedFiles =
      (runRecv [RStep.acceptConn, RStep.localAbort]).totalFiles ∧
    (runRecv [RStep.acceptConn, RStep.localAbort]).transferredBytes ≤
      sumSizes (runRecv [RStep.acceptConn, RStep.localAbort]).files ∧
    (sumSizes (runRecv [RStep.acceptConn, RStep.localAbort]).files ≤
        (runRecv [RStep.acceptConn, RStep.localAbort]).totalBytes →
      (runRecv [RStep.acceptConn, RStep.localAbort]).transferredBytes ≤
        (runRecv [RStep.acceptConn, RStep.localAbort]).totalBytes) ∧
    ∀ i < (runRecv [RStep.acceptConn, RStep.localAbort]).files.length,
      ((runRecv [RStep.acceptConn, RStep.localAbort]).files.getD i
        fiDefault).status ≠ FStatus.inTransfer) :=
  ⟨by decide,
   c1_amended_terminal_accounting [RStep.acceptConn, RStep.localAbort]
     (Or.inr (by decide))⟩

/-- A successful write of `len ≤ remaining` bytes by a healthy writer. -/
theorem wpc_ok (w : FileInTransfer) (len : Nat)
    (herr : w.error = false) (hopen : w.fileOpen = true)
    (hle : len ≤ w.remainingBytes) :
    w.writerProcessChunk len true =
      (true, { w with
        transferStarted := true
        remainingBytes := w.remainingBytes - len
        written := w.written + len }) := by
  simp [FileInTransfer.writerProcessChunk, herr, hopen,
    Nat.not_lt.mpr hle]

/-- `chunkCommand` at an InTransfer state with an open writer, reduced. -/
theorem chunkR_some (len : Nat) (ok : Bool) (s : RecvState)
    (w : FileInTransfer) (hfit : s.fit = some w)
    (hst : s.status = SStatus.inTransfer) :
    chunkR len ok s =
      if len > MAX_CHUNK_SIZE then manageErrorR s
      else if (w.writerProcessChunk len ok).1 then
        { s with
          fit := some (w.writerProcessChunk len ok).2
          transferredBytes := s.transferredBytes + len }
      else if ¬(w.writerProcessChunk len ok).2.rollbacked then
        { s with
          fit := some (((w.writerProcessChunk len ok).2).writerRollback).2 }
      else { s with fit := some (w.writerProcessChunk len ok).2 } := by
  unfold chunkR
  split
  · rename_i hn
    rw [hn] at hfit
    exact nomatch hfit
  · rename_i w' hf'
    rw [hfit] at hf'
    simp only [Option.some.injEq] at hf'
    subst hf'
    rw [if_neg (by rw [hst]; decide)]

/-- **C4**: at an InTransfer session with an open, error-free writer, a
CHUNK whose announced length is 0 is accepted and writes nothing (only the
transfer-started flag flips); a CHUNK of length exactly 8192 is accepted
(given that many bytes are still expected) and advances the byte counters
by 8192; and a CHUNK announcing 8193 bytes aborts the session before any
data is consumed — the transferred bytes are unchanged and the writer is
discarded. -/
theorem c4_chunk_size_policy (s : RecvState) (w : FileInTransfer)
    (hst : s.status = SStatus.inTransfer) (hfit : s.fit = some w)
    (herr : w.error = false) (hopen : w.fileOpen = true) :
    (recvStep s (RStep.chunkCmd 0 true) =
      { s with fit := some { w with transferStarted := true } }) ∧
    (8192 ≤ w.remainingBytes →
      recvStep s (RStep.chunkCmd 8192 true) =
        { s with
          fit := some { w with
            transferStarted := true
            remainingBytes := w.remainingBytes - 8192
            written := w.written + 8192 }
          transferredBytes := s.transferredBytes + 8192 }) ∧
    (recvStep s (RStep.chunkCmd 8193 true) = abortConnectionR s ∧
     (recvStep s (RStep.chunkCmd 8193 true)).status = SStatus.aborted ∧
     (recvStep s (RStep.chunkCmd 8193 true)).transferredBytes =
       s.transferredBytes ∧
     (recvStep s (RStep.chunkCmd 8193 true)).fit = none) := by
  have hnp : s.status ≠ SStatus.pausedByUser := by rw [hst]; decide
  have hred : ∀ L ok, recvStep s (RStep.chunkCmd L ok) = chunkR L ok s := by
    intro L ok
    simp only [recvStep, cmdGuard, if_neg hnp]
  have habort : recvStep s (RStep.chunkCmd 8193 true) =
      abortConnectionR s := by
    rw [hred, chunkR_some 8193 true s w hfit hst, if_pos (by decide)]
    rfl
  refine ⟨?_, ?_, habort, ?_, ?_, ?_⟩
  · rw [hred, chunkR_some 0 true s w hfit hst, if_neg (by decide),
      wpc_ok w 0 herr hopen (Nat.zero_le _)]
    rw [if_pos (show ((true, { w with
      transferStarted := true
      remainingBytes := w.remainingBytes - 0
      written := w.written + 0 }) : Bool × FileInTransfer).1 = true
      from rfl)]
    simp
  · intro hle
    rw [hred, chunkR_some 8192 true s w hfit hst, if_neg (by decide),
      wpc_ok w 8192 herr hopen hle]
    rw [if_pos (show ((true, { w with
      transferStarted := true
      remainingBytes := w.remainingBytes - 8192
      written := w.written + 8192 }) : Bool × FileInTransfer).1 = true
      from rfl)]
  · rw [habort]
    unfold abortConnectionR
    rw [if_neg (by rw [hst]; decide)]
  · rw [habort]
    unfold abortConnectionR
    rw [if_neg (by rw [hst]; decide)]
  · rw [habort]
    unfold abortConnectionR
    rw [if_neg (by rw [hst]; decide)]

/-- Witness for `c4_chunk_size_policy`: a 10000-byte writer that has not
started yet accepts the 8192-byte chunk and refuses the 8193-byte one. -/
theorem c4_chunk_size_policy_witness :
    (8192 ≤ (10000 : Nat)) ∧
    (recvStep { initRecv with
        status := SStatus.inTransfer
        fit := some ⟨false, false, 10000, 10000, false, false, false,
          true, 0⟩ } (RStep.chunkCmd 8193 true)).status =
      SStatus.aborted ∧
    recvStep { initRecv with
        status := SStatus.inTransfer
        fit := some ⟨false, false, 10000, 10000, false, false, false,
          true, 0⟩ } (RStep.chunkCmd 8192 true) =
      { { initRecv with
          status := SStatus.inTransfer
          fit := some ⟨false, false, 10000, 10000, false, false, false,
            true, 0⟩ } with
        fit := some ⟨false, false, 10000 - 8192, 10000, true, false, false,
          true, 0 + 8192⟩
        transferredBytes := 0 + 8192 } := by
  refine ⟨by decide, ?_, ?_⟩
  · exact (c4_chunk_size_policy { initRecv with
        status := SStatus.inTransfer
        fit := some ⟨false, false, 10000, 10000, false, false, false,
          true, 0⟩ }
      ⟨false, false, 10000, 10000, false, false, false, true, 0⟩
      rfl rfl rfl rfl).2.2.2.1
  · exact (c4_chunk_size_policy { initRecv with
        status := SStatus.inTransfer
        fit := some ⟨false, false, 10000, 10000, false, false, false,
          true, 0⟩ }
      ⟨false, false, 10000, 10000, false, false, false, true, 0⟩
      rfl rfl rfl rfl).2.1 (by decide)

end SYF
